import Mathlib

/-!
# Dement.io game server (`src/server.js`): a shallow embedding

The classes `ServerPlayer`, `ServerProjectile`, `GameRoom`, the function `gameLoop`, the
function `sendGameState` and the socket handlers are translated to pure functions on
explicit state.

* JavaScript numbers are rationals (`ℚ`): arithmetic is exact, there is no rounding, no
  `NaN` and no infinity.
* What the source draws from outside is an argument of the function that draws it:
  `Math.sqrt`, `Math.cos`, `Math.sin` are functions `ℚ → ℚ`, the results of `Math.random()`
  and `Date.now()` and the random strings are values.
* A `Map` is an association list in insertion order, with the operations `mapGet`,
  `mapHas`, `mapSet`, `mapDelete`, `mapUpdate`.
* A mutating method returns the object after the call (and its result, if it has one).
* Every `emit` is an `Event`; a handler returns the events it emits, in order.
* A player type is one of the four keys of `PLAYER_TYPES`, and an input carries the four
  movement keys as booleans.
-/

namespace Dementio

/-! ## Game configuration (server.js 42-55) -/

def WORLD_SIZE : ℚ := 15000
def PLAYER_SPEED : ℚ := 3 / 10
def MAX_VELOCITY : ℚ := 4
def PLAYER_RADIUS : ℚ := 20
def FRICTION : ℚ := 9 / 10
def BASE_PROJECTILE_DAMAGE : ℚ := 10
def PROJECTILE_DURATION : ℚ := 2000

/-- The keys of the `PLAYER_TYPES` table. -/
inductive PlayerType where
  | FEU
  | EAU
  | TERRE
  | VENT
  deriving DecidableEq, Repr

/-- One entry of the `PLAYER_TYPES` table. -/
structure TypeProps where
  name : String
  color : String
  damageModifier : ℚ
  speedModifier : ℚ
  baseProjectileSpeed : ℚ
  deriving DecidableEq

def PLAYER_TYPES : PlayerType → TypeProps
  | .FEU => ⟨"Feu", "#ff4500", 12 / 10, 1, 10⟩
  | .EAU => ⟨"Eau", "#00bfff", 1, 11 / 10, 10⟩
  | .TERRE => ⟨"Terre", "#8b4513", 11 / 10, 9 / 10, 10⟩
  | .VENT => ⟨"Vent", "#e0ffff", 8 / 10, 12 / 10, 10⟩

/-! ## Player input -/

/-- The four movement keys read by `update`: the truthiness of
`input.keys['z']`, `['s']`, `['q']`, `['d']`. -/
structure Keys where
  z : Bool
  s : Bool
  q : Bool
  d : Bool
  deriving DecidableEq

/-- The input snapshot `{ keys, mouse: { x, y } }`. -/
structure Input where
  keys : Keys
  mouseX : ℚ
  mouseY : ℚ
  deriving DecidableEq

/-- The constructor's `{ keys: {}, mouse: { x: 0, y: 0 } }`: no key is held. -/
def Input.empty : Input := ⟨⟨false, false, false, false⟩, 0, 0⟩

/-! ## ServerPlayer (server.js 58-157) -/

structure ServerPlayer where
  id : String
  type : PlayerType
  name : String
  x : ℚ
  y : ℚ
  velX : ℚ
  velY : ℚ
  radius : ℚ
  level : ℕ
  xp : ℕ
  hp : ℚ
  maxHp : ℚ
  lastInput : Input
  typeProps : TypeProps
  alive : Bool
  respawnTime : ℚ
  room : String
  deriving DecidableEq

/-- The result object of `takeDamage`: `{ died: true, attackerId }` or
`{ died: false }`. -/
structure DamageResult where
  died : Bool
  attackerId : Option String
  deriving DecidableEq

namespace ServerPlayer

/-- The `constructor(id, type, name)`; `rx`, `ry` are the two `Math.random()`
results, in call order. -/
def new (id : String) (type : PlayerType) (name : String) (rx ry : ℚ) : ServerPlayer where
  id := id
  type := type
  name := name
  x := rx * (WORLD_SIZE - 2000) + 1000
  y := ry * (WORLD_SIZE - 2000) + 1000
  velX := 0
  velY := 0
  radius := PLAYER_RADIUS
  level := 1
  xp := 0
  hp := 100
  maxHp := 100
  lastInput := Input.empty
  typeProps := PLAYER_TYPES type
  alive := true
  respawnTime := 0
  room := "principal"

/-- The method `respawn()`; `rx`, `ry` are the two `Math.random()` results. -/
def respawn (p : ServerPlayer) (rx ry : ℚ) : ServerPlayer :=
  { p with
    x := rx * (WORLD_SIZE - 2000) + 1000
    y := ry * (WORLD_SIZE - 2000) + 1000
    hp := p.maxHp
    velX := 0
    velY := 0
    alive := true }

/-- The method `update(input, deltaTime)`. `sqrt` is `Math.sqrt`; `rx`, `ry` are the
results `Math.random()` gives if `respawn` is reached. -/
def update (sqrt : ℚ → ℚ) (p : ServerPlayer) (input : Input) (deltaTime : ℚ)
    (rx ry : ℚ) : ServerPlayer :=
  if p.alive = false then
    let p1 := { p with respawnTime := p.respawnTime - deltaTime }
    if p1.respawnTime ≤ 0 then p1.respawn rx ry else p1
  else
    let p1 := { p with lastInput := input }
    let speed := PLAYER_SPEED * p1.typeProps.speedModifier
    let accelY0 : ℚ := 0
    let accelX0 : ℚ := 0
    let accelY1 := if input.keys.z then accelY0 - speed else accelY0
    let accelY := if input.keys.s then accelY1 + speed else accelY1
    let accelX1 := if input.keys.q then accelX0 - speed else accelX0
    let accelX := if input.keys.d then accelX1 + speed else accelX1
    let p2 := { p1 with velX := p1.velX + accelX * deltaTime }
    let p3 := { p2 with velY := p2.velY + accelY * deltaTime }
    let p4 := { p3 with velX := p3.velX * FRICTION }
    let p5 := { p4 with velY := p4.velY * FRICTION }
    let currentVelocity := sqrt (p5.velX * p5.velX + p5.velY * p5.velY)
    let p6 :=
      if currentVelocity > MAX_VELOCITY then
        let ratio := MAX_VELOCITY / currentVelocity
        { p5 with velX := p5.velX * ratio, velY := p5.velY * ratio }
      else p5
    let p7 := { p6 with x := p6.x + p6.velX }
    let p8 := { p7 with y := p7.y + p7.velY }
    let p9 := { p8 with x := max p8.radius (min (WORLD_SIZE - p8.radius) p8.x) }
    { p9 with y := max p9.radius (min (WORLD_SIZE - p9.radius) p9.y) }

/-- The method `takeDamage(damage, attackerId)`: the player after the call and the
returned object. -/
def takeDamage (p : ServerPlayer) (damage : ℚ) (attackerId : String) :
    ServerPlayer × DamageResult :=
  let p1 := { p with hp := max 0 (p.hp - damage) }
  if p1.hp ≤ 0 ∧ p1.alive = true then
    ({ p1 with alive := false, respawnTime := 3000 }, ⟨true, some attackerId⟩)
  else
    (p1, ⟨false, none⟩)

end ServerPlayer

/-- The bounds of the position: `radius ≤ x ≤ WORLD_SIZE - radius`, the same for `y`. -/
def InBounds (p : ServerPlayer) : Prop :=
  p.radius ≤ p.x ∧ p.x ≤ WORLD_SIZE - p.radius ∧
  p.radius ≤ p.y ∧ p.y ≤ WORLD_SIZE - p.radius

instance (p : ServerPlayer) : Decidable (InBounds p) := by
  unfold InBounds; infer_instance

/-- The health range `0 ≤ hp ≤ maxHp`. -/
def HpInRange (p : ServerPlayer) : Prop := 0 ≤ p.hp ∧ p.hp ≤ p.maxHp

instance (p : ServerPlayer) : Decidable (HpInRange p) := by
  unfold HpInRange; infer_instance

/-- A result of `Math.random()`: a number in `[0, 1)`. -/
def IsRandom (r : ℚ) : Prop := 0 ≤ r ∧ r < 1

instance (r : ℚ) : Decidable (IsRandom r) := by
  unfold IsRandom; infer_instance

/-! ## ServerProjectile (server.js 159-205) -/

structure ServerProjectile where
  id : String
  shooterId : String
  x : ℚ
  y : ℚ
  angle : ℚ
  type : PlayerType
  damage : ℚ
  speed : ℚ
  velX : ℚ
  velY : ℚ
  radius : ℚ
  spawnTime : ℚ
  color : String
  room : String
  deriving DecidableEq

/-- The result object of `ServerProjectile.update`: `{ hit: true }` or `{ hit: false }`. -/
structure UpdateResult where
  hit : Bool
  deriving DecidableEq

namespace ServerProjectile

/-- The `constructor(shooterId, x, y, angle, type)`; `cos`, `sin` are `Math.cos`,
`Math.sin`, `randomId` is the random string drawn for `id` and `now` is the result of
`Date.now()`. -/
def new (cos sin : ℚ → ℚ) (randomId : String) (now : ℚ) (shooterId : String)
    (x y angle : ℚ) (type : PlayerType) : ServerProjectile where
  id := randomId
  shooterId := shooterId
  x := x
  y := y
  angle := angle
  type := type
  damage := BASE_PROJECTILE_DAMAGE * (PLAYER_TYPES type).damageModifier
  speed := (PLAYER_TYPES type).baseProjectileSpeed
  velX := cos angle * (PLAYER_TYPES type).baseProjectileSpeed
  velY := sin angle * (PLAYER_TYPES type).baseProjectileSpeed
  radius := 10
  spawnTime := now
  color := (PLAYER_TYPES type).color
  room := "principal"

/-- The method `update(deltaTime)`: the projectile after the call and the returned
object. -/
def update (p : ServerProjectile) (_deltaTime : ℚ) : ServerProjectile × UpdateResult :=
  let p1 := { p with x := p.x + p.velX }
  let p2 := { p1 with y := p1.y + p1.velY }
  if p2.x < 0 ∨ p2.x > WORLD_SIZE ∨ p2.y < 0 ∨ p2.y > WORLD_SIZE then
    (p2, ⟨true⟩)
  else
    (p2, ⟨false⟩)

/-- The method `isExpired()`; `now` is the result of `Date.now()`. -/
def isExpired (p : ServerProjectile) (now : ℚ) : Bool :=
  decide (now - p.spawnTime > PROJECTILE_DURATION)

end ServerProjectile

/-! ## Messages sent to the clients -/

/-- The object built by `ServerPlayer.toClientData`. -/
structure PlayerData where
  id : String
  x : ℚ
  y : ℚ
  velX : ℚ
  velY : ℚ
  type : PlayerType
  name : String
  level : ℕ
  hp : ℚ
  maxHp : ℚ
  radius : ℚ
  alive : Bool
  room : String
  deriving DecidableEq

/-- The object built by `ServerProjectile.toClientData`. -/
structure ProjectileData where
  id : String
  x : ℚ
  y : ℚ
  angle : ℚ
  type : PlayerType
  color : String
  radius : ℚ
  room : String
  deriving DecidableEq

def ServerPlayer.toClientData (p : ServerPlayer) : PlayerData :=
  ⟨p.id, p.x, p.y, p.velX, p.velY, p.type, p.name, p.level, p.hp, p.maxHp, p.radius,
    p.alive, p.room⟩

def ServerProjectile.toClientData (p : ServerProjectile) : ProjectileData :=
  ⟨p.id, p.x, p.y, p.angle, p.type, p.color, p.radius, p.room⟩

/-- One `emit`. For `io.to(r).emit(...)` the first field is the room `r`; for
`socket.emit(...)` it is the socket id. -/
inductive Event where
  | playerHit (toRoom : String) (playerId : String) (damage : ℚ) (newHp : ℚ)
  | playerDied (toRoom : String) (playerId : String) (killerId : Option String)
  | welcomeMessage (toSocket : String) (room : String) (playerCount : ℕ) (playerId : String)
  | roomUpdate (toRoom : String) (players : List PlayerData) (room : String)
  | gameState (toRoom : String) (players : List PlayerData)
      (projectiles : List ProjectileData)
  | shootEffect (toRoom : String) (playerId : String) (x y angle : ℚ) (type : PlayerType)
  deriving DecidableEq

/-- Whether the event is a `playerHit`. -/
def Event.isPlayerHit : Event → Bool
  | .playerHit .. => true
  | _ => false

/-- Whether the event is a `playerDied`. -/
def Event.isPlayerDied : Event → Bool
  | .playerDied .. => true
  | _ => false

/-- Whether the event is the `playerDied` of the player `playerId`. -/
def Event.isDeathOf (playerId : String) : Event → Bool
  | .playerDied _ pid _ => pid == playerId
  | _ => false

/-! ## JavaScript `Map`, as an association list in insertion order -/

/-- `Map.prototype.get`. -/
def mapGet {β : Type} (m : List (String × β)) (k : String) : Option β :=
  (m.find? (fun e => e.1 == k)).map Prod.snd

/-- `Map.prototype.has`. -/
def mapHas {β : Type} (m : List (String × β)) (k : String) : Bool :=
  m.any (fun e => e.1 == k)

/-- `Map.prototype.set`: an existing key keeps its place and gets the new value, a new
key goes to the end. -/
def mapSet {β : Type} : List (String × β) → String → β → List (String × β)
  | [], k, v => [(k, v)]
  | e :: m, k, v => if e.1 = k then (k, v) :: m else e :: mapSet m k v

/-- `Map.prototype.delete`. -/
def mapDelete {β : Type} (m : List (String × β)) (k : String) : List (String × β) :=
  m.filter (fun e => e.1 != k)

/-! ## Game state and game loop (server.js 239-299) -/

structure GameState where
  players : List (String × ServerPlayer)
  projectiles : List ServerProjectile
  lastUpdateTime : ℚ
  shouldSendUpdate : Bool
  deriving DecidableEq

/-- The test at line 268: the player is skipped (`continue`). -/
def skipped (projectile : ServerProjectile) (playerId : String) (player : ServerPlayer) :
    Bool :=
  decide (playerId = projectile.shooterId) || !player.alive ||
    decide (player.room ≠ projectile.room)

/-- The test at lines 270-274: `distance < projectile.radius + player.radius`. -/
def overlaps (sqrt : ℚ → ℚ) (projectile : ServerProjectile) (player : ServerPlayer) : Bool :=
  let dx := projectile.x - player.x
  let dy := projectile.y - player.y
  let distance := sqrt (dx * dx + dy * dy)
  decide (distance < projectile.radius + player.radius)

/-- The body of the `if` at lines 275-289: `takeDamage` on the player and the events
emitted. -/
def resolveHit (projectile : ServerProjectile) (playerId : String) (player : ServerPlayer) :
    ServerPlayer × List Event :=
  let r := player.takeDamage projectile.damage projectile.shooterId
  let hit := Event.playerHit r.1.room playerId projectile.damage r.1.hp
  if r.2.died then
    (r.1, [hit, Event.playerDied r.1.room playerId r.2.attackerId])
  else
    (r.1, [hit])

/-- The inner loop `for (const [playerId, player] of gameState.players)` at lines
267-294, over the entries not yet visited. `none`: the loop ran to its end without a
hit. `some (players, events)`: it left by `break`, with the entries after `takeDamage`
and the events emitted. -/
def collide (sqrt : ℚ → ℚ) (projectile : ServerProjectile) :
    List (String × ServerPlayer) → Option (List (String × ServerPlayer) × List Event)
  | [] => none
  | (playerId, player) :: rest =>
    if skipped projectile playerId player then
      (collide sqrt projectile rest).map (fun r => ((playerId, player) :: r.1, r.2))
    else if overlaps sqrt projectile player then
      let r := resolveHit projectile playerId player
      some ((playerId, r.1) :: rest, r.2)
    else
      (collide sqrt projectile rest).map (fun r => ((playerId, player) :: r.1, r.2))

/-- The variables the projectile loop works on. -/
structure LoopState where
  players : List (String × ServerPlayer)
  projectiles : List ServerProjectile
  events : List Event
  deriving DecidableEq

/-- One iteration of the loop at lines 257-295, for the index `i`. `clock` is the
result of `Date.now()` in `isExpired`. `none`: `gameState.projectiles[i]` is
`undefined` (the source would throw). -/
def loopBody (sqrt : ℚ → ℚ) (deltaTime : ℚ) (clock : ℚ) (i : ℕ) (st : LoopState) :
    Option LoopState :=
  match st.projectiles[i]? with
  | none => none
  | some projectile0 =>
    let u := projectile0.update deltaTime
    let projectile := u.1
    let updateResult := u.2
    let st1 := { st with projectiles := st.projectiles.set i projectile }
    if updateResult.hit || projectile.isExpired clock then
      some { st1 with projectiles := st1.projectiles.eraseIdx i }
    else
      match collide sqrt projectile st1.players with
      | some r =>
        some { players := r.1
               projectiles := st1.projectiles.eraseIdx i
               events := st1.events ++ r.2 }
      | none => some st1

/-- The loop `for (let i = n - 1; i >= 0; i--)` at lines 257-295, with `n` iterations
left. `clock i` is the result of `Date.now()` in the iteration for the index `i`. -/
def projectileLoop (sqrt : ℚ → ℚ) (deltaTime : ℚ) (clock : ℕ → ℚ) :
    ℕ → LoopState → Option LoopState
  | 0, st => some st
  | i + 1, st =>
    match loopBody sqrt deltaTime (clock i) i st with
    | none => none
    | some st1 => projectileLoop sqrt deltaTime clock i st1

/-- The `forEach` at lines 252-254. `rnd id` are the two results `Math.random()` gives
if the player stored under `id` respawns. -/
def updatePlayers (sqrt : ℚ → ℚ) (deltaTime : ℚ) (rnd : String → ℚ × ℚ)
    (players : List (String × ServerPlayer)) : List (String × ServerPlayer) :=
  players.map (fun e => (e.1, e.2.update sqrt e.2.lastInput deltaTime (rnd e.1).1 (rnd e.1).2))

/-- The function `gameLoop()`. `now` is the result of `Date.now()` at line 248. The
result is the new state and the events emitted, in order. -/
def gameLoop (sqrt : ℚ → ℚ) (now : ℚ) (clock : ℕ → ℚ) (rnd : String → ℚ × ℚ)
    (gs : GameState) : Option (GameState × List Event) :=
  let deltaTime := min 100 (now - gs.lastUpdateTime)
  let players := updatePlayers sqrt deltaTime rnd gs.players
  match projectileLoop sqrt deltaTime clock gs.projectiles.length
      ⟨players, gs.projectiles, []⟩ with
  | none => none
  | some st =>
    some ({ players := st.players
            projectiles := st.projectiles
            lastUpdateTime := now
            shouldSendUpdate := true }, st.events)

/-! ## Rooms (server.js 207-236) -/

/-- The class `GameRoom`. Its `players` map is kept as the list of its keys, in
insertion order: the one call of `addPlayer` (line 355) stores under the key
`socket.id` the very object that line 356 stores in `gameState.players` under the same
key, so the value of a key is read from `gameState.players`. -/
structure GameRoom where
  name : String
  players : List String
  createdAt : ℚ
  deriving DecidableEq

namespace GameRoom

/-- The `constructor(name)`; `now` is the result of `Date.now()`. -/
def new (name : String) (now : ℚ) : GameRoom := ⟨name, [], now⟩

/-- The method `addPlayer(playerId, playerData)`: the room and the player object after
the call. -/
def addPlayer (room : GameRoom) (playerId : String) (playerData : ServerPlayer) :
    GameRoom × ServerPlayer :=
  ({ room with
      players := if playerId ∈ room.players then room.players
        else room.players ++ [playerId] },
   { playerData with room := room.name })

/-- The method `removePlayer(playerId)`. -/
def removePlayer (room : GameRoom) (playerId : String) : GameRoom :=
  { room with players := room.players.filter (fun k => k != playerId) }

/-- The method `getPlayerCount()`. -/
def getPlayerCount (room : GameRoom) : ℕ := room.players.length

/-- The method `getPlayersData()`; `store` is `gameState.players`. -/
def getPlayersData (room : GameRoom) (store : List (String × ServerPlayer)) :
    List PlayerData :=
  room.players.filterMap (fun k => (mapGet store k).map ServerPlayer.toClientData)

end GameRoom

/-- A call of a method on the object stored under `k`: the value of the first entry
with the key `k` is replaced by `f` of it. -/
def mapUpdate {β : Type} : List (String × β) → String → (β → β) → List (String × β)
  | [], _, _ => []
  | e :: m, k, f => if e.1 = k then (e.1, f e.2) :: m else e :: mapUpdate m k f

/-! ## The server and its socket handlers (server.js 323-432) -/

/-- The mutable state of the server: the global `rooms`, the global `gameState` and, for
each connection (by `socket.id`), the variable `currentRoom` of its closure; a
connection without an entry still has the initial value `'principal'`. -/
structure Server where
  rooms : List (String × GameRoom)
  gameState : GameState
  currentRoom : List (String × String)
  deriving DecidableEq

/-- The value of `currentRoom` in the closure of the connection `socketId`. -/
def Server.currentRoomOf (s : Server) (socketId : String) : String :=
  (mapGet s.currentRoom socketId).getD "principal"

/-- The state after module initialisation (lines 208, 236, 239-244); `now` is the
result of `Date.now()`. -/
def Server.init (now : ℚ) : Server where
  rooms := [("principal", GameRoom.new "principal" now)]
  gameState := ⟨[], [], now, false⟩
  currentRoom := []

/-- The payload of `joinRoom`: `data.room` (`""` when it is falsy), `data.playerData.type`
and `data.playerData.name` (`""` when it is falsy). -/
structure JoinData where
  room : String
  type : PlayerType
  name : String
  deriving DecidableEq

/-- The handler of `joinRoom` (lines 329-375). `rx`, `ry` are the `Math.random()`
results of the player constructor, `randomName` is the name built at line 352 and `now`
the result of `Date.now()` if a room is created. At line 347 `rooms.get(roomName)` is
the room found or just created; the branch `none` stands for `undefined` there. -/
def joinRoom (s : Server) (socketId : String) (data : JoinData) (rx ry : ℚ)
    (randomName : String) (now : ℚ) : Server × List Event :=
  let roomName := if data.room = "" then "principal" else data.room
  let currentRoom := s.currentRoomOf socketId
  let rooms1 :=
    if mapHas s.rooms currentRoom then
      mapUpdate s.rooms currentRoom (fun r => r.removePlayer socketId)
    else s.rooms
  let rooms2 :=
    if !mapHas rooms1 roomName then mapSet rooms1 roomName (GameRoom.new roomName now)
    else rooms1
  let conns := mapSet s.currentRoom socketId roomName
  match mapGet rooms2 roomName with
  | none => (s, [])
  | some room0 =>
    let newPlayer0 := ServerPlayer.new socketId data.type
      (if data.name = "" then randomName else data.name) rx ry
    let a := room0.addPlayer socketId newPlayer0
    let room := a.1
    let newPlayer := a.2
    let rooms3 := mapUpdate rooms2 roomName (fun _ => room)
    let players := mapSet s.gameState.players socketId newPlayer
    ({ rooms := rooms3
       gameState := { s.gameState with players := players, shouldSendUpdate := true }
       currentRoom := conns },
     [Event.welcomeMessage socketId roomName room.getPlayerCount socketId,
      Event.roomUpdate roomName (room.getPlayersData players) roomName])

/-- The handler of `playerInput` (lines 378-383). -/
def playerInput (s : Server) (socketId : String) (input : Input) : Server :=
  { s with gameState := { s.gameState with
      players := mapUpdate s.gameState.players socketId
        (fun player => { player with lastInput := input }) } }

/-- The handler of `playerShoot` (lines 386-410). `cos`, `sin`, `randomId`, `now` are
what the projectile constructor draws. -/
def playerShoot (cos sin : ℚ → ℚ) (s : Server) (socketId : String) (angle : ℚ)
    (randomId : String) (now : ℚ) : Server × List Event :=
  match mapGet s.gameState.players socketId with
  | none => (s, [])
  | some player =>
    if player.alive = false then (s, [])
    else
      let projectile0 :=
        ServerProjectile.new cos sin randomId now socketId player.x player.y angle player.type
      let projectile := { projectile0 with room := s.currentRoomOf socketId }
      ({ s with gameState := { s.gameState with
            projectiles := s.gameState.projectiles ++ [projectile]
            shouldSendUpdate := true } },
       [Event.shootEffect (s.currentRoomOf socketId) socketId player.x player.y angle
          player.type])

/-- The handler of `disconnect` (lines 413-431). -/
def disconnect (s : Server) (socketId : String) : Server × List Event :=
  let currentRoom := s.currentRoomOf socketId
  let r : List (String × GameRoom) × List Event :=
    if mapHas s.rooms currentRoom then
      let rooms1 := mapUpdate s.rooms currentRoom (fun r => r.removePlayer socketId)
      match mapGet rooms1 currentRoom with
      | some room =>
        (rooms1,
         [Event.roomUpdate currentRoom (room.getPlayersData s.gameState.players) currentRoom])
      | none => (rooms1, [])
    else (s.rooms, [])
  ({ s with
      rooms := r.1
      gameState := { s.gameState with
        players := mapDelete s.gameState.players socketId
        shouldSendUpdate := true } },
   r.2)

/-- The function `sendGameState()` (lines 302-321). -/
def sendGameState (s : Server) : Server × List Event :=
  if s.gameState.shouldSendUpdate = false then (s, [])
  else
    ({ s with gameState := { s.gameState with shouldSendUpdate := false } },
     s.rooms.filterMap (fun e =>
       if e.2.getPlayerCount > 0 then
         some (Event.gameState e.1 (e.2.getPlayersData s.gameState.players)
           ((s.gameState.projectiles.filter (fun p => p.room == e.1)).map
             ServerProjectile.toClientData))
       else none))

/-- An event on a socket that changes the rooms: `joinRoom` with its payload and the
values drawn while it runs, or `disconnect`. -/
inductive RoomEvent where
  | joinRoom (socketId : String) (data : JoinData) (rx ry : ℚ) (randomName : String)
      (now : ℚ)
  | disconnect (socketId : String)
  deriving DecidableEq

/-- The server after the handler of one event. -/
def Server.handle (s : Server) : RoomEvent → Server
  | .joinRoom socketId data rx ry randomName now =>
    (joinRoom s socketId data rx ry randomName now).1
  | .disconnect socketId => (disconnect s socketId).1

/-- The server after the handlers of a sequence of events, in order. -/
def Server.run (s : Server) (events : List RoomEvent) : Server :=
  events.foldl Server.handle s

/-- The number of players of `gameState.players` whose `room` field is `r`. -/
def Server.countInRoom (s : Server) (r : String) : ℕ :=
  (s.gameState.players.filter (fun e => e.2.room == r)).length

/-! ## Definitions used to state the properties -/

/-- The acceleration `(accelX, accelY)` computed at lines 91-97. -/
def ServerPlayer.accel (p : ServerPlayer) (input : Input) : ℚ × ℚ :=
  let speed := PLAYER_SPEED * p.typeProps.speedModifier
  ((if input.keys.q then -speed else 0) + (if input.keys.d then speed else 0),
   (if input.keys.z then -speed else 0) + (if input.keys.s then speed else 0))

/-- The velocity `(velX, velY)` after lines 99-102: acceleration, then friction. -/
def ServerPlayer.damped (p : ServerPlayer) (input : Input) (deltaTime : ℚ) : ℚ × ℚ :=
  ((p.velX + (p.accel input).1 * deltaTime) * FRICTION,
   (p.velY + (p.accel input).2 * deltaTime) * FRICTION)

/-- The squared speed after lines 99-102, the argument of `Math.sqrt` at line 104. -/
def ServerPlayer.dampedSq (p : ServerPlayer) (input : Input) (deltaTime : ℚ) : ℚ :=
  (p.damped input deltaTime).1 * (p.damped input deltaTime).1 +
    (p.damped input deltaTime).2 * (p.damped input deltaTime).2

/-- The velocity `(velX, velY)` after lines 104-109: the one of `damped`, scaled by
`MAX_VELOCITY / currentVelocity` when `currentVelocity` exceeds `MAX_VELOCITY`. -/
def ServerPlayer.newVel (sqrt : ℚ → ℚ) (p : ServerPlayer) (input : Input) (deltaTime : ℚ) :
    ℚ × ℚ :=
  if sqrt (p.dampedSq input deltaTime) > MAX_VELOCITY then
    ((p.damped input deltaTime).1 * (MAX_VELOCITY / sqrt (p.dampedSq input deltaTime)),
     (p.damped input deltaTime).2 * (MAX_VELOCITY / sqrt (p.dampedSq input deltaTime)))
  else p.damped input deltaTime

/-- The function `sqrt` returns the square root of `q`: a number that is not negative and
whose square is `q`. -/
def IsSqrtAt (sqrt : ℚ → ℚ) (q : ℚ) : Prop := 0 ≤ sqrt q ∧ sqrt q * sqrt q = q

instance (sqrt : ℚ → ℚ) (q : ℚ) : Decidable (IsSqrtAt sqrt q) := by
  unfold IsSqrtAt; infer_instance

/-- The function `sqrt` returns at `q` a number that is not below the square root of `q`:
it is not negative and its square is at least `q`. The square root itself is such a
number; a rational `q` that is not a square has no rational square root, but has such
numbers as close to it as wanted. -/
def SqrtNotBelow (sqrt : ℚ → ℚ) (q : ℚ) : Prop := 0 ≤ sqrt q ∧ q ≤ sqrt q * sqrt q

instance (sqrt : ℚ → ℚ) (q : ℚ) : Decidable (SqrtNotBelow sqrt q) := by
  unfold SqrtNotBelow; infer_instance

/-- One call of `update`: its arguments and the values `Math.random()` would give. -/
structure UpdateCall where
  input : Input
  deltaTime : ℚ
  rx : ℚ
  ry : ℚ
  deriving DecidableEq

/-- The player after a sequence of calls of `update`, in order. -/
def ServerPlayer.updates (sqrt : ℚ → ℚ) (p : ServerPlayer) (calls : List UpdateCall) :
    ServerPlayer :=
  calls.foldl (fun q c => q.update sqrt c.input c.deltaTime c.rx c.ry) p

/-- The time elapsed over a sequence of calls of `update`: the sum of their `deltaTime`. -/
def elapsed (calls : List UpdateCall) : ℚ := (calls.map UpdateCall.deltaTime).sum

/-- A projectile can hit a player: the player is not skipped at line 268 and the test of
line 274 holds. -/
def eligible (sqrt : ℚ → ℚ) (projectile : ServerProjectile) (e : String × ServerPlayer) :
    Bool :=
  !skipped projectile e.1 e.2 && overlaps sqrt projectile e.2

/-- The tick seen from one projectile, as the specification words it: integrate the
position; on world exit or expiry drop the projectile; else resolve the hit on the first
player it can hit and drop it, or keep it when there is none. `st.projectiles` are the
projectiles kept so far (those behind this one in the store). -/
def processOne (sqrt : ℚ → ℚ) (deltaTime : ℚ) (clock : ℚ) (projectile0 : ServerProjectile)
    (st : LoopState) : LoopState :=
  let u := projectile0.update deltaTime
  if u.2.hit || u.1.isExpired clock then st
  else
    match collide sqrt u.1 st.players with
    | some r => { players := r.1, projectiles := st.projectiles, events := st.events ++ r.2 }
    | none => { st with projectiles := u.1 :: st.projectiles }

/-- Every projectile of `l` handled by `processOne` once, from the last to the first;
the projectile at index `i` reads the clock value `clock i`. -/
def sweep (sqrt : ℚ → ℚ) (deltaTime : ℚ) (clock : ℕ → ℚ) (l : List ServerProjectile)
    (st : LoopState) : LoopState :=
  l.enum.foldr (fun ia acc => processOne sqrt deltaTime (clock ia.1) ia.2 acc) st

/-- What `gameLoop` does to one player: a projectile hits it (lines 275-289), or a tick
updates it (line 253). -/
inductive LifeStep where
  | hit (projectile : ServerProjectile)
  | tick (call : UpdateCall)
  deriving DecidableEq

/-- One life of the player stored under `playerId`: the steps are applied while the
player is alive, and the life ends when it is not (a projectile skips a player that is
not alive, line 268; what follows belongs to the next life). The result is the player and
the events emitted. -/
def life (sqrt : ℚ → ℚ) (playerId : String) :
    ServerPlayer → List LifeStep → ServerPlayer × List Event
  | p, [] => (p, [])
  | p, step :: rest =>
    if p.alive = false then (p, [])
    else
      match step with
      | .hit projectile =>
        let r := resolveHit projectile playerId p
        let t := life sqrt playerId r.1 rest
        (t.1, r.2 ++ t.2)
      | .tick call =>
        life sqrt playerId (p.update sqrt call.input call.deltaTime call.rx call.ry) rest

/-- The state of the rooms and of the player store agree: keys are unique (they are
those of a `Map`), a room is stored under its name, every player of the store is a member
of the room its `room` field names, which is the `currentRoom` of its connection, and
every member of a room is a player of the store whose connection has that room as
`currentRoom`. -/
structure Consistent (s : Server) : Prop where
  roomKeys : (s.rooms.map Prod.fst).Nodup
  storeKeys : (s.gameState.players.map Prod.fst).Nodup
  members : ∀ e ∈ s.rooms, e.2.players.Nodup
  names : ∀ e ∈ s.rooms, e.2.name = e.1
  storeRoom : ∀ e ∈ s.gameState.players,
    e.2.room = s.currentRoomOf e.1 ∧ ∃ r, (e.2.room, r) ∈ s.rooms ∧ e.1 ∈ r.players
  roomStore : ∀ e ∈ s.rooms, ∀ id ∈ e.2.players,
    s.currentRoomOf id = e.1 ∧ id ∈ s.gameState.players.map Prod.fst

/-- Anything that changes the state of the server: the four socket events, with their
payload and the values drawn while the handler runs, and the two timers. -/
inductive ServerEvent where
  | joinRoom (socketId : String) (data : JoinData) (rx ry : ℚ) (randomName : String)
      (now : ℚ)
  | playerInput (socketId : String) (input : Input)
  | playerShoot (socketId : String) (angle : ℚ) (randomId : String) (now : ℚ)
  | disconnect (socketId : String)
  | gameLoop (now : ℚ) (clock : ℕ → ℚ) (rnd : String → ℚ × ℚ)
  | sendGameState

/-- The server after one event. `cos`, `sin`, `sqrt` are `Math.cos`, `Math.sin`,
`Math.sqrt`. -/
def Server.step (cos sin sqrt : ℚ → ℚ) (s : Server) : ServerEvent → Server
  | .joinRoom socketId data rx ry randomName now =>
    (joinRoom s socketId data rx ry randomName now).1
  | .playerInput socketId input => playerInput s socketId input
  | .playerShoot socketId angle randomId now =>
    (playerShoot cos sin s socketId angle randomId now).1
  | .disconnect socketId => (disconnect s socketId).1
  | .gameLoop now clock rnd =>
    match gameLoop sqrt now clock rnd s.gameState with
    | some r => { s with gameState := r.1 }
    | none => s
  | .sendGameState => (sendGameState s).1

/-- The server after a sequence of events, in order. -/
def Server.exec (cos sin sqrt : ℚ → ℚ) (s : Server) (events : List ServerEvent) : Server :=
  events.foldl (Server.step cos sin sqrt) s

/-- The values the event draws from `Math.random()` for positions are in `[0, 1)`. -/
def ServerEvent.randomOk : ServerEvent → Prop
  | .joinRoom _ _ rx ry _ _ => IsRandom rx ∧ IsRandom ry
  | .gameLoop _ _ rnd => ∀ id, IsRandom (rnd id).1 ∧ IsRandom (rnd id).2
  | _ => True

/-- Whether the event is a `joinRoom` of the connection `socketId`. -/
def ServerEvent.isJoinOf (socketId : String) : ServerEvent → Bool
  | .joinRoom c _ _ _ _ _ => c == socketId
  | _ => false

/-- The position after integration (lines 178-179) is outside the world on an axis: the
test of line 182. -/
def leavesWorld (a : ServerProjectile) : Prop :=
  a.x + a.velX < 0 ∨ a.x + a.velX > WORLD_SIZE ∨ a.y + a.velY < 0 ∨ a.y + a.velY > WORLD_SIZE

/-- The projectile is on an edge of the world and its velocity points outward on that
axis. -/
def onEdgeOutward (a : ServerProjectile) : Prop :=
  (a.x = 0 ∧ a.velX < 0) ∨ (a.x = WORLD_SIZE ∧ a.velX > 0) ∨
  (a.y = 0 ∧ a.velY < 0) ∨ (a.y = WORLD_SIZE ∧ a.velY > 0)

/-! ## Sample values -/

/-- A player of type FEU at the centre of the world, stored under `"a"`. -/
def sampleShooter : ServerPlayer := ServerPlayer.new "a" PlayerType.FEU "Ann" (1 / 2) (1 / 2)

/-- A player of type EAU at the centre of the world, stored under `"b"`. -/
def sampleTarget : ServerPlayer := ServerPlayer.new "b" PlayerType.EAU "Bob" (1 / 2) (1 / 2)

/-- A projectile fired by `"a"` from the centre of the world along the `x` axis
(`Math.cos` gives 1, `Math.sin` gives 0). -/
def sampleProjectile : ServerProjectile :=
  ServerProjectile.new (fun _ => 1) (fun _ => 0) "p1" 0 "a" 7500 7500 0 PlayerType.FEU

/-- A projectile fired by `"a"` on the right edge of the world, moving outward. -/
def sampleEdgeProjectile : ServerProjectile :=
  ServerProjectile.new (fun _ => 1) (fun _ => 0) "p2" 0 "a" 15000 7500 0 PlayerType.FEU

/-- The player `"b"` right after its death. -/
def sampleDead : ServerPlayer :=
  { sampleTarget with hp := 0, alive := false, respawnTime := 3000 }

/-- Two updates of 2000 ms each. -/
def sampleCalls : List UpdateCall :=
  [⟨Input.empty, 2000, 1 / 2, 1 / 4⟩, ⟨Input.empty, 2000, 1 / 2, 1 / 4⟩]

/-- A server with the one room `principal` and the player `"a"` in it. -/
def sampleServer : Server where
  rooms := [("principal", ⟨"principal", ["a"], 0⟩)]
  gameState := ⟨[("a", sampleShooter)], [], 0, false⟩
  currentRoom := [("a", "principal")]

/-- The sample server with the dirty flag set and one projectile of the room `principal`
in the store. -/
def sampleDirtyServer : Server :=
  { sampleServer with
    gameState := ⟨[("a", sampleShooter)], [sampleProjectile], 0, true⟩ }

/-- The states of a player object: the one the constructor gives, and those any of the
calls and writes of the source leads to, with any arguments (`update`, `takeDamage`,
`respawn`, the write of `room` by `addPlayer`, the write of `lastInput`). -/
inductive ServerPlayer.Reachable : ServerPlayer → Prop where
  | new (id : String) (type : PlayerType) (name : String) (rx ry : ℚ) :
      ServerPlayer.Reachable (ServerPlayer.new id type name rx ry)
  | update (sqrt : ℚ → ℚ) (p : ServerPlayer) (input : Input) (deltaTime rx ry : ℚ) :
      ServerPlayer.Reachable p → ServerPlayer.Reachable (p.update sqrt input deltaTime rx ry)
  | takeDamage (p : ServerPlayer) (damage : ℚ) (attackerId : String) :
      ServerPlayer.Reachable p → ServerPlayer.Reachable (p.takeDamage damage attackerId).1
  | respawn (p : ServerPlayer) (rx ry : ℚ) :
      ServerPlayer.Reachable p → ServerPlayer.Reachable (p.respawn rx ry)
  | setRoom (p : ServerPlayer) (room : String) :
      ServerPlayer.Reachable p → ServerPlayer.Reachable { p with room := room }
  | setInput (p : ServerPlayer) (input : Input) :
      ServerPlayer.Reachable p → ServerPlayer.Reachable { p with lastInput := input }

/-! ## The reference of the movement integration

The movement of a living player as the specification words it, to be compared with
`ServerPlayer.update`. -/

/-- The value of a pair of opposite keys on an axis: `+1` for the positive key, `-1` for
the negative key, the sum when both are held (they cancel). -/
def keyAxis (positive negative : Bool) : ℚ :=
  (if positive then 1 else 0) - (if negative then 1 else 0)

/-- The acceleration `a = PLAYER_SPEED * speedModifier * (d - q, s - z)`. -/
def referenceAccel (p : ServerPlayer) (input : Input) : ℚ × ℚ :=
  (PLAYER_SPEED * p.typeProps.speedModifier * keyAxis input.keys.d input.keys.q,
   PLAYER_SPEED * p.typeProps.speedModifier * keyAxis input.keys.s input.keys.z)

/-- The velocity `w = FRICTION * (v + a * deltaTime)`. -/
def referenceDamped (p : ServerPlayer) (input : Input) (deltaTime : ℚ) : ℚ × ℚ :=
  (FRICTION * (p.velX + (referenceAccel p input).1 * deltaTime),
   FRICTION * (p.velY + (referenceAccel p input).2 * deltaTime))

/-- The magnitude `|w|` of a vector, as `sqrt` gives it. -/
def magnitude (sqrt : ℚ → ℚ) (w : ℚ × ℚ) : ℚ := sqrt (w.1 * w.1 + w.2 * w.2)

/-- The new velocity: `w` if `|w| ≤ MAX_VELOCITY`, otherwise `w * (MAX_VELOCITY / |w|)`. -/
def referenceVelocity (sqrt : ℚ → ℚ) (p : ServerPlayer) (input : Input) (deltaTime : ℚ) :
    ℚ × ℚ :=
  if magnitude sqrt (referenceDamped p input deltaTime) ≤ MAX_VELOCITY then
    referenceDamped p input deltaTime
  else
    ((referenceDamped p input deltaTime).1 *
        (MAX_VELOCITY / magnitude sqrt (referenceDamped p input deltaTime)),
     (referenceDamped p input deltaTime).2 *
        (MAX_VELOCITY / magnitude sqrt (referenceDamped p input deltaTime)))

/-- The value `x` clamped to the interval `[lo, hi]`. -/
def clamp (lo hi x : ℚ) : ℚ := if x < lo then lo else if hi < x then hi else x

/-- The living player after one step of the reference: the input is stored, the velocity
is `referenceVelocity`, the position is the old one plus the new velocity, clamped per
axis to `[radius, WORLD_SIZE - radius]`. -/
def referenceUpdate (sqrt : ℚ → ℚ) (p : ServerPlayer) (input : Input) (deltaTime : ℚ) :
    ServerPlayer :=
  { p with
    lastInput := input
    velX := (referenceVelocity sqrt p input deltaTime).1
    velY := (referenceVelocity sqrt p input deltaTime).2
    x := clamp p.radius (WORLD_SIZE - p.radius)
      (p.x + (referenceVelocity sqrt p input deltaTime).1)
    y := clamp p.radius (WORLD_SIZE - p.radius)
      (p.y + (referenceVelocity sqrt p input deltaTime).2) }

/-! ## Players: position, velocity, health -/

theorem new_inBounds (id : String) (type : PlayerType) (name : String) (rx ry : ℚ)
    (hx : IsRandom rx) (hy : IsRandom ry) :
    InBounds (ServerPlayer.new id type name rx ry) := by
  obtain ⟨hx0, hx1⟩ := hx
  obtain ⟨hy0, hy1⟩ := hy
  simp only [InBounds, ServerPlayer.new, WORLD_SIZE, PLAYER_RADIUS]
  refine ⟨?_, ?_, ?_, ?_⟩ <;> nlinarith

theorem respawn_inBounds (p : ServerPlayer) (rx ry : ℚ) (hr : p.radius = PLAYER_RADIUS)
    (hx : IsRandom rx) (hy : IsRandom ry) : InBounds (p.respawn rx ry) := by
  obtain ⟨hx0, hx1⟩ := hx
  obtain ⟨hy0, hy1⟩ := hy
  simp only [InBounds, ServerPlayer.respawn, WORLD_SIZE, hr, PLAYER_RADIUS]
  refine ⟨?_, ?_, ?_, ?_⟩ <;> nlinarith

theorem update_dead_eq (sqrt : ℚ → ℚ) (p : ServerPlayer) (input : Input)
    (deltaTime rx ry : ℚ) (ha : p.alive = false) :
    p.update sqrt input deltaTime rx ry =
      if p.respawnTime - deltaTime ≤ 0 then
        ({ p with respawnTime := p.respawnTime - deltaTime }).respawn rx ry
      else { p with respawnTime := p.respawnTime - deltaTime } := by
  unfold ServerPlayer.update
  rw [if_pos ha]

theorem update_alive_eq (sqrt : ℚ → ℚ) (p : ServerPlayer) (input : Input)
    (deltaTime rx ry : ℚ) (ha : p.alive = true) :
    p.update sqrt input deltaTime rx ry =
      { p with
        lastInput := input
        velX := (p.newVel sqrt input deltaTime).1
        velY := (p.newVel sqrt input deltaTime).2
        x := max p.radius (min (WORLD_SIZE - p.radius)
          (p.x + (p.newVel sqrt input deltaTime).1))
        y := max p.radius (min (WORLD_SIZE - p.radius)
          (p.y + (p.newVel sqrt input deltaTime).2)) } := by
  have hne : ¬ (p.alive = false) := by rw [ha]; decide
  unfold ServerPlayer.update
  rw [if_neg hne]
  obtain ⟨⟨z, s, q, d⟩, mx, my⟩ := input
  cases z <;> cases s <;> cases q <;> cases d <;>
    simp only [ServerPlayer.newVel, ServerPlayer.dampedSq, ServerPlayer.damped,
      ServerPlayer.accel, if_true, if_false, Bool.false_eq_true, zero_add, zero_sub,
      add_zero, neg_add_cancel] <;>
    split <;> rfl

theorem update_radius (sqrt : ℚ → ℚ) (p : ServerPlayer) (input : Input) (deltaTime rx ry : ℚ) :
    (p.update sqrt input deltaTime rx ry).radius = p.radius := by
  cases ha : p.alive
  · rw [update_dead_eq sqrt p input deltaTime rx ry ha]
    split <;> rfl
  · rw [update_alive_eq sqrt p input deltaTime rx ry ha]

theorem update_alive_inBounds (sqrt : ℚ → ℚ) (p : ServerPlayer) (input : Input)
    (deltaTime rx ry : ℚ) (hr : p.radius = PLAYER_RADIUS) (ha : p.alive = true) :
    InBounds (p.update sqrt input deltaTime rx ry) := by
  rw [update_alive_eq sqrt p input deltaTime rx ry ha]
  have hR : PLAYER_RADIUS ≤ WORLD_SIZE - PLAYER_RADIUS := by
    norm_num [PLAYER_RADIUS, WORLD_SIZE]
  simp only [InBounds, hr]
  exact ⟨le_max_left _ _, max_le hR (min_le_left _ _), le_max_left _ _,
      max_le hR (min_le_left _ _)⟩

theorem update_dead_inBounds (sqrt : ℚ → ℚ) (p : ServerPlayer) (input : Input)
    (deltaTime rx ry : ℚ) (hr : p.radius = PLAYER_RADIUS) (ha : p.alive = false)
    (hx : IsRandom rx) (hy : IsRandom ry) (hb : InBounds p) :
    InBounds (p.update sqrt input deltaTime rx ry) := by
  rw [update_dead_eq sqrt p input deltaTime rx ry ha]
  split
  · exact respawn_inBounds _ rx ry hr hx hy
  · exact hb

theorem sqrtNotBelow_of_isSqrtAt (sqrt : ℚ → ℚ) (q : ℚ) (h : IsSqrtAt sqrt q) :
    SqrtNotBelow sqrt q :=
  ⟨h.1, le_of_eq h.2.symm⟩

theorem dampedSq_nonneg (p : ServerPlayer) (input : Input) (deltaTime : ℚ) :
    0 ≤ p.dampedSq input deltaTime := by
  unfold ServerPlayer.dampedSq
  exact add_nonneg (mul_self_nonneg _) (mul_self_nonneg _)

theorem newVel_sq_le (sqrt : ℚ → ℚ) (p : ServerPlayer) (input : Input) (deltaTime : ℚ)
    (hs : SqrtNotBelow sqrt (p.dampedSq input deltaTime)) :
    (p.newVel sqrt input deltaTime).1 * (p.newVel sqrt input deltaTime).1 +
      (p.newVel sqrt input deltaTime).2 * (p.newVel sqrt input deltaTime).2 ≤
        MAX_VELOCITY * MAX_VELOCITY := by
  obtain ⟨h0, hsq⟩ := hs
  have hD : (p.damped input deltaTime).1 * (p.damped input deltaTime).1 +
      (p.damped input deltaTime).2 * (p.damped input deltaTime).2 =
      p.dampedSq input deltaTime := rfl
  unfold ServerPlayer.newVel
  split_ifs with h
  · have hpos : 0 < sqrt (p.dampedSq input deltaTime) :=
      lt_trans (by norm_num [MAX_VELOCITY]) h
    have hne : sqrt (p.dampedSq input deltaTime) ≠ 0 := ne_of_gt hpos
    have hss : 0 < sqrt (p.dampedSq input deltaTime) * sqrt (p.dampedSq input deltaTime) :=
      mul_pos hpos hpos
    have key : (p.damped input deltaTime).1 *
          (MAX_VELOCITY / sqrt (p.dampedSq input deltaTime)) *
          ((p.damped input deltaTime).1 *
            (MAX_VELOCITY / sqrt (p.dampedSq input deltaTime))) +
        (p.damped input deltaTime).2 *
          (MAX_VELOCITY / sqrt (p.dampedSq input deltaTime)) *
          ((p.damped input deltaTime).2 *
            (MAX_VELOCITY / sqrt (p.dampedSq input deltaTime))) =
        ((p.damped input deltaTime).1 * (p.damped input deltaTime).1 +
          (p.damped input deltaTime).2 * (p.damped input deltaTime).2) *
          (MAX_VELOCITY * MAX_VELOCITY) /
          (sqrt (p.dampedSq input deltaTime) * sqrt (p.dampedSq input deltaTime)) := by
      field_simp
      ring
    simp only
    rw [key, hD, div_le_iff₀ hss]
    have h16 : (0 : ℚ) ≤ MAX_VELOCITY * MAX_VELOCITY := by norm_num [MAX_VELOCITY]
    calc p.dampedSq input deltaTime * (MAX_VELOCITY * MAX_VELOCITY)
        ≤ sqrt (p.dampedSq input deltaTime) * sqrt (p.dampedSq input deltaTime) *
            (MAX_VELOCITY * MAX_VELOCITY) := mul_le_mul_of_nonneg_right hsq h16
      _ = MAX_VELOCITY * MAX_VELOCITY *
            (sqrt (p.dampedSq input deltaTime) * sqrt (p.dampedSq input deltaTime)) := by ring
  · have h4 : sqrt (p.dampedSq input deltaTime) ≤ MAX_VELOCITY := not_lt.mp h
    rw [hD]
    exact le_trans hsq (mul_le_mul h4 h4 h0 (le_trans h0 h4))

/-- C2. Velocity cap: after `update` of a living player, whatever its velocity, the keys
and `deltaTime`, the squared speed `velX² + velY²` is at most `MAX_VELOCITY²`, so the
speed (the number `m ≥ 0` with `m² = velX² + velY²`) is at most `MAX_VELOCITY = 4`. The
value `Math.sqrt` returns at line 104 is taken not to be below the square root of its
argument, as the square root itself is. -/
theorem C2_velocity_cap (sqrt : ℚ → ℚ) (p : ServerPlayer) (input : Input)
    (deltaTime rx ry : ℚ) (ha : p.alive = true)
    (hs : SqrtNotBelow sqrt (p.dampedSq input deltaTime)) :
    (p.update sqrt input deltaTime rx ry).velX * (p.update sqrt input deltaTime rx ry).velX +
      (p.update sqrt input deltaTime rx ry).velY * (p.update sqrt input deltaTime rx ry).velY
        ≤ MAX_VELOCITY * MAX_VELOCITY ∧
    (∀ m : ℚ, 0 ≤ m →
      m * m = (p.update sqrt input deltaTime rx ry).velX *
          (p.update sqrt input deltaTime rx ry).velX +
        (p.update sqrt input deltaTime rx ry).velY *
          (p.update sqrt input deltaTime rx ry).velY →
      m ≤ MAX_VELOCITY) ∧ MAX_VELOCITY = 4 := by
  have hle := newVel_sq_le sqrt p input deltaTime hs
  rw [update_alive_eq sqrt p input deltaTime rx ry ha]
  refine ⟨hle, ?_, rfl⟩
  intro m hm hmm
  simp only at hmm
  rw [← hmm] at hle
  by_contra hcon
  have hlt : MAX_VELOCITY < m := not_le.mp hcon
  have h4 : (0 : ℚ) < MAX_VELOCITY := by norm_num [MAX_VELOCITY]
  exact absurd hle (not_le.mpr (mul_lt_mul hlt (le_of_lt hlt) h4 hm))

/-- A witness of C2: a new player that holds `d` for 100 ms; the velocity before the cap
is `(27, 0)`, of speed 27, and after it `(4, 0)`. -/
theorem C2_velocity_cap_witness :
    ((ServerPlayer.new "a" PlayerType.FEU "Mage" (1 / 2) (1 / 4)).update
        (fun _ => 27) ⟨⟨false, false, false, true⟩, 0, 0⟩ 100 0 0).velX *
      ((ServerPlayer.new "a" PlayerType.FEU "Mage" (1 / 2) (1 / 4)).update
        (fun _ => 27) ⟨⟨false, false, false, true⟩, 0, 0⟩ 100 0 0).velX +
    ((ServerPlayer.new "a" PlayerType.FEU "Mage" (1 / 2) (1 / 4)).update
        (fun _ => 27) ⟨⟨false, false, false, true⟩, 0, 0⟩ 100 0 0).velY *
      ((ServerPlayer.new "a" PlayerType.FEU "Mage" (1 / 2) (1 / 4)).update
        (fun _ => 27) ⟨⟨false, false, false, true⟩, 0, 0⟩ 100 0 0).velY
      ≤ MAX_VELOCITY * MAX_VELOCITY :=
  (C2_velocity_cap (fun _ => 27) (ServerPlayer.new "a" PlayerType.FEU "Mage" (1 / 2) (1 / 4))
    ⟨⟨false, false, false, true⟩, 0, 0⟩ 100 0 0 rfl
    (by norm_num [SqrtNotBelow, ServerPlayer.dampedSq, ServerPlayer.damped,
      ServerPlayer.accel, ServerPlayer.new, PLAYER_TYPES, PLAYER_SPEED, FRICTION])).1

/-! ## The projectile loop visits every projectile once -/

theorem getElem?_length_append {α : Type} (pre : List α) (a : α) (suf : List α) :
    (pre ++ a :: suf)[pre.length]? = some a := by
  induction pre with
  | nil => simp
  | cons b pre ih => simpa using ih

theorem set_length_append {α : Type} (pre : List α) (a b : α) (suf : List α) :
    (pre ++ a :: suf).set pre.length b = pre ++ b :: suf := by
  induction pre with
  | nil => rfl
  | cons c pre ih => simp [ih]

theorem eraseIdx_length_append {α : Type} (pre : List α) (a : α) (suf : List α) :
    (pre ++ a :: suf).eraseIdx pre.length = pre ++ suf := by
  induction pre with
  | nil => rfl
  | cons c pre ih => simp [ih]

theorem eraseIdx_set_same {α : Type} (l : List α) (i : ℕ) (a : α) :
    (l.set i a).eraseIdx i = l.eraseIdx i := by
  induction l generalizing i with
  | nil => rfl
  | cons b l ih =>
    cases i with
    | zero => rfl
    | succ i => simp [ih]

/-- The iteration for the index of `a` in `pre ++ a :: suf` is `processOne` on `a`
and touches neither `pre` nor `suf`. -/
theorem loopBody_eq (sqrt : ℚ → ℚ) (deltaTime clock : ℚ)
    (pl : List (String × ServerPlayer)) (pre : List ServerProjectile) (a : ServerProjectile)
    (suf : List ServerProjectile) (ev : List Event) :
    loopBody sqrt deltaTime clock pre.length ⟨pl, pre ++ a :: suf, ev⟩ =
      some ⟨(processOne sqrt deltaTime clock a ⟨pl, suf, ev⟩).players,
        pre ++ (processOne sqrt deltaTime clock a ⟨pl, suf, ev⟩).projectiles,
        (processOne sqrt deltaTime clock a ⟨pl, suf, ev⟩).events⟩ := by
  unfold loopBody processOne
  simp only [getElem?_length_append, set_length_append, eraseIdx_length_append]
  split_ifs with h
  · rfl
  · cases hc : collide sqrt (a.update deltaTime).1 pl <;> rfl

theorem sweep_append_singleton (sqrt : ℚ → ℚ) (deltaTime : ℚ) (clock : ℕ → ℚ)
    (xs : List ServerProjectile) (a : ServerProjectile) (st : LoopState) :
    sweep sqrt deltaTime clock (xs ++ [a]) st =
      sweep sqrt deltaTime clock xs (processOne sqrt deltaTime (clock xs.length) a st) := by
  unfold sweep
  rw [List.enum_append, List.foldr_append]
  rfl

/-- The index loop over the first `pre.length` projectiles is `sweep` over `pre`: it never
reads an index out of range, and the projectiles behind stay as they are. -/
theorem projectileLoop_eq_sweep (sqrt : ℚ → ℚ) (deltaTime : ℚ) (clock : ℕ → ℚ)
    (pre : List ServerProjectile) :
    ∀ (pl : List (String × ServerPlayer)) (suf : List ServerProjectile) (ev : List Event),
      projectileLoop sqrt deltaTime clock pre.length ⟨pl, pre ++ suf, ev⟩ =
        some (sweep sqrt deltaTime clock pre ⟨pl, suf, ev⟩) := by
  induction pre using List.reverseRecOn with
  | nil => intro pl suf ev; rfl
  | append_singleton xs a ih =>
    intro pl suf ev
    rw [sweep_append_singleton, List.length_append, List.length_singleton]
    unfold projectileLoop
    rw [List.append_assoc, List.singleton_append, loopBody_eq]
    simp only
    exact ih _ _ _

/-! ## The inner loop finds the first player the projectile can hit -/

theorem collide_cons_not_eligible (sqrt : ℚ → ℚ) (projectile : ServerProjectile)
    (e : String × ServerPlayer) (rest : List (String × ServerPlayer))
    (h : eligible sqrt projectile e = false) :
    collide sqrt projectile (e :: rest) =
      (collide sqrt projectile rest).map (fun r => (e :: r.1, r.2)) := by
  obtain ⟨playerId, player⟩ := e
  unfold eligible at h
  cases hs : skipped projectile playerId player
  · cases ho : overlaps sqrt projectile player
    · simp [collide, hs, ho]
    · simp [hs, ho] at h
  · simp [collide, hs]

theorem collide_cons_eligible (sqrt : ℚ → ℚ) (projectile : ServerProjectile)
    (e : String × ServerPlayer) (rest : List (String × ServerPlayer))
    (h : eligible sqrt projectile e = true) :
    collide sqrt projectile (e :: rest) =
      some ((e.1, (resolveHit projectile e.1 e.2).1) :: rest,
        (resolveHit projectile e.1 e.2).2) := by
  obtain ⟨playerId, player⟩ := e
  unfold eligible at h
  cases hs : skipped projectile playerId player
  · cases ho : overlaps sqrt projectile player
    · simp [hs, ho] at h
    · simp [collide, hs, ho]
  · simp [hs] at h

/-- The inner loop ends without a hit exactly when the projectile can hit no player. -/
theorem collide_eq_none_iff (sqrt : ℚ → ℚ) (projectile : ServerProjectile)
    (pl : List (String × ServerPlayer)) :
    collide sqrt projectile pl = none ↔ ∀ e ∈ pl, eligible sqrt projectile e = false := by
  induction pl with
  | nil => simp [collide]
  | cons e rest ih =>
    cases he : eligible sqrt projectile e
    · rw [collide_cons_not_eligible sqrt projectile e rest he]
      simp [ih, he]
    · rw [collide_cons_eligible sqrt projectile e rest he]
      simp [he]

/-- The inner loop resolves the hit on the first player the projectile can hit, and leaves
the entries before and after it as they are. -/
theorem collide_first (sqrt : ℚ → ℚ) (projectile : ServerProjectile)
    (before : List (String × ServerPlayer)) (e : String × ServerPlayer)
    (after : List (String × ServerPlayer))
    (hb : ∀ b ∈ before, eligible sqrt projectile b = false)
    (he : eligible sqrt projectile e = true) :
    collide sqrt projectile (before ++ e :: after) =
      some (before ++ (e.1, (resolveHit projectile e.1 e.2).1) :: after,
        (resolveHit projectile e.1 e.2).2) := by
  induction before with
  | nil => exact collide_cons_eligible sqrt projectile e after he
  | cons b before ih =>
    rw [List.cons_append, collide_cons_not_eligible sqrt projectile b _
      (hb b (List.mem_cons_self _ _)), ih (fun c hc => hb c (List.mem_cons_of_mem _ hc))]
    rfl

/-- Either the projectile can hit no player, or there is a first one it can hit. -/
theorem first_eligible (sqrt : ℚ → ℚ) (projectile : ServerProjectile)
    (pl : List (String × ServerPlayer)) :
    (∀ e ∈ pl, eligible sqrt projectile e = false) ∨
    ∃ before e after, pl = before ++ e :: after ∧
      (∀ b ∈ before, eligible sqrt projectile b = false) ∧
      eligible sqrt projectile e = true := by
  induction pl with
  | nil => left; simp
  | cons a rest ih =>
    cases ha : eligible sqrt projectile a
    · rcases ih with h | ⟨before, e, after, hpl, hb, he⟩
      · left
        intro e hmem
        rcases List.mem_cons.mp hmem with rfl | h2
        · exact ha
        · exact h e h2
      · right
        refine ⟨a :: before, e, after, by rw [hpl]; rfl, ?_, he⟩
        intro b hmem
        rcases List.mem_cons.mp hmem with rfl | h2
        · exact ha
        · exact hb b h2
    · right
      exact ⟨[], a, rest, rfl, by simp, ha⟩

theorem eligible_iff (sqrt : ℚ → ℚ) (projectile : ServerProjectile)
    (e : String × ServerPlayer) :
    eligible sqrt projectile e = true ↔
      e.1 ≠ projectile.shooterId ∧ e.2.alive = true ∧ e.2.room = projectile.room ∧
      sqrt ((projectile.x - e.2.x) * (projectile.x - e.2.x) +
          (projectile.y - e.2.y) * (projectile.y - e.2.y)) <
        projectile.radius + e.2.radius := by
  unfold eligible skipped overlaps
  simp only [Bool.and_eq_true, Bool.not_eq_true', Bool.or_eq_false_iff, decide_eq_false_iff_not,
    decide_eq_true_eq, ne_eq, not_not, Bool.not_eq_false']
  tauto

/-! ## Damage and health -/

theorem takeDamage_hp (p : ServerPlayer) (damage : ℚ) (attackerId : String) :
    (p.takeDamage damage attackerId).1.hp = max 0 (p.hp - damage) := by
  unfold ServerPlayer.takeDamage
  simp only
  split <;> rfl

theorem takeDamage_maxHp (p : ServerPlayer) (damage : ℚ) (attackerId : String) :
    (p.takeDamage damage attackerId).1.maxHp = p.maxHp := by
  unfold ServerPlayer.takeDamage
  simp only
  split <;> rfl

theorem takeDamage_died_iff (p : ServerPlayer) (damage : ℚ) (attackerId : String) :
    (p.takeDamage damage attackerId).2.died = true ↔
      p.alive = true ∧ (p.takeDamage damage attackerId).1.hp = 0 := by
  rw [takeDamage_hp]
  unfold ServerPlayer.takeDamage
  simp only
  split
  · rename_i h
    exact ⟨fun _ => ⟨h.2, le_antisymm h.1 (le_max_left _ _)⟩, fun _ => rfl⟩
  · rename_i h
    constructor
    · intro hd; cases hd
    · rintro ⟨ha, h0⟩
      exact absurd ⟨le_of_eq h0, ha⟩ h

theorem takeDamage_of_died (p : ServerPlayer) (damage : ℚ) (attackerId : String)
    (h : (p.takeDamage damage attackerId).2.died = true) :
    p.takeDamage damage attackerId =
      ({ p with hp := max 0 (p.hp - damage), alive := false, respawnTime := 3000 },
        ⟨true, some attackerId⟩) := by
  unfold ServerPlayer.takeDamage at h ⊢
  simp only at h ⊢
  split
  · rfl
  · rename_i hn
    rw [if_neg hn] at h
    cases h

theorem takeDamage_of_not_died (p : ServerPlayer) (damage : ℚ) (attackerId : String)
    (h : (p.takeDamage damage attackerId).2.died = false) :
    p.takeDamage damage attackerId =
      ({ p with hp := max 0 (p.hp - damage) }, ⟨false, none⟩) := by
  unfold ServerPlayer.takeDamage at h ⊢
  simp only at h ⊢
  split
  · rename_i hn
    rw [if_pos hn] at h
    cases h
  · rfl

theorem takeDamage_hpInRange (p : ServerPlayer) (damage : ℚ) (attackerId : String)
    (hd : 0 ≤ damage) (h : HpInRange p) : HpInRange (p.takeDamage damage attackerId).1 := by
  unfold HpInRange
  rw [takeDamage_hp, takeDamage_maxHp]
  exact ⟨le_max_left _ _, max_le (le_trans h.1 h.2) (by linarith [h.2])⟩

theorem respawn_hpInRange (p : ServerPlayer) (rx ry : ℚ) (h : HpInRange p) :
    HpInRange (p.respawn rx ry) :=
  ⟨le_trans h.1 h.2, le_refl _⟩

theorem update_hpInRange (sqrt : ℚ → ℚ) (p : ServerPlayer) (input : Input)
    (deltaTime rx ry : ℚ) (h : HpInRange p) :
    HpInRange (p.update sqrt input deltaTime rx ry) := by
  cases ha : p.alive
  · rw [update_dead_eq sqrt p input deltaTime rx ry ha]
    split
    · exact respawn_hpInRange _ rx ry h
    · exact h
  · rw [update_alive_eq sqrt p input deltaTime rx ry ha]
    exact h

theorem resolveHit_fst (projectile : ServerProjectile) (playerId : String)
    (player : ServerPlayer) :
    (resolveHit projectile playerId player).1 =
      (player.takeDamage projectile.damage projectile.shooterId).1 := by
  unfold resolveHit
  simp only
  split <;> rfl

/-! ## Invariants of the projectile loop -/

/-- A property of the loop state that holds at the start and that `processOne` keeps holds
at the end of `sweep`. -/
theorem sweep_induction (sqrt : ℚ → ℚ) (deltaTime : ℚ) (clock : ℕ → ℚ)
    (P : LoopState → Prop) (l : List ServerProjectile) (st : LoopState) (h0 : P st)
    (hstep : ∀ (c : ℚ) (a : ServerProjectile), a ∈ l → ∀ st1 : LoopState, P st1 →
      P (processOne sqrt deltaTime c a st1)) :
    P (sweep sqrt deltaTime clock l st) := by
  unfold sweep
  have key : ∀ (L : List (ℕ × ServerProjectile)), (∀ ia ∈ L, ia.2 ∈ l) →
      P (L.foldr (fun ia acc => processOne sqrt deltaTime (clock ia.1) ia.2 acc) st) := by
    intro L
    induction L with
    | nil => intro _; exact h0
    | cons ia L ih =>
      intro hL
      rw [List.foldr_cons]
      exact hstep _ _ (hL ia (List.mem_cons_self _ _)) _
        (ih (fun x hx => hL x (List.mem_cons_of_mem _ hx)))
  apply key
  intro ia hia
  obtain ⟨i, a⟩ := ia
  exact (List.mk_mem_enum_iff_getElem?.mp hia) |> List.getElem?_mem

/-- When the inner loop leaves by `break`, it has resolved the hit on the first player the
projectile can hit. -/
theorem collide_eq_some (sqrt : ℚ → ℚ) (projectile : ServerProjectile)
    (pl : List (String × ServerPlayer)) (r : List (String × ServerPlayer) × List Event)
    (h : collide sqrt projectile pl = some r) :
    ∃ before e after, pl = before ++ e :: after ∧
      (∀ b ∈ before, eligible sqrt projectile b = false) ∧
      eligible sqrt projectile e = true ∧
      r = (before ++ (e.1, (resolveHit projectile e.1 e.2).1) :: after,
        (resolveHit projectile e.1 e.2).2) := by
  rcases first_eligible sqrt projectile pl with hnone | ⟨before, e, after, hpl, hb, he⟩
  · rw [(collide_eq_none_iff sqrt projectile pl).mpr hnone] at h
    cases h
  · refine ⟨before, e, after, hpl, hb, he, ?_⟩
    rw [hpl, collide_first sqrt projectile before e after hb he] at h
    exact (Option.some.inj h).symm

theorem update_damage (a : ServerProjectile) (deltaTime : ℚ) :
    (a.update deltaTime).1.damage = a.damage := by
  unfold ServerProjectile.update
  simp only
  split <;> rfl

/-- A property of the players that `takeDamage` with the damage of the projectile keeps,
is kept by `processOne`. -/
theorem processOne_players (sqrt : ℚ → ℚ) (deltaTime c : ℚ) (a : ServerProjectile)
    (P : ServerPlayer → Prop)
    (hP : ∀ (p : ServerPlayer) (attackerId : String), P p →
      P (p.takeDamage a.damage attackerId).1)
    (st : LoopState) (h : ∀ e ∈ st.players, P e.2) :
    ∀ e ∈ (processOne sqrt deltaTime c a st).players, P e.2 := by
  unfold processOne
  simp only
  split_ifs with hx
  · exact h
  · cases hc : collide sqrt (a.update deltaTime).1 st.players with
    | none => exact h
    | some r =>
      obtain ⟨before, e, after, hpl, -, -, hr⟩ := collide_eq_some sqrt _ _ r hc
      simp only
      rw [hr]
      intro x hxmem
      simp only [List.mem_append, List.mem_cons] at hxmem
      have hmem : ∀ y, y ∈ before ∨ y = e ∨ y ∈ after → y ∈ st.players := by
        intro y hy
        rw [hpl]
        simpa using hy
      rcases hxmem with h1 | h1 | h1
      · exact h x (hmem x (Or.inl h1))
      · rw [h1]
        simp only
        rw [resolveHit_fst, update_damage]
        exact hP _ _ (h e (hmem e (Or.inr (Or.inl rfl))))
      · exact h x (hmem x (Or.inr (Or.inr h1)))

/-- The tick as a sweep: `gameLoop` returns, and its result is the one of `processOne`
on every projectile of the store once, after the update of the players. -/
theorem gameLoop_eq_sweep (sqrt : ℚ → ℚ) (now : ℚ) (clock : ℕ → ℚ) (rnd : String → ℚ × ℚ)
    (gs : GameState) :
    gameLoop sqrt now clock rnd gs =
      some ({ players := (sweep sqrt (min 100 (now - gs.lastUpdateTime)) clock gs.projectiles
                ⟨updatePlayers sqrt (min 100 (now - gs.lastUpdateTime)) rnd gs.players,
                  [], []⟩).players
              projectiles := (sweep sqrt (min 100 (now - gs.lastUpdateTime)) clock
                gs.projectiles
                ⟨updatePlayers sqrt (min 100 (now - gs.lastUpdateTime)) rnd gs.players,
                  [], []⟩).projectiles
              lastUpdateTime := now
              shouldSendUpdate := true },
            (sweep sqrt (min 100 (now - gs.lastUpdateTime)) clock gs.projectiles
                ⟨updatePlayers sqrt (min 100 (now - gs.lastUpdateTime)) rnd gs.players,
                  [], []⟩).events) := by
  have h := projectileLoop_eq_sweep sqrt (min 100 (now - gs.lastUpdateTime)) clock
    gs.projectiles (updatePlayers sqrt (min 100 (now - gs.lastUpdateTime)) rnd gs.players)
    [] []
  rw [List.append_nil] at h
  unfold gameLoop
  simp only [h]

theorem new_projectile_damage_pos (cos sin : ℚ → ℚ) (randomId : String) (now : ℚ)
    (shooterId : String) (x y angle : ℚ) (type : PlayerType) :
    0 < (ServerProjectile.new cos sin randomId now shooterId x y angle type).damage := by
  cases type <;> norm_num [ServerProjectile.new, PLAYER_TYPES, BASE_PROJECTILE_DAMAGE]

/-! ## Facts about maps -/

theorem mapUpdate_keys {β : Type} (m : List (String × β)) (k : String) (f : β → β) :
    (mapUpdate m k f).map Prod.fst = m.map Prod.fst := by
  induction m with
  | nil => rfl
  | cons e m ih =>
    unfold mapUpdate
    split_ifs with h
    · rfl
    · simp [ih]

theorem map_eq_self_of_key_absent {β : Type} (m : List (String × β)) (k : String)
    (g : String × β → String × β) (hk : k ∉ m.map Prod.fst) :
    m.map (fun e => if e.1 = k then g e else e) = m := by
  induction m with
  | nil => rfl
  | cons e m ih =>
    simp only [List.map_cons, List.mem_cons, not_or] at hk
    rw [List.map_cons, ih hk.2, if_neg (fun h => hk.1 h.symm)]

theorem mapUpdate_eq_map {β : Type} (m : List (String × β)) (k : String) (f : β → β)
    (hnd : (m.map Prod.fst).Nodup) :
    mapUpdate m k f = m.map (fun e => if e.1 = k then (e.1, f e.2) else e) := by
  induction m with
  | nil => rfl
  | cons e m ih =>
    rw [List.map_cons, List.nodup_cons] at hnd
    unfold mapUpdate
    split_ifs with h
    · rw [List.map_cons, if_pos h,
        map_eq_self_of_key_absent m k (fun e => (e.1, f e.2)) (h ▸ hnd.1)]
    · rw [List.map_cons, if_neg h, ih hnd.2]

theorem mapHas_iff {β : Type} (m : List (String × β)) (k : String) :
    mapHas m k = true ↔ k ∈ m.map Prod.fst := by
  unfold mapHas
  simp only [List.any_eq_true, beq_iff_eq, List.mem_map]

theorem mapSet_of_absent {β : Type} (m : List (String × β)) (k : String) (v : β)
    (hk : k ∉ m.map Prod.fst) : mapSet m k v = m ++ [(k, v)] := by
  induction m with
  | nil => rfl
  | cons e m ih =>
    simp only [List.map_cons, List.mem_cons, not_or] at hk
    unfold mapSet
    rw [if_neg (fun h => hk.1 h.symm), ih hk.2]
    rfl

theorem mem_or_eq_of_mem_mapSet {β : Type} (m : List (String × β)) (k : String) (v : β)
    (x : String × β) (hx : x ∈ mapSet m k v) : x = (k, v) ∨ x ∈ m := by
  induction m with
  | nil =>
    simp only [mapSet, List.mem_singleton] at hx
    exact Or.inl hx
  | cons y m ih =>
    unfold mapSet at hx
    split_ifs at hx with hy
    · rcases List.mem_cons.mp hx with h1 | h1
      · exact Or.inl h1
      · exact Or.inr (List.mem_cons_of_mem _ h1)
    · rcases List.mem_cons.mp hx with h1 | h1
      · exact Or.inr (h1 ▸ List.mem_cons_self _ _)
      · rcases ih h1 with h2 | h2
        · exact Or.inl h2
        · exact Or.inr (List.mem_cons_of_mem _ h2)

theorem mapSet_keys_nodup {β : Type} (m : List (String × β)) (k : String) (v : β)
    (hnd : (m.map Prod.fst).Nodup) : ((mapSet m k v).map Prod.fst).Nodup := by
  induction m with
  | nil => simp [mapSet]
  | cons e m ih =>
    rw [List.map_cons, List.nodup_cons] at hnd
    unfold mapSet
    split_ifs with h
    · rw [List.map_cons, List.nodup_cons]
      exact ⟨h ▸ hnd.1, hnd.2⟩
    · rw [List.map_cons, List.nodup_cons]
      refine ⟨?_, ih hnd.2⟩
      intro hmem
      obtain ⟨x, hx, hx1⟩ := List.mem_map.mp hmem
      rcases mem_or_eq_of_mem_mapSet m k v x hx with h1 | h1
      · rw [h1] at hx1
        exact h hx1.symm
      · exact hnd.1 (List.mem_map.mpr ⟨x, h1, hx1⟩)

theorem mem_mapSet_self {β : Type} (m : List (String × β)) (k : String) (v : β) :
    (k, v) ∈ mapSet m k v := by
  induction m with
  | nil => simp [mapSet]
  | cons y m ih =>
    unfold mapSet
    split_ifs with hy
    · exact List.mem_cons_self _ _
    · exact List.mem_cons_of_mem _ ih

theorem mem_mapSet_of_ne {β : Type} (m : List (String × β)) (k : String) (v : β)
    (x : String × β) (hx : x ∈ m) (hne : x.1 ≠ k) : x ∈ mapSet m k v := by
  induction m with
  | nil => cases hx
  | cons y m ih =>
    unfold mapSet
    split_ifs with hy
    · rcases List.mem_cons.mp hx with h1 | h1
      · exact absurd (h1 ▸ hy) hne
      · exact List.mem_cons_of_mem _ h1
    · rcases List.mem_cons.mp hx with h1 | h1
      · exact h1 ▸ List.mem_cons_self _ _
      · exact List.mem_cons_of_mem _ (ih h1)

theorem mapGet_mapSet {β : Type} (m : List (String × β)) (k : String) (v : β)
    (k2 : String) :
    mapGet (mapSet m k v) k2 = if k2 = k then some v else mapGet m k2 := by
  induction m with
  | nil =>
    unfold mapSet mapGet
    by_cases h : k2 = k
    · simp [h]
    · have : ¬ (k = k2) := fun h2 => h h2.symm
      simp [h, this]
  | cons e m ih =>
    unfold mapSet
    by_cases he : e.1 = k
    · rw [if_pos he]
      by_cases h : k2 = k
      · simp [mapGet, h]
      · have h1 : ¬ (k = k2) := fun h2 => h h2.symm
        have h2 : ¬ (e.1 = k2) := fun h3 => h (h3.symm.trans he)
        simp [mapGet, h, h1, h2]
    · rw [if_neg he]
      by_cases h2 : e.1 = k2
      · have h : ¬ (k2 = k) := fun h3 => he (h2.trans h3)
        simp [mapGet, h, h2]
      · have hstep : mapGet (e :: mapSet m k v) k2 = mapGet (mapSet m k v) k2 := by
          simp [mapGet, h2]
        have hstep2 : mapGet (e :: m) k2 = mapGet m k2 := by
          simp [mapGet, h2]
        rw [hstep, hstep2, ih]

theorem mapGet_eq_some_of_mem {β : Type} (m : List (String × β)) (k : String) (v : β)
    (hnd : (m.map Prod.fst).Nodup) (h : (k, v) ∈ m) : mapGet m k = some v := by
  induction m with
  | nil => cases h
  | cons e m ih =>
    rw [List.map_cons, List.nodup_cons] at hnd
    rcases List.mem_cons.mp h with h1 | h1
    · rw [← h1]
      simp [mapGet]
    · have hne : ¬ (e.1 = k) := by
        intro hek
        exact hnd.1 (hek ▸ List.mem_map.mpr ⟨(k, v), h1, rfl⟩)
      have hstep : mapGet (e :: m) k = mapGet m k := by
        simp [mapGet, hne]
      rw [hstep, ih hnd.2 h1]

theorem mem_of_mapGet_eq_some {β : Type} (m : List (String × β)) (k : String) (v : β)
    (h : mapGet m k = some v) : (k, v) ∈ m := by
  induction m with
  | nil => simp [mapGet] at h
  | cons e m ih =>
    by_cases hek : e.1 = k
    · have : mapGet (e :: m) k = some e.2 := by simp [mapGet, hek]
      rw [this] at h
      have he : e = (k, v) := Prod.ext hek (Option.some.inj h)
      rw [he]
      exact List.mem_cons_self _ _
    · have hstep : mapGet (e :: m) k = mapGet m k := by
        simp [mapGet, hek]
      rw [hstep] at h
      exact List.mem_cons_of_mem _ (ih h)


theorem map_value_unique {β : Type} (m : List (String × β)) (k : String) (v w : β)
    (hnd : (m.map Prod.fst).Nodup) (hv : (k, v) ∈ m) (hw : (k, w) ∈ m) : v = w :=
  Option.some.inj ((mapGet_eq_some_of_mem m k v hnd hv).symm.trans
    (mapGet_eq_some_of_mem m k w hnd hw))

/-- Leaving the room `cur` (lines 334-337 and 416-417): `removePlayer` on the room stored
under `cur`, when there is one. -/
theorem leave_rooms_eq (rooms : List (String × GameRoom)) (cur c : String)
    (hnd : (rooms.map Prod.fst).Nodup) :
    (if mapHas rooms cur then mapUpdate rooms cur (fun r => r.removePlayer c) else rooms) =
      rooms.map (fun e => if e.1 = cur then (e.1, e.2.removePlayer c) else e) := by
  split_ifs with h
  · exact mapUpdate_eq_map rooms cur _ hnd
  · rw [mapHas_iff] at h
    exact (map_eq_self_of_key_absent rooms cur (fun e => (e.1, e.2.removePlayer c)) h).symm

theorem leave_keys (rooms : List (String × GameRoom)) (cur c : String) :
    (rooms.map (fun e => if e.1 = cur then (e.1, e.2.removePlayer c) else e)).map Prod.fst =
      rooms.map Prod.fst := by
  rw [List.map_map]
  apply List.map_congr_left
  intro e _
  simp only [Function.comp]
  split_ifs <;> rfl

theorem mem_removePlayer (r : GameRoom) (c id : String) :
    id ∈ (r.removePlayer c).players ↔ id ∈ r.players ∧ id ≠ c := by
  unfold GameRoom.removePlayer
  simp

theorem disconnect_rooms (s : Server) (c : String) :
    (disconnect s c).1.rooms =
      if mapHas s.rooms (s.currentRoomOf c) then
        mapUpdate s.rooms (s.currentRoomOf c) (fun r => r.removePlayer c)
      else s.rooms := by
  unfold disconnect
  simp only
  split_ifs with h
  · split <;> rfl
  · rfl

theorem consistent_init (now : ℚ) : Consistent (Server.init now) where
  roomKeys := by simp [Server.init]
  storeKeys := by simp [Server.init]
  members := by simp [Server.init, GameRoom.new]
  names := by simp [Server.init, GameRoom.new]
  storeRoom := by simp [Server.init]
  roomStore := by simp [Server.init, GameRoom.new]

theorem consistent_disconnect (s : Server) (c : String) (h : Consistent s) :
    Consistent (disconnect s c).1 := by
  have hrooms : (disconnect s c).1.rooms =
      s.rooms.map (fun e => if e.1 = s.currentRoomOf c then (e.1, e.2.removePlayer c)
        else e) := by
    rw [disconnect_rooms, leave_rooms_eq _ _ _ h.roomKeys]
  have hstore : (disconnect s c).1.gameState.players = mapDelete s.gameState.players c := rfl
  have hcur : ∀ id, (disconnect s c).1.currentRoomOf id = s.currentRoomOf id := fun _ => rfl
  have hmemstore : ∀ x, x ∈ mapDelete s.gameState.players c ↔
      x ∈ s.gameState.players ∧ x.1 ≠ c := by
    intro x
    unfold mapDelete
    simp
  constructor
  · rw [hrooms, leave_keys]
    exact h.roomKeys
  · rw [hstore]
    unfold mapDelete
    exact (List.Sublist.map _ (List.filter_sublist _)).nodup h.storeKeys
  · rw [hrooms]
    intro e he
    obtain ⟨e0, he0, rfl⟩ := List.mem_map.mp he
    split_ifs
    · exact (List.filter_sublist _).nodup (h.members e0 he0)
    · exact h.members e0 he0
  · rw [hrooms]
    intro e he
    obtain ⟨e0, he0, rfl⟩ := List.mem_map.mp he
    split_ifs
    · exact h.names e0 he0
    · exact h.names e0 he0
  · rw [hstore]
    intro e he
    rw [hmemstore] at he
    obtain ⟨hroom, r, hr, hmem⟩ := h.storeRoom e he.1
    refine ⟨by rw [hcur]; exact hroom, ?_⟩
    rw [hrooms]
    by_cases hk : e.2.room = s.currentRoomOf c
    · refine ⟨r.removePlayer c, ?_, (mem_removePlayer r c e.1).mpr ⟨hmem, he.2⟩⟩
      exact List.mem_map.mpr ⟨(e.2.room, r), hr, by simp [hk]⟩
    · exact ⟨r, List.mem_map.mpr ⟨(e.2.room, r), hr, by simp [hk]⟩, hmem⟩
  · rw [hrooms]
    intro e he id hid
    obtain ⟨e0, he0, rfl⟩ := List.mem_map.mp he
    by_cases hk : e0.1 = s.currentRoomOf c
    · rw [if_pos hk] at hid ⊢
      simp only at hid ⊢
      rw [mem_removePlayer] at hid
      obtain ⟨h1, h2⟩ := h.roomStore e0 he0 id hid.1
      refine ⟨by rw [hcur]; exact h1, ?_⟩
      rw [hstore]
      obtain ⟨x, hx, hx1⟩ := List.mem_map.mp h2
      exact List.mem_map.mpr ⟨x, (hmemstore x).mpr ⟨hx, by rw [hx1]; exact hid.2⟩, hx1⟩
    · rw [if_neg hk] at hid ⊢
      obtain ⟨h1, h2⟩ := h.roomStore e0 he0 id hid
      refine ⟨by rw [hcur]; exact h1, ?_⟩
      rw [hstore]
      obtain ⟨x, hx, hx1⟩ := List.mem_map.mp h2
      have hne : id ≠ c := by
        intro hidc
        rw [hidc] at h1
        exact hk h1.symm
      exact List.mem_map.mpr ⟨x, (hmemstore x).mpr ⟨hx, by rw [hx1]; exact hne⟩, hx1⟩

/-- The rooms once the connection `c` has left its current room: no room has `c` as a
member, and the other facts of `Consistent` hold for the players other than `c`. -/
theorem leave_facts (s : Server) (c : String) (h : Consistent s)
    (R1 : List (String × GameRoom))
    (hR1 : R1 = s.rooms.map (fun e =>
      if e.1 = s.currentRoomOf c then (e.1, e.2.removePlayer c) else e)) :
    (R1.map Prod.fst).Nodup ∧
    (∀ e ∈ R1, e.2.players.Nodup ∧ e.2.name = e.1 ∧
      ∀ id ∈ e.2.players, id ≠ c ∧ s.currentRoomOf id = e.1 ∧
        id ∈ s.gameState.players.map Prod.fst) ∧
    (∀ x ∈ s.gameState.players, x.1 ≠ c → ∃ r, (x.2.room, r) ∈ R1 ∧ x.1 ∈ r.players) := by
  subst hR1
  refine ⟨by rw [leave_keys]; exact h.roomKeys, ?_, ?_⟩
  · intro e he
    obtain ⟨e0, he0, rfl⟩ := List.mem_map.mp he
    by_cases hk : e0.1 = s.currentRoomOf c
    · rw [if_pos hk]
      refine ⟨(List.filter_sublist _).nodup (h.members e0 he0), h.names e0 he0, ?_⟩
      intro id hid
      simp only at hid
      rw [mem_removePlayer] at hid
      obtain ⟨h1, h2⟩ := h.roomStore e0 he0 id hid.1
      exact ⟨hid.2, h1, h2⟩
    · rw [if_neg hk]
      refine ⟨h.members e0 he0, h.names e0 he0, ?_⟩
      intro id hid
      obtain ⟨h1, h2⟩ := h.roomStore e0 he0 id hid
      refine ⟨?_, h1, h2⟩
      intro hidc
      rw [hidc] at h1
      exact hk h1.symm
  · intro x hx hne
    obtain ⟨-, r, hr, hmem⟩ := h.storeRoom x hx
    by_cases hk : x.2.room = s.currentRoomOf c
    · refine ⟨r.removePlayer c, ?_, (mem_removePlayer r c x.1).mpr ⟨hmem, hne⟩⟩
      exact List.mem_map.mpr ⟨(x.2.room, r), hr, by simp [hk]⟩
    · exact ⟨r, List.mem_map.mpr ⟨(x.2.room, r), hr, by simp [hk]⟩, hmem⟩

/-- The rooms once the room `new` has been created if it was missing (lines 340-343). -/
theorem ensure_facts (s : Server) (c new : String) (now : ℚ) (h : Consistent s)
    (R2 : List (String × GameRoom))
    (hR2 : R2 =
      if new ∈ (s.rooms.map (fun e =>
          if e.1 = s.currentRoomOf c then (e.1, e.2.removePlayer c) else e)).map Prod.fst
      then s.rooms.map (fun e =>
          if e.1 = s.currentRoomOf c then (e.1, e.2.removePlayer c) else e)
      else s.rooms.map (fun e =>
          if e.1 = s.currentRoomOf c then (e.1, e.2.removePlayer c) else e) ++
        [(new, GameRoom.new new now)]) :
    (R2.map Prod.fst).Nodup ∧ new ∈ R2.map Prod.fst ∧
    (∀ e ∈ R2, e.2.players.Nodup ∧ e.2.name = e.1 ∧
      ∀ id ∈ e.2.players, id ≠ c ∧ s.currentRoomOf id = e.1 ∧
        id ∈ s.gameState.players.map Prod.fst) ∧
    (∀ x ∈ s.gameState.players, x.1 ≠ c → ∃ r, (x.2.room, r) ∈ R2 ∧ x.1 ∈ r.players) := by
  obtain ⟨hk1, hm1, hs1⟩ := leave_facts s c h _ rfl
  subst hR2
  split_ifs with hin
  · exact ⟨hk1, hin, hm1, hs1⟩
  · refine ⟨?_, ?_, ?_, ?_⟩
    · rw [List.map_append, List.nodup_append]
      refine ⟨hk1, by simp, ?_⟩
      intro a ha hb
      simp only [List.map_cons, List.map_nil, List.mem_singleton] at hb
      exact hin (hb ▸ ha)
    · simp
    · intro e he
      rcases List.mem_append.mp he with h1 | h1
      · exact hm1 e h1
      · simp only [List.mem_singleton] at h1
        subst h1
        simp [GameRoom.new]
    · intro x hx hne
      obtain ⟨r, hr, hmem⟩ := hs1 x hx hne
      exact ⟨r, List.mem_append_left _ hr, hmem⟩

theorem mapGet_isSome_of_key {β : Type} (m : List (String × β)) (k : String)
    (hk : k ∈ m.map Prod.fst) : ∃ v, mapGet m k = some v := by
  induction m with
  | nil => cases hk
  | cons e m ih =>
    by_cases hek : e.1 = k
    · exact ⟨e.2, by simp [mapGet, hek]⟩
    · have hstep : mapGet (e :: m) k = mapGet m k := by
        simp [mapGet, hek]
      rw [hstep]
      apply ih
      rcases List.mem_cons.mp hk with h1 | h1
      · exact absurd h1.symm hek
      · exact h1

/-- The state after `joinRoom`, from a consistent state: the connection has left its
current room, the room `new` exists, the new player is a member of it and is in the
store under `c`, and `currentRoom` is `new`. `rooms.get(roomName)` is never `undefined`. -/
theorem joinRoom_eq (s : Server) (c : String) (data : JoinData) (rx ry : ℚ)
    (randomName : String) (now : ℚ) (h : Consistent s)
    (new : String) (hnew : new = if data.room = "" then "principal" else data.room)
    (R2 : List (String × GameRoom))
    (hR2 : R2 =
      if new ∈ (s.rooms.map (fun e =>
          if e.1 = s.currentRoomOf c then (e.1, e.2.removePlayer c) else e)).map Prod.fst
      then s.rooms.map (fun e =>
          if e.1 = s.currentRoomOf c then (e.1, e.2.removePlayer c) else e)
      else s.rooms.map (fun e =>
          if e.1 = s.currentRoomOf c then (e.1, e.2.removePlayer c) else e) ++
        [(new, GameRoom.new new now)]) :
    ∃ room0 : GameRoom, (new, room0) ∈ R2 ∧
      (joinRoom s c data rx ry randomName now).1 =
        { rooms := R2.map (fun e => if e.1 = new then
            (e.1, (room0.addPlayer c (ServerPlayer.new c data.type
              (if data.name = "" then randomName else data.name) rx ry)).1) else e)
          gameState := { s.gameState with
            players := mapSet s.gameState.players c
              (room0.addPlayer c (ServerPlayer.new c data.type
                (if data.name = "" then randomName else data.name) rx ry)).2
            shouldSendUpdate := true }
          currentRoom := mapSet s.currentRoom c new } := by
  obtain ⟨hk2, hin2, -, -⟩ := ensure_facts s c new now h R2 hR2
  obtain ⟨room0, hroom0⟩ := mapGet_isSome_of_key R2 new hin2
  refine ⟨room0, mem_of_mapGet_eq_some R2 new room0 hroom0, ?_⟩
  have hrooms2 : (if !mapHas (if mapHas s.rooms (s.currentRoomOf c) then
        mapUpdate s.rooms (s.currentRoomOf c) (fun r => r.removePlayer c) else s.rooms) new
      then mapSet (if mapHas s.rooms (s.currentRoomOf c) then
        mapUpdate s.rooms (s.currentRoomOf c) (fun r => r.removePlayer c) else s.rooms) new
          (GameRoom.new new now)
      else (if mapHas s.rooms (s.currentRoomOf c) then
        mapUpdate s.rooms (s.currentRoomOf c) (fun r => r.removePlayer c) else s.rooms)) =
      R2 := by
    rw [leave_rooms_eq _ _ _ h.roomKeys, hR2]
    by_cases hin : new ∈ (s.rooms.map (fun e =>
          if e.1 = s.currentRoomOf c then (e.1, e.2.removePlayer c) else e)).map Prod.fst
    · rw [if_pos hin, (mapHas_iff _ _).mpr hin]
      rfl
    · rw [if_neg hin]
      have : mapHas (s.rooms.map (fun e =>
          if e.1 = s.currentRoomOf c then (e.1, e.2.removePlayer c) else e)) new = false := by
        rw [Bool.eq_false_iff]
        exact fun hh => hin ((mapHas_iff _ _).mp hh)
      rw [this]
      simp only [Bool.not_false, if_true]
      exact mapSet_of_absent _ _ _ hin
  unfold joinRoom
  simp only [← hnew, hrooms2, hroom0]
  rw [mapUpdate_eq_map R2 new _ hk2]

theorem mem_addPlayer (room : GameRoom) (c : String) (p : ServerPlayer) (id : String) :
    id ∈ (room.addPlayer c p).1.players ↔ id ∈ room.players ∨ id = c := by
  unfold GameRoom.addPlayer
  simp only
  split_ifs with h
  · constructor
    · exact fun h1 => Or.inl h1
    · rintro (h1 | h1)
      · exact h1
      · exact h1 ▸ h
  · simp

theorem addPlayer_nodup (room : GameRoom) (c : String) (p : ServerPlayer)
    (h : room.players.Nodup) : (room.addPlayer c p).1.players.Nodup := by
  unfold GameRoom.addPlayer
  simp only
  split_ifs with hc
  · exact h
  · rw [List.nodup_append]
    refine ⟨h, by simp, ?_⟩
    intro a ha hb
    simp only [List.mem_singleton] at hb
    exact hc (hb ▸ ha)

theorem currentRoomOf_mapSet (s : Server) (c new id : String)
    (rooms : List (String × GameRoom)) (gs : GameState) :
    Server.currentRoomOf ⟨rooms, gs, mapSet s.currentRoom c new⟩ id =
      if id = c then new else s.currentRoomOf id := by
  unfold Server.currentRoomOf
  simp only
  rw [mapGet_mapSet]
  split_ifs <;> rfl

theorem consistent_joinRoom (s : Server) (c : String) (data : JoinData) (rx ry : ℚ)
    (randomName : String) (now : ℚ) (h : Consistent s) :
    Consistent (joinRoom s c data rx ry randomName now).1 := by
  obtain ⟨room0, hroom0, heq⟩ := joinRoom_eq s c data rx ry randomName now h
    (if data.room = "" then "principal" else data.room) rfl _ rfl
  obtain ⟨hk2, -, hm2, hs2⟩ := ensure_facts s c
    (if data.room = "" then "principal" else data.room) now h _ rfl
  rw [heq]
  clear heq
  generalize hnew : (if data.room = "" then "principal" else data.room) = new at *
  generalize hR2 : (if new ∈ (s.rooms.map (fun e =>
          if e.1 = s.currentRoomOf c then (e.1, e.2.removePlayer c) else e)).map Prod.fst
      then s.rooms.map (fun e =>
          if e.1 = s.currentRoomOf c then (e.1, e.2.removePlayer c) else e)
      else s.rooms.map (fun e =>
          if e.1 = s.currentRoomOf c then (e.1, e.2.removePlayer c) else e) ++
        [(new, GameRoom.new new now)]) = R2 at *
  generalize hnp : ServerPlayer.new c data.type
    (if data.name = "" then randomName else data.name) rx ry = np at *
  obtain ⟨hnd0, hname0, hmem0⟩ := hm2 _ hroom0
  simp only at hname0
  have hnproom : (room0.addPlayer c np).2.room = new := hname0
  have hstoremem : ∀ x ∈ mapSet s.gameState.players c (room0.addPlayer c np).2,
      x = (c, (room0.addPlayer c np).2) ∨ (x ∈ s.gameState.players ∧ x.1 ≠ c) := by
    intro x hx
    by_cases hxc : x.1 = c
    · left
      have hnd := mapSet_keys_nodup s.gameState.players c (room0.addPlayer c np).2 h.storeKeys
      have hself := mem_mapSet_self s.gameState.players c (room0.addPlayer c np).2
      obtain ⟨x1, x2⟩ := x
      simp only at hxc
      rw [hxc] at hx
      exact Prod.ext hxc (map_value_unique _ c _ _ hnd hx hself)
    · rcases mem_or_eq_of_mem_mapSet _ _ _ _ hx with h1 | h1
      · exact Or.inl h1
      · exact Or.inr ⟨h1, hxc⟩
  constructor
  · simp only
    rw [List.map_map]
    have : (Prod.fst ∘ fun e : String × GameRoom =>
        if e.1 = new then (e.1, (room0.addPlayer c np).1) else e) = Prod.fst := by
      funext e
      simp only [Function.comp]
      split_ifs <;> rfl
    rw [this]
    exact hk2
  · exact mapSet_keys_nodup _ _ _ h.storeKeys
  · intro e he
    obtain ⟨e2, he2, rfl⟩ := List.mem_map.mp he
    split_ifs
    · exact addPlayer_nodup room0 c np hnd0
    · exact (hm2 e2 he2).1
  · intro e he
    obtain ⟨e2, he2, rfl⟩ := List.mem_map.mp he
    split_ifs with hk
    · exact hname0.trans hk.symm
    · exact (hm2 e2 he2).2.1
  · intro x hx
    simp only at hx
    rw [currentRoomOf_mapSet]
    rcases hstoremem x hx with h1 | ⟨h1, hne⟩
    · subst h1
      simp only [if_true]
      refine ⟨hnproom, (room0.addPlayer c np).1, ?_, (mem_addPlayer room0 c np c).mpr
        (Or.inr rfl)⟩
      rw [hnproom]
      exact List.mem_map.mpr ⟨(new, room0), hroom0, by simp⟩
    · rw [if_neg hne]
      refine ⟨(h.storeRoom x h1).1, ?_⟩
      obtain ⟨r, hr, hmem⟩ := hs2 x h1 hne
      by_cases hk : x.2.room = new
      · have hr0 : r = room0 := by
          rw [hk] at hr
          exact map_value_unique R2 new r room0 hk2 hr hroom0
        refine ⟨(room0.addPlayer c np).1, ?_, (mem_addPlayer room0 c np x.1).mpr
          (Or.inl (hr0 ▸ hmem))⟩
        rw [hk]
        exact List.mem_map.mpr ⟨(new, room0), hroom0, by simp⟩
      · exact ⟨r, List.mem_map.mpr ⟨(x.2.room, r), hr, by simp [hk]⟩, hmem⟩
  · intro e he id hid
    obtain ⟨e2, he2, rfl⟩ := List.mem_map.mp he
    simp only
    rw [currentRoomOf_mapSet]
    have hother : ∀ e3 ∈ R2, id ∈ e3.2.players →
        (if id = c then new else s.currentRoomOf id) = e3.1 ∧
        id ∈ (mapSet s.gameState.players c (room0.addPlayer c np).2).map Prod.fst := by
      intro e3 he3 hid3
      obtain ⟨hne, hcur, hkey⟩ := (hm2 e3 he3).2.2 id hid3
      rw [if_neg hne]
      refine ⟨hcur, ?_⟩
      obtain ⟨x, hx, hx1⟩ := List.mem_map.mp hkey
      exact List.mem_map.mpr ⟨x, mem_mapSet_of_ne _ _ _ x hx (by rw [hx1]; exact hne), hx1⟩
    by_cases hk : e2.1 = new
    · rw [if_pos hk] at hid ⊢
      simp only at hid ⊢
      rcases (mem_addPlayer room0 c np id).mp hid with h1 | h1
      · have := hother (new, room0) hroom0 h1
        rw [hk]
        exact this
      · rw [if_pos h1, hk]
        refine ⟨rfl, ?_⟩
        rw [h1]
        exact List.mem_map.mpr ⟨_, mem_mapSet_self _ _ _, rfl⟩
    · rw [if_neg hk] at hid ⊢
      exact hother e2 he2 hid

/-- Every state reached from the initial one by `joinRoom` and `disconnect` events is
consistent. -/
theorem consistent_run (now : ℚ) (events : List RoomEvent) :
    Consistent ((Server.init now).run events) := by
  unfold Server.run
  have key : ∀ (s : Server), Consistent s → Consistent (events.foldl Server.handle s) := by
    induction events with
    | nil => exact fun s hs => hs
    | cons ev events ih =>
      intro s hs
      rw [List.foldl_cons]
      apply ih
      cases ev with
      | joinRoom c data rx ry randomName now2 =>
        exact consistent_joinRoom s c data rx ry randomName now2 hs
      | disconnect c => exact consistent_disconnect s c hs
  exact key _ (consistent_init now)

/-- In a consistent state the member count of a room is the number of players of the
store whose `room` field is the name of the room. -/
theorem count_eq_of_consistent (s : Server) (h : Consistent s) (e : String × GameRoom)
    (he : e ∈ s.rooms) : e.2.getPlayerCount = s.countInRoom e.1 := by
  unfold GameRoom.getPlayerCount Server.countInRoom
  rw [← List.length_map (s.gameState.players.filter (fun x => x.2.room == e.1)) Prod.fst]
  apply List.Perm.length_eq
  rw [List.perm_ext_iff_of_nodup (h.members e he)
    ((List.Sublist.map _ (List.filter_sublist _)).nodup h.storeKeys)]
  intro id
  constructor
  · intro hid
    obtain ⟨hcur, hkey⟩ := h.roomStore e he id hid
    obtain ⟨x, hx, hx1⟩ := List.mem_map.mp hkey
    refine List.mem_map.mpr ⟨x, List.mem_filter.mpr ⟨hx, ?_⟩, hx1⟩
    rw [beq_iff_eq, (h.storeRoom x hx).1, hx1]
    exact hcur
  · intro hid
    obtain ⟨x, hx, hx1⟩ := List.mem_map.mp hid
    obtain ⟨hxs, hroom⟩ := List.mem_filter.mp hx
    rw [beq_iff_eq] at hroom
    obtain ⟨-, r, hr, hmem⟩ := h.storeRoom x hxs
    rw [hroom] at hr
    have : r = e.2 := map_value_unique s.rooms e.1 r e.2 h.roomKeys hr he
    rw [← hx1, ← this]
    exact hmem

/-! ## Hits of a projectile -/

theorem resolveHit_events (projectile : ServerProjectile) (playerId : String)
    (player : ServerPlayer) :
    (resolveHit projectile playerId player).2 =
      Event.playerHit (player.takeDamage projectile.damage projectile.shooterId).1.room
          playerId projectile.damage
          (player.takeDamage projectile.damage projectile.shooterId).1.hp ::
        (if (player.takeDamage projectile.damage projectile.shooterId).2.died then
          [Event.playerDied (player.takeDamage projectile.damage projectile.shooterId).1.room
            playerId (player.takeDamage projectile.damage projectile.shooterId).2.attackerId]
        else []) := by
  unfold resolveHit
  simp only
  split <;> rfl

theorem resolveHit_count (projectile : ServerProjectile) (playerId : String)
    (player : ServerPlayer) :
    ((resolveHit projectile playerId player).2.filter Event.isPlayerHit).length = 1 := by
  rw [resolveHit_events]
  split <;> simp [Event.isPlayerHit]

/-- The three outcomes of `processOne`: the projectile is dropped at the world exit or at
expiry; or it hits the first player it can hit and is dropped; or it can hit no player and
is kept. -/
theorem processOne_cases (sqrt : ℚ → ℚ) (deltaTime c : ℚ) (a : ServerProjectile)
    (st : LoopState) :
    (((a.update deltaTime).2.hit || (a.update deltaTime).1.isExpired c) = true ∧
      processOne sqrt deltaTime c a st = st) ∨
    (((a.update deltaTime).2.hit || (a.update deltaTime).1.isExpired c) = false ∧
      ∃ before e after, st.players = before ++ e :: after ∧
        (∀ b ∈ before, eligible sqrt (a.update deltaTime).1 b = false) ∧
        eligible sqrt (a.update deltaTime).1 e = true ∧
        processOne sqrt deltaTime c a st =
          ⟨before ++ (e.1, (resolveHit (a.update deltaTime).1 e.1 e.2).1) :: after,
            st.projectiles,
            st.events ++ (resolveHit (a.update deltaTime).1 e.1 e.2).2⟩) ∨
    (((a.update deltaTime).2.hit || (a.update deltaTime).1.isExpired c) = false ∧
      (∀ e ∈ st.players, eligible sqrt (a.update deltaTime).1 e = false) ∧
      processOne sqrt deltaTime c a st =
        ⟨st.players, (a.update deltaTime).1 :: st.projectiles, st.events⟩) := by
  unfold processOne
  simp only
  cases hx : ((a.update deltaTime).2.hit || (a.update deltaTime).1.isExpired c)
  · right
    cases hc : collide sqrt (a.update deltaTime).1 st.players with
    | none =>
      right
      exact ⟨rfl, (collide_eq_none_iff sqrt _ _).mp hc, by simp⟩
    | some r =>
      left
      obtain ⟨before, e, after, hpl, hb, he, hr⟩ := collide_eq_some sqrt _ _ r hc
      refine ⟨rfl, before, e, after, hpl, hb, he, ?_⟩
      simp [hr]
  · left
    exact ⟨rfl, by simp⟩

/-- What one projectile does in `processOne`: it emits at most one `playerHit` (one per
call of `takeDamage`); when it emits one it is not kept; when it emits none, no player
changes and nothing is emitted. -/
theorem processOne_single_hit (sqrt : ℚ → ℚ) (deltaTime c : ℚ) (a : ServerProjectile)
    (st : LoopState) :
    ∃ evs, (processOne sqrt deltaTime c a st).events = st.events ++ evs ∧
      (evs.filter Event.isPlayerHit).length ≤ 1 ∧
      ((evs.filter Event.isPlayerHit).length = 1 →
        (processOne sqrt deltaTime c a st).projectiles = st.projectiles) ∧
      ((evs.filter Event.isPlayerHit).length = 0 →
        (processOne sqrt deltaTime c a st).players = st.players ∧ evs = []) ∧
      (processOne sqrt deltaTime c a st).projectiles.length + (evs.filter Event.isPlayerHit).length
        ≤ st.projectiles.length + 1 := by
  rcases processOne_cases sqrt deltaTime c a st with ⟨-, h⟩ | ⟨-, before, e, after, -, -, -, h⟩ |
    ⟨-, -, h⟩
  · refine ⟨[], by rw [h]; simp, by simp, fun _ => by rw [h], fun _ => ⟨by rw [h], rfl⟩, ?_⟩
    rw [h]; simp
  · refine ⟨(resolveHit (a.update deltaTime).1 e.1 e.2).2, by rw [h], ?_, fun _ => by rw [h],
      ?_, ?_⟩
    · rw [resolveHit_count]
    · intro h0
      rw [resolveHit_count] at h0
      cases h0
    · rw [h, resolveHit_count]
  · refine ⟨[], by rw [h]; simp, by simp, ?_, fun _ => ⟨by rw [h], rfl⟩, ?_⟩
    · intro h1
      simp at h1
    · rw [h]; simp

theorem sweep_count (sqrt : ℚ → ℚ) (deltaTime : ℚ) (clock : ℕ → ℚ)
    (l : List ServerProjectile) (st : LoopState) :
    (sweep sqrt deltaTime clock l st).projectiles.length +
        ((sweep sqrt deltaTime clock l st).events.filter Event.isPlayerHit).length ≤
      st.projectiles.length + (st.events.filter Event.isPlayerHit).length + l.length := by
  unfold sweep
  rw [← List.enum_length (l := l)]
  generalize l.enum = L
  induction L with
  | nil => simp
  | cons ia L ih =>
    rw [List.foldr_cons, List.length_cons]
    obtain ⟨evs, hev, -, -, -, hlen⟩ := processOne_single_hit sqrt deltaTime (clock ia.1) ia.2
      (L.foldr (fun ia acc => processOne sqrt deltaTime (clock ia.1) ia.2 acc) st)
    rw [hev, List.filter_append, List.length_append]
    omega

/-- C5. Single-hit semantics: `gameLoop` always returns, and its projectile loop is
`processOne` run once on every projectile present at the start of the tick, from the
last to the first: the iteration for an index works on the projectile that was there at
the start and leaves the others alone, in spite of the removals in place. One projectile
emits at most one `playerHit` (one call of `takeDamage`), and one that emits it is not
kept in the store; so the hits of a tick and the projectiles left after it are together
no more than the projectiles at its start. -/
theorem C5_single_hit (sqrt : ℚ → ℚ) (now : ℚ) (clock : ℕ → ℚ) (rnd : String → ℚ × ℚ)
    (gs : GameState) :
    (∃ st : LoopState,
      st = sweep sqrt (min 100 (now - gs.lastUpdateTime)) clock gs.projectiles
        ⟨updatePlayers sqrt (min 100 (now - gs.lastUpdateTime)) rnd gs.players, [], []⟩ ∧
      gameLoop sqrt now clock rnd gs =
        some (⟨st.players, st.projectiles, now, true⟩, st.events) ∧
      st.projectiles.length + (st.events.filter Event.isPlayerHit).length ≤
        gs.projectiles.length) ∧
    (∀ (deltaTime c : ℚ) (pl : List (String × ServerPlayer))
      (pre : List ServerProjectile) (a : ServerProjectile) (suf : List ServerProjectile)
      (ev : List Event),
      loopBody sqrt deltaTime c pre.length ⟨pl, pre ++ a :: suf, ev⟩ =
        some ⟨(processOne sqrt deltaTime c a ⟨pl, suf, ev⟩).players,
          pre ++ (processOne sqrt deltaTime c a ⟨pl, suf, ev⟩).projectiles,
          (processOne sqrt deltaTime c a ⟨pl, suf, ev⟩).events⟩) ∧
    (∀ (deltaTime c : ℚ) (a : ServerProjectile) (st : LoopState),
      ∃ evs, (processOne sqrt deltaTime c a st).events = st.events ++ evs ∧
        (evs.filter Event.isPlayerHit).length ≤ 1 ∧
        ((evs.filter Event.isPlayerHit).length = 1 →
          (processOne sqrt deltaTime c a st).projectiles = st.projectiles) ∧
        ((evs.filter Event.isPlayerHit).length = 0 →
          (processOne sqrt deltaTime c a st).players = st.players ∧ evs = [] ∧
          ((processOne sqrt deltaTime c a st).projectiles = st.projectiles ∨
           (processOne sqrt deltaTime c a st).projectiles =
             (a.update deltaTime).1 :: st.projectiles))) := by
  refine ⟨⟨_, rfl, gameLoop_eq_sweep sqrt now clock rnd gs, ?_⟩, ?_, ?_⟩
  · have := sweep_count sqrt (min 100 (now - gs.lastUpdateTime)) clock gs.projectiles
      ⟨updatePlayers sqrt (min 100 (now - gs.lastUpdateTime)) rnd gs.players, [], []⟩
    simpa using this
  · intro deltaTime c pl pre a suf ev
    exact loopBody_eq sqrt deltaTime c pl pre a suf ev
  · intro deltaTime c a st
    obtain ⟨evs, h1, h2, h3, h4, -⟩ := processOne_single_hit sqrt deltaTime c a st
    refine ⟨evs, h1, h2, h3, fun h0 => ⟨(h4 h0).1, (h4 h0).2, ?_⟩⟩
    rcases processOne_cases sqrt deltaTime c a st with ⟨-, h⟩ |
      ⟨-, before, e, after, -, -, -, h⟩ | ⟨-, -, h⟩
    · left; rw [h]
    · left; rw [h]
    · right; rw [h]

/-! ## Target selection and world exit -/

theorem update_fst (a : ServerProjectile) (deltaTime : ℚ) :
    (a.update deltaTime).1 = { a with x := a.x + a.velX, y := a.y + a.velY } := by
  unfold ServerProjectile.update
  simp only
  split <;> rfl

theorem update_hit_iff (a : ServerProjectile) (deltaTime : ℚ) :
    (a.update deltaTime).2.hit = true ↔ leavesWorld a := by
  unfold ServerProjectile.update leavesWorld
  simp only
  split_ifs with h
  · exact ⟨fun _ => h, fun _ => rfl⟩
  · constructor
    · intro h1; cases h1
    · intro h1; exact absurd h1 h

theorem loopBody_of_drop (sqrt : ℚ → ℚ) (deltaTime c : ℚ) (i : ℕ) (st : LoopState)
    (a : ServerProjectile) (hget : st.projectiles[i]? = some a)
    (hx : ((a.update deltaTime).2.hit || (a.update deltaTime).1.isExpired c) = true) :
    loopBody sqrt deltaTime c i st =
      some ⟨st.players, st.projectiles.eraseIdx i, st.events⟩ := by
  unfold loopBody
  rw [hget]
  simp only [hx, if_true, eraseIdx_set_same]

theorem loopBody_of_keep (sqrt : ℚ → ℚ) (deltaTime c : ℚ) (i : ℕ) (st : LoopState)
    (a : ServerProjectile) (hget : st.projectiles[i]? = some a)
    (hx : ((a.update deltaTime).2.hit || (a.update deltaTime).1.isExpired c) = false)
    (hnone : ∀ e ∈ st.players, eligible sqrt (a.update deltaTime).1 e = false) :
    loopBody sqrt deltaTime c i st =
      some ⟨st.players, st.projectiles.set i (a.update deltaTime).1, st.events⟩ := by
  unfold loopBody
  rw [hget]
  simp only [hx, (collide_eq_none_iff sqrt _ _).mpr hnone]
  rfl

theorem loopBody_of_hit (sqrt : ℚ → ℚ) (deltaTime c : ℚ) (i : ℕ) (st : LoopState)
    (a : ServerProjectile) (hget : st.projectiles[i]? = some a)
    (hx : ((a.update deltaTime).2.hit || (a.update deltaTime).1.isExpired c) = false)
    (before : List (String × ServerPlayer)) (e : String × ServerPlayer)
    (after : List (String × ServerPlayer)) (hpl : st.players = before ++ e :: after)
    (hb : ∀ b ∈ before, eligible sqrt (a.update deltaTime).1 b = false)
    (he : eligible sqrt (a.update deltaTime).1 e = true) :
    loopBody sqrt deltaTime c i st =
      some ⟨before ++ (e.1, (e.2.takeDamage (a.update deltaTime).1.damage
            (a.update deltaTime).1.shooterId).1) :: after,
        st.projectiles.eraseIdx i,
        st.events ++ (resolveHit (a.update deltaTime).1 e.1 e.2).2⟩ := by
  unfold loopBody
  rw [hget]
  simp only [hx, hpl, collide_first sqrt _ before e after hb he, eraseIdx_set_same,
    resolveHit_fst]
  rfl

/-- C6. First-match target selection: for the projectile of the iteration, after
integration neither out of the world nor expired, the iteration damages exactly the first
entry of `gameState.players` that is not the shooter, is alive, is in the room of the
projectile and is at a distance less than the sum of the radii: that entry gets
`takeDamage`, the entries before and after it are unchanged and the projectile is removed;
when there is no such entry, no player changes, nothing is emitted and the projectile
stays in the store. One of the two cases always holds. -/
theorem C6_first_match (sqrt : ℚ → ℚ) (deltaTime c : ℚ) (i : ℕ) (st : LoopState)
    (a : ServerProjectile) (hget : st.projectiles[i]? = some a)
    (hin : (a.update deltaTime).2.hit = false)
    (hexp : (a.update deltaTime).1.isExpired c = false) :
    (∀ e : String × ServerPlayer, eligible sqrt (a.update deltaTime).1 e = true ↔
      e.1 ≠ (a.update deltaTime).1.shooterId ∧ e.2.alive = true ∧
      e.2.room = (a.update deltaTime).1.room ∧
      sqrt (((a.update deltaTime).1.x - e.2.x) * ((a.update deltaTime).1.x - e.2.x) +
          ((a.update deltaTime).1.y - e.2.y) * ((a.update deltaTime).1.y - e.2.y)) <
        (a.update deltaTime).1.radius + e.2.radius) ∧
    ((∀ e ∈ st.players, eligible sqrt (a.update deltaTime).1 e = false) →
      loopBody sqrt deltaTime c i st =
        some ⟨st.players, st.projectiles.set i (a.update deltaTime).1, st.events⟩) ∧
    (∀ (before : List (String × ServerPlayer)) (e : String × ServerPlayer)
      (after : List (String × ServerPlayer)), st.players = before ++ e :: after →
      (∀ b ∈ before, eligible sqrt (a.update deltaTime).1 b = false) →
      eligible sqrt (a.update deltaTime).1 e = true →
      loopBody sqrt deltaTime c i st =
        some ⟨before ++ (e.1, (e.2.takeDamage (a.update deltaTime).1.damage
              (a.update deltaTime).1.shooterId).1) :: after,
          st.projectiles.eraseIdx i,
          st.events ++ (resolveHit (a.update deltaTime).1 e.1 e.2).2⟩) ∧
    ((∀ e ∈ st.players, eligible sqrt (a.update deltaTime).1 e = false) ∨
      ∃ before e after, st.players = before ++ e :: after ∧
        (∀ b ∈ before, eligible sqrt (a.update deltaTime).1 b = false) ∧
        eligible sqrt (a.update deltaTime).1 e = true) := by
  have hx : ((a.update deltaTime).2.hit || (a.update deltaTime).1.isExpired c) = false := by
    rw [hin, hexp]; rfl
  exact ⟨fun e => eligible_iff sqrt _ e,
    fun hnone => loopBody_of_keep sqrt deltaTime c i st a hget hx hnone,
    fun before e after hpl hb he =>
      loopBody_of_hit sqrt deltaTime c i st a hget hx before e after hpl hb he,
    first_eligible sqrt _ st.players⟩

/-- A witness of C6: the projectile of `"a"` overlaps both its shooter (first in the
store) and the player `"b"`; it damages `"b"`. -/
theorem C6_first_match_witness :
    loopBody (fun _ => 10) 16 1000 0
        ⟨[("a", sampleShooter), ("b", sampleTarget)], [sampleProjectile], []⟩ =
      some ⟨[("a", sampleShooter)] ++
          ("b", (sampleTarget.takeDamage (sampleProjectile.update 16).1.damage
            (sampleProjectile.update 16).1.shooterId).1) :: [],
        [sampleProjectile].eraseIdx 0,
        [] ++ (resolveHit (sampleProjectile.update 16).1 "b" sampleTarget).2⟩ :=
  (C6_first_match (fun _ => 10) 16 1000 0
    ⟨[("a", sampleShooter), ("b", sampleTarget)], [sampleProjectile], []⟩ sampleProjectile
    rfl
    (by
      rw [Bool.eq_false_iff, Ne, update_hit_iff]
      norm_num [leavesWorld, sampleProjectile, ServerProjectile.new, PLAYER_TYPES, WORLD_SIZE])
    (by
      rw [update_fst]
      norm_num [ServerProjectile.isExpired, sampleProjectile, ServerProjectile.new,
        PROJECTILE_DURATION])).2.2.1
    [("a", sampleShooter)] ("b", sampleTarget) [] rfl
    (by
      intro b hb
      rw [List.mem_singleton] at hb
      subst hb
      rw [update_fst]
      simp [eligible, skipped, sampleProjectile, ServerProjectile.new])
    (by
      rw [eligible_iff, update_fst]
      refine ⟨by decide, rfl, rfl, ?_⟩
      norm_num [sampleProjectile, ServerProjectile.new, PLAYER_TYPES,
        sampleTarget, ServerPlayer.new, PLAYER_RADIUS])

theorem leavesWorld_of_onEdgeOutward (a : ServerProjectile) (h : onEdgeOutward a) :
    leavesWorld a := by
  unfold leavesWorld
  rcases h with ⟨h1, h2⟩ | ⟨h1, h2⟩ | ⟨h1, h2⟩ | ⟨h1, h2⟩
  · left; rw [h1]; linarith
  · right; left; rw [h1]; linarith
  · right; right; left; rw [h1]; linarith
  · right; right; right; rw [h1]; linarith

theorem processOne_of_leavesWorld (sqrt : ℚ → ℚ) (deltaTime c : ℚ) (a : ServerProjectile)
    (st : LoopState) (h : leavesWorld a) : processOne sqrt deltaTime c a st = st := by
  unfold processOne
  simp only [(update_hit_iff a deltaTime).mpr h, Bool.true_or, if_true]

theorem foldr_enumFrom_shift (sqrt : ℚ → ℚ) (deltaTime : ℚ) (clockA clockB : ℕ → ℚ)
    (l : List ServerProjectile) :
    ∀ (n m : ℕ) (st : LoopState), (∀ j, j < l.length → clockA (n + j) = clockB (m + j)) →
      (l.enumFrom n).foldr (fun ia acc => processOne sqrt deltaTime (clockA ia.1) ia.2 acc) st =
      ((l.enumFrom m).foldr (fun ia acc => processOne sqrt deltaTime (clockB ia.1) ia.2 acc) st)
    := by
  induction l with
  | nil => intro n m st _; rfl
  | cons x l ih =>
    intro n m st h
    simp only [List.enumFrom_cons, List.foldr_cons]
    have h0 := h 0 (by simp)
    simp only [add_zero] at h0
    rw [h0, ih (n + 1) (m + 1) st]
    intro j hj
    have := h (j + 1) (by simp; omega)
    rw [show n + 1 + j = n + (j + 1) by ring, show m + 1 + j = m + (j + 1) by ring]
    exact this

/-- A projectile that leaves the world takes no part in the sweep: the result is the one
of the sweep without it (the clock readings behind it move by one index). -/
theorem sweep_remove (sqrt : ℚ → ℚ) (deltaTime : ℚ) (clock : ℕ → ℚ)
    (pre : List ServerProjectile) (a : ServerProjectile) (suf : List ServerProjectile)
    (st : LoopState) (h : leavesWorld a) :
    sweep sqrt deltaTime clock (pre ++ a :: suf) st =
      sweep sqrt deltaTime (fun j => if j < pre.length then clock j else clock (j + 1))
        (pre ++ suf) st := by
  unfold sweep
  rw [List.enum_append, List.enum_append, List.foldr_append, List.foldr_append,
    List.enumFrom_cons, List.foldr_cons, processOne_of_leavesWorld sqrt deltaTime _ a _ h]
  rw [foldr_enumFrom_shift sqrt deltaTime clock
    (fun j => if j < pre.length then clock j else clock (j + 1)) suf (pre.length + 1)
    pre.length st]
  · unfold List.enum
    exact foldr_enumFrom_shift sqrt deltaTime clock
      (fun j => if j < pre.length then clock j else clock (j + 1)) pre 0 0 _
      (by intro j hj; simp only [zero_add, if_pos hj])
  · intro j _
    have : ¬ (pre.length + j < pre.length) := by omega
    simp only [if_neg this]
    rw [show pre.length + 1 + j = pre.length + j + 1 by ring]

/-- C10. World-exit removal: a projectile on an edge of the world whose velocity points
outward on that axis leaves the world at the integration; for a projectile that leaves
the world on either axis, its iteration of the loop removes it from the store before any
collision test, with every player and the emitted events unchanged (no `takeDamage`, no
`playerHit`), whatever players overlap it; and the whole tick is the tick of the store
without that projectile. -/
theorem C10_world_exit :
    (∀ a : ServerProjectile, onEdgeOutward a → leavesWorld a) ∧
    (∀ (sqrt : ℚ → ℚ) (deltaTime c : ℚ) (i : ℕ) (st : LoopState) (a : ServerProjectile),
      st.projectiles[i]? = some a → leavesWorld a →
      loopBody sqrt deltaTime c i st =
        some ⟨st.players, st.projectiles.eraseIdx i, st.events⟩) ∧
    (∀ (sqrt : ℚ → ℚ) (now : ℚ) (clock : ℕ → ℚ) (rnd : String → ℚ × ℚ) (gs : GameState)
      (pre : List ServerProjectile) (a : ServerProjectile) (suf : List ServerProjectile),
      gs.projectiles = pre ++ a :: suf → leavesWorld a →
      gameLoop sqrt now clock rnd gs =
        gameLoop sqrt now (fun j => if j < pre.length then clock j else clock (j + 1)) rnd
          { gs with projectiles := pre ++ suf }) := by
  refine ⟨leavesWorld_of_onEdgeOutward, ?_, ?_⟩
  · intro sqrt deltaTime c i st a hget hout
    apply loopBody_of_drop sqrt deltaTime c i st a hget
    rw [(update_hit_iff a deltaTime).mpr hout]
    rfl
  · intro sqrt now clock rnd gs pre a suf hgs hout
    rw [gameLoop_eq_sweep, gameLoop_eq_sweep]
    simp only [hgs, sweep_remove sqrt _ clock pre a suf _ hout]

/-- A witness of C10: a projectile on the right edge moving outward, overlapping the
living player `"b"` of its room, is removed and `"b"` is not hit. -/
theorem C10_world_exit_witness :
    loopBody (fun _ => 0) 16 1000 0
        ⟨[("b", { sampleTarget with x := 15000, y := 7500 })], [sampleEdgeProjectile], []⟩ =
      some ⟨[("b", { sampleTarget with x := 15000, y := 7500 })],
        [sampleEdgeProjectile].eraseIdx 0, []⟩ :=
  C10_world_exit.2.1 (fun _ => 0) 16 1000 0
    ⟨[("b", { sampleTarget with x := 15000, y := 7500 })], [sampleEdgeProjectile], []⟩
    sampleEdgeProjectile rfl
    (C10_world_exit.1 sampleEdgeProjectile (by
      norm_num [onEdgeOutward, sampleEdgeProjectile, ServerProjectile.new, PLAYER_TYPES,
        WORLD_SIZE]))

/-! ## Death and respawn -/

theorem life_of_dead (sqrt : ℚ → ℚ) (playerId : String) (p : ServerPlayer)
    (steps : List LifeStep) (h : p.alive = false) : life sqrt playerId p steps = (p, []) := by
  cases steps with
  | nil => rfl
  | cons step rest =>
    unfold life
    rw [if_pos h]

theorem life_hit (sqrt : ℚ → ℚ) (playerId : String) (p : ServerPlayer)
    (projectile : ServerProjectile) (rest : List LifeStep) (h : p.alive = true) :
    life sqrt playerId p (LifeStep.hit projectile :: rest) =
      ((life sqrt playerId (resolveHit projectile playerId p).1 rest).1,
        (resolveHit projectile playerId p).2 ++
          (life sqrt playerId (resolveHit projectile playerId p).1 rest).2) := by
  have hne : ¬ (p.alive = false) := by rw [h]; decide
  rw [life, if_neg hne]

theorem life_tick (sqrt : ℚ → ℚ) (playerId : String) (p : ServerPlayer)
    (call : UpdateCall) (rest : List LifeStep) (h : p.alive = true) :
    life sqrt playerId p (LifeStep.tick call :: rest) =
      life sqrt playerId (p.update sqrt call.input call.deltaTime call.rx call.ry) rest := by
  have hne : ¬ (p.alive = false) := by rw [h]; decide
  rw [life, if_neg hne]

theorem resolveHit_died_events (projectile : ServerProjectile) (playerId : String)
    (p : ServerPlayer) :
    (resolveHit projectile playerId p).2.filter Event.isPlayerDied =
      if (p.takeDamage projectile.damage projectile.shooterId).2.died then
        [Event.playerDied p.room playerId (some projectile.shooterId)]
      else [] := by
  rw [resolveHit_events]
  cases hd : (p.takeDamage projectile.damage projectile.shooterId).2.died
  · simp [Event.isPlayerDied]
  · have := takeDamage_of_died p projectile.damage projectile.shooterId hd
    simp [Event.isPlayerDied, this]

/-- In one life at most one `playerDied` is emitted. -/
theorem life_died_le_one (sqrt : ℚ → ℚ) (playerId : String) (steps : List LifeStep) :
    ∀ p : ServerPlayer,
      ((life sqrt playerId p steps).2.filter Event.isPlayerDied).length ≤ 1 := by
  induction steps with
  | nil => intro p; simp [life]
  | cons step rest ih =>
    intro p
    cases ha : p.alive
    · rw [life_of_dead sqrt playerId p _ ha]
      simp
    · cases step with
      | hit projectile =>
        rw [life_hit sqrt playerId p projectile rest ha]
        simp only [List.filter_append, List.length_append, resolveHit_died_events]
        cases hd : (p.takeDamage projectile.damage projectile.shooterId).2.died
        · simpa using ih _
        · have hdead : (resolveHit projectile playerId p).1.alive = false := by
            rw [resolveHit_fst, takeDamage_of_died p _ _ hd]
          rw [life_of_dead sqrt playerId _ rest hdead]
          simp
      | tick call =>
        rw [life_tick sqrt playerId p call rest ha]
        exact ih _

/-- A life that starts alive with positive health and ends with `hp = 0`: exactly one
`playerDied` is emitted, for the projectile whose hit ended the life. -/
theorem life_death (sqrt : ℚ → ℚ) (playerId : String) (steps : List LifeStep) :
    ∀ p : ServerPlayer, p.alive = true → 0 < p.hp →
      (life sqrt playerId p steps).1.hp = 0 →
      ∃ pre killer post, steps = pre ++ LifeStep.hit killer :: post ∧
        (life sqrt playerId p pre).1.alive = true ∧
        (life sqrt playerId p steps).2.filter Event.isPlayerDied =
          [Event.playerDied p.room playerId (some killer.shooterId)] ∧
        (life sqrt playerId p steps).1.alive = false ∧
        (life sqrt playerId p steps).1.respawnTime = 3000 := by
  induction steps with
  | nil =>
    intro p _ hhp h0
    simp only [life] at h0
    rw [h0] at hhp
    exact absurd hhp (lt_irrefl _)
  | cons step rest ih =>
    intro p ha hhp h0
    cases step with
    | hit projectile =>
      rw [life_hit sqrt playerId p projectile rest ha] at h0 ⊢
      simp only at h0 ⊢
      cases hd : (p.takeDamage projectile.damage projectile.shooterId).2.died
      · have hr : (resolveHit projectile playerId p).1 =
            { p with hp := max 0 (p.hp - projectile.damage) } := by
          rw [resolveHit_fst, takeDamage_of_not_died p _ _ hd]
        have hpos : 0 < max 0 (p.hp - projectile.damage) := by
          rcases lt_or_eq_of_le (le_max_left (0 : ℚ) (p.hp - projectile.damage)) with h1 | h1
          · exact h1
          · exfalso
            have := (takeDamage_died_iff p projectile.damage projectile.shooterId).mpr
              ⟨ha, by rw [takeDamage_hp]; exact h1.symm⟩
            rw [hd] at this
            cases this
        rw [hr] at h0 ⊢
        obtain ⟨pre, killer, post, hsteps, halive, hev, hdead, hrt⟩ :=
          ih { p with hp := max 0 (p.hp - projectile.damage) } ha hpos h0
        refine ⟨LifeStep.hit projectile :: pre, killer, post, by rw [hsteps]; rfl, ?_, ?_,
          hdead, hrt⟩
        · rw [life_hit sqrt playerId p projectile pre ha, hr]
          exact halive
        · rw [List.filter_append, resolveHit_died_events, hd, hev]
          rfl
      · have hr : (resolveHit projectile playerId p).1 =
            { p with hp := max 0 (p.hp - projectile.damage), alive := false,
                     respawnTime := 3000 } := by
          rw [resolveHit_fst, takeDamage_of_died p _ _ hd]
        have hdead : (resolveHit projectile playerId p).1.alive = false := by rw [hr]
        rw [life_of_dead sqrt playerId _ rest hdead]
        refine ⟨[], projectile, rest, rfl, ha, ?_, hdead, by rw [hr]⟩
        rw [List.append_nil, resolveHit_died_events, hd]
        rfl
    | tick call =>
      rw [life_tick sqrt playerId p call rest ha] at h0 ⊢
      have hu := update_alive_eq sqrt p call.input call.deltaTime call.rx call.ry ha
      obtain ⟨pre, killer, post, hsteps, halive, hev, hdead, hrt⟩ :=
        ih (p.update sqrt call.input call.deltaTime call.rx call.ry)
          (by rw [hu]; exact ha) (by rw [hu]; exact hhp) h0
      refine ⟨LifeStep.tick call :: pre, killer, post, by rw [hsteps]; rfl, ?_, ?_, hdead, hrt⟩
      · rw [life_tick sqrt playerId p call pre ha]
        exact halive
      · rw [hev, hu]

theorem resolveHit_deaths (projectile : ServerProjectile) (playerId id : String)
    (p : ServerPlayer) :
    ((resolveHit projectile playerId p).2.filter (Event.isDeathOf id)).length =
      if playerId = id ∧ (resolveHit projectile playerId p).1.alive = false ∧ p.alive = true
      then 1 else 0 := by
  rw [resolveHit_events, resolveHit_fst]
  cases hd : (p.takeDamage projectile.damage projectile.shooterId).2.died
  · have h1 := takeDamage_of_not_died p projectile.damage projectile.shooterId hd
    rw [h1]
    cases ha : p.alive <;> simp [Event.isDeathOf, ha]
  · have h1 := takeDamage_of_died p projectile.damage projectile.shooterId hd
    have ha := ((takeDamage_died_iff p projectile.damage projectile.shooterId).mp hd).1
    rw [h1]
    by_cases hid : playerId = id
    · simp [Event.isDeathOf, hid, ha]
    · simp [Event.isDeathOf, hid]

/-- Over the sweep of a tick the keys of the players stay, a player that is not alive
stays so, and the `playerDied` events emitted for a key are one when its player goes from
alive to not alive and none otherwise. -/
theorem sweep_deaths (sqrt : ℚ → ℚ) (deltaTime : ℚ) (clock : ℕ → ℚ)
    (l : List ServerProjectile) (st : LoopState)
    (hnd : (st.players.map Prod.fst).Nodup) :
    (sweep sqrt deltaTime clock l st).players.map Prod.fst = st.players.map Prod.fst ∧
    ∃ evs, (sweep sqrt deltaTime clock l st).events = st.events ++ evs ∧
      ∀ id p0, (id, p0) ∈ st.players →
        ∃ p1, (id, p1) ∈ (sweep sqrt deltaTime clock l st).players ∧
          (p1.alive = true → p0.alive = true) ∧
          (evs.filter (Event.isDeathOf id)).length =
            if p0.alive = true ∧ p1.alive = false then 1 else 0 := by
  apply sweep_induction sqrt deltaTime clock
    (fun st1 => st1.players.map Prod.fst = st.players.map Prod.fst ∧
      ∃ evs, st1.events = st.events ++ evs ∧
        ∀ id p0, (id, p0) ∈ st.players →
          ∃ p1, (id, p1) ∈ st1.players ∧ (p1.alive = true → p0.alive = true) ∧
            (evs.filter (Event.isDeathOf id)).length =
              if p0.alive = true ∧ p1.alive = false then 1 else 0)
  · refine ⟨rfl, [], by simp, ?_⟩
    intro id p0 hp0
    refine ⟨p0, hp0, fun h => h, ?_⟩
    cases p0.alive <;> simp
  · intro c a _ st1 ⟨hkeys, evs, hev, hall⟩
    rcases processOne_cases sqrt deltaTime c a st1 with ⟨-, h⟩ |
      ⟨-, before, e, after, hpl, -, he, h⟩ | ⟨-, -, h⟩
    · rw [h]; exact ⟨hkeys, evs, hev, hall⟩
    · have hnd1 : (st1.players.map Prod.fst).Nodup := by rw [hkeys]; exact hnd
      have healive : e.2.alive = true := ((eligible_iff sqrt _ e).mp he).2.1
      rw [h]
      refine ⟨?_, evs ++ (resolveHit (a.update deltaTime).1 e.1 e.2).2, ?_, ?_⟩
      · rw [← hkeys, hpl]
        simp
      · simp only [hev, List.append_assoc]
      · intro id p0 hp0
        obtain ⟨p1, hp1, himp, hcount⟩ := hall id p0 hp0
        simp only [List.filter_append, List.length_append, resolveHit_deaths]
        by_cases hid : e.1 = id
        · have hp1e : p1 = e.2 := by
            apply map_value_unique st1.players id p1 e.2 hnd1 hp1
            rw [hpl, ← hid]
            simp
          refine ⟨(resolveHit (a.update deltaTime).1 e.1 e.2).1, ?_, ?_, ?_⟩
          · rw [← hid]
            simp
          · intro _
            exact himp (hp1e ▸ healive)
          · have hp0a : p0.alive = true := himp (hp1e ▸ healive)
            rw [hcount, hp1e]
            simp only [healive, hp0a, hid, true_and, and_true]
            cases (resolveHit (a.update deltaTime).1 e.1 e.2).1.alive <;> simp
        · refine ⟨p1, ?_, himp, ?_⟩
          · rw [hpl] at hp1
            simp only [List.mem_append, List.mem_cons] at hp1 ⊢
            rcases hp1 with h1 | h1 | h1
            · exact Or.inl h1
            · exact absurd (congrArg Prod.fst h1).symm hid
            · exact Or.inr (Or.inr h1)
          · rw [hcount]
            simp [hid]
    · rw [h]; exact ⟨hkeys, evs, hev, hall⟩

/-- Every `playerDied` of a sweep carries the `shooterId` of a projectile of the store. -/
theorem sweep_killers (sqrt : ℚ → ℚ) (deltaTime : ℚ) (clock : ℕ → ℚ)
    (l : List ServerProjectile) (st : LoopState) :
    ∀ ev ∈ (sweep sqrt deltaTime clock l st).events, ev ∈ st.events ∨ ev.isPlayerHit = true ∨
      ∃ a ∈ l, ∃ room playerId, ev = Event.playerDied room playerId (some a.shooterId) := by
  apply sweep_induction sqrt deltaTime clock
    (fun st1 => ∀ ev ∈ st1.events, ev ∈ st.events ∨ ev.isPlayerHit = true ∨
      ∃ a ∈ l, ∃ room playerId, ev = Event.playerDied room playerId (some a.shooterId))
  · exact fun ev hev => Or.inl hev
  · intro c a ha st1 hst1 ev hev
    rcases processOne_cases sqrt deltaTime c a st1 with ⟨-, h⟩ |
      ⟨-, before, e, after, -, -, -, h⟩ | ⟨-, -, h⟩
    · rw [h] at hev; exact hst1 ev hev
    · rw [h] at hev
      simp only at hev
      rcases List.mem_append.mp hev with h1 | h1
      · exact hst1 ev h1
      · rw [resolveHit_events] at h1
        rcases List.mem_cons.mp h1 with h2 | h2
        · right; left; rw [h2]; rfl
        · right; right
          split_ifs at h2 with hd
          · rw [List.mem_singleton] at h2
            have hatt : (e.2.takeDamage (a.update deltaTime).1.damage
                (a.update deltaTime).1.shooterId).2.attackerId = some a.shooterId := by
              rw [takeDamage_of_died _ _ _ hd, update_fst]
            rw [hatt] at h2
            exact ⟨a, ha, (e.2.takeDamage (a.update deltaTime).1.damage
              (a.update deltaTime).1.shooterId).1.room, e.1, h2⟩
          · cases h2
    · rw [h] at hev; exact hst1 ev hev

theorem updatePlayers_keys (sqrt : ℚ → ℚ) (deltaTime : ℚ) (rnd : String → ℚ × ℚ)
    (players : List (String × ServerPlayer)) :
    (updatePlayers sqrt deltaTime rnd players).map Prod.fst = players.map Prod.fst := by
  unfold updatePlayers
  rw [List.map_map]
  rfl

/-- C7. Death transition: `takeDamage` returns `died = true` exactly when the player was
alive before the call and its `hp` after the subtraction (`max 0 (hp - damage)`) is 0;
then `alive` becomes false, `respawnTime` becomes 3000 and the attacker id is returned;
otherwise `alive` and `respawnTime` stay. A resolved hit emits `playerDied` (with the key
of the victim and the `shooterId` of the projectile) exactly when `takeDamage` reports
the death. So in a tick of `gameLoop` the `playerDied` events of a player are one when it
goes from alive (after its update) to not alive, and none otherwise, each with the
`shooterId` of a projectile of the store; and in one life, any sequence of hits and
ticks, at most one `playerDied` is emitted, exactly one when the life of a living player
with positive health ends with `hp = 0`, for the projectile whose hit ended it. -/
theorem C7_death_once :
    (∀ (p : ServerPlayer) (damage : ℚ) (attackerId : String),
      ((p.takeDamage damage attackerId).2.died = true ↔
        p.alive = true ∧ (p.takeDamage damage attackerId).1.hp = 0) ∧
      (p.takeDamage damage attackerId).1.hp = max 0 (p.hp - damage) ∧
      ((p.takeDamage damage attackerId).2.died = true →
        (p.takeDamage damage attackerId).1.alive = false ∧
        (p.takeDamage damage attackerId).1.respawnTime = 3000 ∧
        (p.takeDamage damage attackerId).2.attackerId = some attackerId) ∧
      ((p.takeDamage damage attackerId).2.died = false →
        (p.takeDamage damage attackerId).1.alive = p.alive ∧
        (p.takeDamage damage attackerId).1.respawnTime = p.respawnTime)) ∧
    (∀ (projectile : ServerProjectile) (playerId : String) (p : ServerPlayer),
      (resolveHit projectile playerId p).2.filter Event.isPlayerDied =
        if (p.takeDamage projectile.damage projectile.shooterId).2.died then
          [Event.playerDied p.room playerId (some projectile.shooterId)]
        else []) ∧
    (∀ (sqrt : ℚ → ℚ) (now : ℚ) (clock : ℕ → ℚ) (rnd : String → ℚ × ℚ) (gs : GameState),
      (gs.players.map Prod.fst).Nodup →
      ∃ r, gameLoop sqrt now clock rnd gs = some r ∧
        (∀ id p0, (id, p0) ∈ updatePlayers sqrt (min 100 (now - gs.lastUpdateTime)) rnd
            gs.players →
          ∃ p1, (id, p1) ∈ r.1.players ∧ (p1.alive = true → p0.alive = true) ∧
            (r.2.filter (Event.isDeathOf id)).length =
              if p0.alive = true ∧ p1.alive = false then 1 else 0) ∧
        (∀ ev ∈ r.2, ev.isPlayerDied = true →
          ∃ a ∈ gs.projectiles, ∃ room playerId,
            ev = Event.playerDied room playerId (some a.shooterId))) ∧
    (∀ (sqrt : ℚ → ℚ) (playerId : String) (p : ServerPlayer) (steps : List LifeStep),
      ((life sqrt playerId p steps).2.filter Event.isPlayerDied).length ≤ 1) ∧
    (∀ (sqrt : ℚ → ℚ) (playerId : String) (p : ServerPlayer) (steps : List LifeStep),
      p.alive = true → 0 < p.hp → (life sqrt playerId p steps).1.hp = 0 →
      ∃ pre killer post, steps = pre ++ LifeStep.hit killer :: post ∧
        (life sqrt playerId p pre).1.alive = true ∧
        (life sqrt playerId p steps).2.filter Event.isPlayerDied =
          [Event.playerDied p.room playerId (some killer.shooterId)] ∧
        (life sqrt playerId p steps).1.alive = false ∧
        (life sqrt playerId p steps).1.respawnTime = 3000) := by
  refine ⟨?_, resolveHit_died_events, ?_, fun sqrt playerId p steps =>
    life_died_le_one sqrt playerId steps p, fun sqrt playerId p steps =>
    life_death sqrt playerId steps p⟩
  · intro p damage attackerId
    refine ⟨takeDamage_died_iff p damage attackerId, takeDamage_hp p damage attackerId, ?_, ?_⟩
    · intro hd
      rw [takeDamage_of_died p damage attackerId hd]
      exact ⟨rfl, rfl, rfl⟩
    · intro hd
      rw [takeDamage_of_not_died p damage attackerId hd]
      exact ⟨rfl, rfl⟩
  · intro sqrt now clock rnd gs hnd
    refine ⟨_, gameLoop_eq_sweep sqrt now clock rnd gs, ?_, ?_⟩
    · obtain ⟨-, evs, hev, hall⟩ := sweep_deaths sqrt (min 100 (now - gs.lastUpdateTime))
        clock gs.projectiles
        ⟨updatePlayers sqrt (min 100 (now - gs.lastUpdateTime)) rnd gs.players, [], []⟩
        (by rw [updatePlayers_keys]; exact hnd)
      intro id p0 hp0
      obtain ⟨p1, hp1, himp, hcount⟩ := hall id p0 hp0
      refine ⟨p1, hp1, himp, ?_⟩
      simp only [hev, List.nil_append]
      exact hcount
    · intro ev hev hdied
      rcases sweep_killers sqrt _ clock _ _ ev hev with h1 | h1 | h1
      · cases h1
      · cases ev <;> simp [Event.isPlayerHit, Event.isPlayerDied] at h1 hdied
      · exact h1

/-- A witness of C7: the player `"b"` with 10 health points is hit by a projectile of
damage 12 fired by `"a"`. -/
theorem C7_death_once_witness :
    ∃ pre killer post,
      [LifeStep.hit sampleProjectile] = pre ++ LifeStep.hit killer :: post ∧
      (life (fun _ => 0) "b" { sampleTarget with hp := 10 } pre).1.alive = true ∧
      (life (fun _ => 0) "b" { sampleTarget with hp := 10 }
          [LifeStep.hit sampleProjectile]).2.filter Event.isPlayerDied =
        [Event.playerDied ({ sampleTarget with hp := 10 } : ServerPlayer).room "b"
          (some killer.shooterId)] ∧
      (life (fun _ => 0) "b" { sampleTarget with hp := 10 }
          [LifeStep.hit sampleProjectile]).1.alive = false ∧
      (life (fun _ => 0) "b" { sampleTarget with hp := 10 }
          [LifeStep.hit sampleProjectile]).1.respawnTime = 3000 :=
  C7_death_once.2.2.2.2 (fun _ => 0) "b" { sampleTarget with hp := 10 }
    [LifeStep.hit sampleProjectile] rfl (by norm_num)
    (by
      rw [life_hit _ _ _ _ _ rfl, resolveHit_fst]
      simp only [life]
      rw [takeDamage_hp]
      norm_num [sampleProjectile, ServerProjectile.new, PLAYER_TYPES,
        BASE_PROJECTILE_DAMAGE])

theorem elapsed_cons (call : UpdateCall) (calls : List UpdateCall) :
    elapsed (call :: calls) = call.deltaTime + elapsed calls := by
  simp [elapsed]

theorem elapsed_append (xs ys : List UpdateCall) :
    elapsed (xs ++ ys) = elapsed xs + elapsed ys := by
  simp [elapsed]

theorem elapsed_nonneg (calls : List UpdateCall) (h : ∀ call ∈ calls, 0 ≤ call.deltaTime) :
    0 ≤ elapsed calls := by
  induction calls with
  | nil => simp [elapsed]
  | cons call calls ih =>
    rw [elapsed_cons]
    have h1 := h call (List.mem_cons_self _ _)
    have h2 := ih (fun x hx => h x (List.mem_cons_of_mem _ hx))
    linarith

theorem elapsed_take_mono (calls : List UpdateCall)
    (h : ∀ call ∈ calls, 0 ≤ call.deltaTime) (j k : ℕ) (hjk : j ≤ k) :
    elapsed (calls.take j) ≤ elapsed (calls.take k) := by
  have hsplit : calls.take k = calls.take j ++ (calls.take k).drop j := by
    conv_lhs => rw [← List.take_append_drop j (calls.take k)]
    rw [List.take_take, min_eq_left hjk]
  rw [hsplit, elapsed_append]
  have : 0 ≤ elapsed ((calls.take k).drop j) := by
    apply elapsed_nonneg
    intro call hc
    exact h call (List.mem_of_mem_take (List.mem_of_mem_drop hc))
  linarith

theorem updates_cons (sqrt : ℚ → ℚ) (p : ServerPlayer) (call : UpdateCall)
    (calls : List UpdateCall) :
    p.updates sqrt (call :: calls) =
      (p.update sqrt call.input call.deltaTime call.rx call.ry).updates sqrt calls := rfl

theorem updates_append (sqrt : ℚ → ℚ) (p : ServerPlayer) (xs ys : List UpdateCall) :
    p.updates sqrt (xs ++ ys) = (p.updates sqrt xs).updates sqrt ys := by
  unfold ServerPlayer.updates
  rw [List.foldl_append]

/-- While the time elapsed stays under the countdown, the updates of a dead player only
decrease the countdown. -/
theorem updates_dead (sqrt : ℚ → ℚ) (calls : List UpdateCall) :
    ∀ p : ServerPlayer, p.alive = false →
      (∀ j, 1 ≤ j → j ≤ calls.length → elapsed (calls.take j) < p.respawnTime) →
      p.updates sqrt calls = { p with respawnTime := p.respawnTime - elapsed calls } := by
  induction calls with
  | nil =>
    intro p _ _
    simp [ServerPlayer.updates, elapsed]
  | cons call calls ih =>
    intro p ha h
    have h1 := h 1 (le_refl _) (by simp)
    simp only [List.take_succ_cons, List.take_zero, elapsed_cons] at h1
    have h1b : call.deltaTime < p.respawnTime := by
      simpa [elapsed] using h1
    rw [updates_cons, update_dead_eq sqrt p _ _ _ _ ha, if_neg (by linarith)]
    rw [ih { p with respawnTime := p.respawnTime - call.deltaTime } ha]
    · simp only [elapsed_cons]
      rw [show p.respawnTime - call.deltaTime - elapsed calls =
        p.respawnTime - (call.deltaTime + elapsed calls) by ring]
    · intro j hj1 hj2
      have := h (j + 1) (by omega) (by simp; omega)
      simp only [List.take_succ_cons, elapsed_cons] at this
      simp only
      linarith

/-- C8. Respawn timing: for a dead player with countdown `respawnTime` and a sequence of
updates whose `deltaTime` are not negative, the player is still not alive after the first
`k` updates whenever their `deltaTime` sum to less than the countdown; and the first
update at which the sum reaches the countdown (update `k + 1`, the sum being less after
`k` updates, or `k = 0`) makes it alive, with `hp = maxHp`, velocity `(0, 0)` and the
position within the world bounds. The countdown is 3000 right after a death. -/
theorem C8_respawn_timing (sqrt : ℚ → ℚ) (p : ServerPlayer) (calls : List UpdateCall)
    (hdead : p.alive = false) (hr : p.radius = PLAYER_RADIUS)
    (hnn : ∀ call ∈ calls, 0 ≤ call.deltaTime)
    (hrand : ∀ call ∈ calls, IsRandom call.rx ∧ IsRandom call.ry) :
    (∀ k, elapsed (calls.take k) < p.respawnTime →
      (p.updates sqrt (calls.take k)).alive = false) ∧
    (∀ k, k < calls.length → (k = 0 ∨ elapsed (calls.take k) < p.respawnTime) →
      p.respawnTime ≤ elapsed (calls.take (k + 1)) →
      (p.updates sqrt (calls.take k)).alive = false ∧
      (p.updates sqrt (calls.take (k + 1))).alive = true ∧
      (p.updates sqrt (calls.take (k + 1))).hp = (p.updates sqrt (calls.take (k + 1))).maxHp ∧
      (p.updates sqrt (calls.take (k + 1))).velX = 0 ∧
      (p.updates sqrt (calls.take (k + 1))).velY = 0 ∧
      InBounds (p.updates sqrt (calls.take (k + 1)))) ∧
    (∀ (q : ServerPlayer) (damage : ℚ) (attackerId : String),
      (q.takeDamage damage attackerId).2.died = true →
      (q.takeDamage damage attackerId).1.alive = false ∧
      (q.takeDamage damage attackerId).1.respawnTime = 3000) := by
  have hbefore : ∀ k, (k = 0 ∨ elapsed (calls.take k) < p.respawnTime) →
      p.updates sqrt (calls.take k) =
        { p with respawnTime := p.respawnTime - elapsed (calls.take k) } := by
    intro k hk
    apply updates_dead sqrt (calls.take k) p hdead
    intro j hj1 hj2
    have hjk : j ≤ k := le_trans hj2 (by simp)
    rcases hk with hk | hk
    · omega
    · rw [List.take_take, min_eq_left hjk]
      exact lt_of_le_of_lt (elapsed_take_mono calls hnn j k hjk) hk
  refine ⟨?_, ?_, ?_⟩
  · intro k hk
    rw [hbefore k (Or.inr hk)]
    exact hdead
  · intro k hklen hk hreach
    have hstep : calls.take (k + 1) = calls.take k ++ [calls.get ⟨k, hklen⟩] := by
      rw [List.take_succ, List.getElem?_eq_getElem hklen]
      rfl
    have hmem : calls.get ⟨k, hklen⟩ ∈ calls := List.get_mem _ _ _
    have hel : elapsed (calls.take (k + 1)) =
        elapsed (calls.take k) + (calls.get ⟨k, hklen⟩).deltaTime := by
      rw [hstep, elapsed_append]
      simp [elapsed]
    have hupd : p.updates sqrt (calls.take (k + 1)) =
        ({ p with respawnTime := p.respawnTime - elapsed (calls.take k) -
            (calls.get ⟨k, hklen⟩).deltaTime } : ServerPlayer).respawn
          (calls.get ⟨k, hklen⟩).rx (calls.get ⟨k, hklen⟩).ry := by
      rw [hstep, updates_append, hbefore k hk]
      simp only [ServerPlayer.updates, List.foldl_cons, List.foldl_nil]
      rw [update_dead_eq sqrt
        { p with respawnTime := p.respawnTime - elapsed (calls.take k) } _ _ _ _ hdead, if_pos]
      simp only
      rw [hel] at hreach
      linarith
    refine ⟨by rw [hbefore k hk]; exact hdead, ?_⟩
    rw [hupd]
    exact ⟨rfl, rfl, rfl, rfl, respawn_inBounds _ _ _ hr (hrand _ hmem).1 (hrand _ hmem).2⟩
  · intro q damage attackerId hd
    rw [takeDamage_of_died q damage attackerId hd]
    exact ⟨rfl, rfl⟩

/-- A witness of C8: a player dead with a countdown of 3000 ms is still dead after one
update of 2000 ms and alive after the second. -/
theorem C8_respawn_timing_witness :
    (sampleDead.updates (fun _ => 0) (sampleCalls.take 1)).alive = false ∧
    (sampleDead.updates (fun _ => 0) (sampleCalls.take (1 + 1))).alive = true ∧
    (sampleDead.updates (fun _ => 0) (sampleCalls.take (1 + 1))).hp =
      (sampleDead.updates (fun _ => 0) (sampleCalls.take (1 + 1))).maxHp ∧
    (sampleDead.updates (fun _ => 0) (sampleCalls.take (1 + 1))).velX = 0 ∧
    (sampleDead.updates (fun _ => 0) (sampleCalls.take (1 + 1))).velY = 0 ∧
    InBounds (sampleDead.updates (fun _ => 0) (sampleCalls.take (1 + 1))) :=
  (C8_respawn_timing (fun _ => 0) sampleDead sampleCalls rfl rfl
    (by
      intro call hc
      simp only [sampleCalls, List.mem_cons, List.mem_singleton, List.not_mem_nil,
        or_false, or_self] at hc
      rw [hc]
      norm_num)
    (by
      intro call hc
      simp only [sampleCalls, List.mem_cons, List.mem_singleton, List.not_mem_nil,
        or_false, or_self] at hc
      rw [hc]
      norm_num [IsRandom])).2.1 1 (by simp [sampleCalls])
    (Or.inr (by norm_num [elapsed, sampleCalls, sampleDead]))
    (by norm_num [elapsed, sampleCalls, sampleDead])

/-! ## Projectile damage -/

/-- C9. Projectile damage arithmetic: the damage of a projectile is set by the
constructor to `BASE_PROJECTILE_DAMAGE` (10) times the damage modifier of its type (FEU
1.2, EAU 1.0, TERRE 1.1, VENT 0.8) and `update` does not change it; a resolved hit sets
the `hp` of the victim to `max 0 (hp - damage)`; a FEU projectile (damage 12) on a living
player with `hp = 100` leaves `hp = 88`, the player alive, `takeDamage` reporting
`died = false`, and emits the `playerHit` only. -/
theorem C9_projectile_damage :
    (∀ (cos sin : ℚ → ℚ) (randomId : String) (now : ℚ) (shooterId : String)
      (x y angle : ℚ) (type : PlayerType),
      (ServerProjectile.new cos sin randomId now shooterId x y angle type).damage =
        BASE_PROJECTILE_DAMAGE * (PLAYER_TYPES type).damageModifier) ∧
    BASE_PROJECTILE_DAMAGE = 10 ∧
    (PLAYER_TYPES PlayerType.FEU).damageModifier = 12 / 10 ∧
    (PLAYER_TYPES PlayerType.EAU).damageModifier = 1 ∧
    (PLAYER_TYPES PlayerType.TERRE).damageModifier = 11 / 10 ∧
    (PLAYER_TYPES PlayerType.VENT).damageModifier = 8 / 10 ∧
    (∀ (a : ServerProjectile) (deltaTime : ℚ), (a.update deltaTime).1.damage = a.damage) ∧
    (∀ (projectile : ServerProjectile) (playerId : String) (p : ServerPlayer),
      (resolveHit projectile playerId p).1.hp = max 0 (p.hp - projectile.damage)) ∧
    (∀ (cos sin : ℚ → ℚ) (randomId : String) (now : ℚ) (shooterId : String)
      (x y angle : ℚ) (playerId : String) (p : ServerPlayer),
      p.alive = true → p.hp = 100 →
      (resolveHit (ServerProjectile.new cos sin randomId now shooterId x y angle
          PlayerType.FEU) playerId p).1.hp = 88 ∧
      (resolveHit (ServerProjectile.new cos sin randomId now shooterId x y angle
          PlayerType.FEU) playerId p).1.alive = true ∧
      (p.takeDamage (ServerProjectile.new cos sin randomId now shooterId x y angle
          PlayerType.FEU).damage shooterId).2.died = false ∧
      (resolveHit (ServerProjectile.new cos sin randomId now shooterId x y angle
          PlayerType.FEU) playerId p).2 = [Event.playerHit p.room playerId 12 88]) := by
  refine ⟨fun _ _ _ _ _ _ _ _ _ => rfl, rfl, rfl, rfl, rfl, rfl, update_damage, ?_, ?_⟩
  · intro projectile playerId p
    rw [resolveHit_fst, takeDamage_hp]
  · intro cos sin randomId now shooterId x y angle playerId p ha hhp
    have hdmg : (ServerProjectile.new cos sin randomId now shooterId x y angle
        PlayerType.FEU).damage = 12 := by
      norm_num [ServerProjectile.new, PLAYER_TYPES, BASE_PROJECTILE_DAMAGE]
    have hsid : (ServerProjectile.new cos sin randomId now shooterId x y angle
        PlayerType.FEU).shooterId = shooterId := rfl
    have hhp2 : (p.takeDamage 12 shooterId).1.hp = 88 := by
      rw [takeDamage_hp, hhp]
      norm_num
    have hnd : (p.takeDamage 12 shooterId).2.died = false := by
      rw [Bool.eq_false_iff, Ne, takeDamage_died_iff, hhp2]
      norm_num
    have heq := takeDamage_of_not_died p 12 shooterId hnd
    refine ⟨?_, ?_, ?_, ?_⟩
    · rw [resolveHit_fst, hdmg, hsid, hhp2]
    · rw [resolveHit_fst, hdmg, hsid, heq]
      exact ha
    · rw [hdmg]
      exact hnd
    · rw [resolveHit_events, hdmg, hsid, hnd, hhp2, heq]
      rfl

/-- A witness of C9: the sample FEU projectile hits the sample player with 100 health
points. -/
theorem C9_projectile_damage_witness :
    (resolveHit (ServerProjectile.new (fun _ => 1) (fun _ => 0) "p1" 0 "a" 7500 7500 0
        PlayerType.FEU) "b" sampleTarget).1.hp = 88 :=
  (C9_projectile_damage.2.2.2.2.2.2.2.2 (fun _ => 1) (fun _ => 0) "p1" 0 "a" 7500 7500 0 "b"
    sampleTarget rfl rfl).1

/-! ## Invariants of the players over every run of the server -/

theorem mem_mapUpdate {β : Type} (m : List (String × β)) (k : String) (f : β → β)
    (x : String × β) (hx : x ∈ mapUpdate m k f) : x ∈ m ∨ ∃ y ∈ m, x = (y.1, f y.2) := by
  induction m with
  | nil => cases hx
  | cons e m ih =>
    unfold mapUpdate at hx
    split_ifs at hx with h
    · rcases List.mem_cons.mp hx with h1 | h1
      · exact Or.inr ⟨e, List.mem_cons_self _ _, h1⟩
      · exact Or.inl (List.mem_cons_of_mem _ h1)
    · rcases List.mem_cons.mp hx with h1 | h1
      · exact Or.inl (h1 ▸ List.mem_cons_self _ _)
      · rcases ih h1 with h2 | ⟨y, hy, h2⟩
        · exact Or.inl (List.mem_cons_of_mem _ h2)
        · exact Or.inr ⟨y, List.mem_cons_of_mem _ hy, h2⟩

/-- The projectiles left by the sweep are projectiles of the start, moved by `update`. -/
theorem sweep_projectiles (sqrt : ℚ → ℚ) (deltaTime : ℚ) (clock : ℕ → ℚ)
    (l : List ServerProjectile) (st : LoopState) :
    ∀ x ∈ (sweep sqrt deltaTime clock l st).projectiles,
      x ∈ st.projectiles ∨ ∃ a ∈ l, x = (a.update deltaTime).1 := by
  apply sweep_induction sqrt deltaTime clock
    (fun st1 => ∀ x ∈ st1.projectiles, x ∈ st.projectiles ∨ ∃ a ∈ l, x = (a.update deltaTime).1)
  · exact fun x hx => Or.inl hx
  · intro c a ha st1 hst1 x hx
    rcases processOne_cases sqrt deltaTime c a st1 with ⟨-, h⟩ |
      ⟨-, before, e, after, -, -, -, h⟩ | ⟨-, -, h⟩
    · rw [h] at hx; exact hst1 x hx
    · rw [h] at hx; exact hst1 x hx
    · rw [h] at hx
      rcases List.mem_cons.mp hx with h1 | h1
      · exact Or.inr ⟨a, ha, h1⟩
      · exact hst1 x h1

/-- A property `P` of the players and a property `Q` of the projectiles that the
constructors establish and that every method called by the server keeps, hold for every
player and every projectile of the store after every run of the server. -/
theorem exec_induction (cos sin sqrt : ℚ → ℚ) (P : ServerPlayer → Prop)
    (Q : ServerProjectile → Prop)
    (hnew : ∀ (id : String) (type : PlayerType) (name : String) (rx ry : ℚ) (room : String),
      IsRandom rx → IsRandom ry → P { ServerPlayer.new id type name rx ry with room := room })
    (hinput : ∀ (p : ServerPlayer) (input : Input), P p → P { p with lastInput := input })
    (hupdate : ∀ (p : ServerPlayer) (input : Input) (deltaTime rx ry : ℚ),
      IsRandom rx → IsRandom ry → P p → P (p.update sqrt input deltaTime rx ry))
    (hdamage : ∀ (p : ServerPlayer) (a : ServerProjectile) (attackerId : String),
      Q a → P p → P (p.takeDamage a.damage attackerId).1)
    (hQnew : ∀ (randomId : String) (now : ℚ) (shooterId : String) (x y angle : ℚ)
      (type : PlayerType) (room : String),
      Q { ServerProjectile.new cos sin randomId now shooterId x y angle type with room := room })
    (hQupdate : ∀ (a : ServerProjectile) (deltaTime : ℚ), Q a → Q (a.update deltaTime).1)
    (events : List ServerEvent) (hev : ∀ ev ∈ events, ev.randomOk) :
    ∀ s : Server, (∀ e ∈ s.gameState.players, P e.2) → (∀ a ∈ s.gameState.projectiles, Q a) →
      (∀ e ∈ (s.exec cos sin sqrt events).gameState.players, P e.2) ∧
      (∀ a ∈ (s.exec cos sin sqrt events).gameState.projectiles, Q a) := by
  induction events with
  | nil => exact fun s hP hQ => ⟨hP, hQ⟩
  | cons ev events ih =>
    intro s hP hQ
    have hok := hev ev (List.mem_cons_self _ _)
    have hrest : ∀ ev2 ∈ events, ev2.randomOk :=
      fun ev2 h2 => hev ev2 (List.mem_cons_of_mem _ h2)
    unfold Server.exec
    rw [List.foldl_cons]
    suffices hstep : (∀ e ∈ (s.step cos sin sqrt ev).gameState.players, P e.2) ∧
        (∀ a ∈ (s.step cos sin sqrt ev).gameState.projectiles, Q a) from
      ih hrest _ hstep.1 hstep.2
    cases ev with
    | joinRoom c data rx ry randomName now =>
      simp only [Server.step]
      unfold joinRoom
      simp only
      split
      · exact ⟨hP, hQ⟩
      · refine ⟨?_, hQ⟩
        intro e he
        simp only at he
        rcases mem_or_eq_of_mem_mapSet _ _ _ _ he with h1 | h1
        · rw [h1]
          exact hnew _ _ _ _ _ _ hok.1 hok.2
        · exact hP e h1
    | playerInput c input =>
      simp only [Server.step, playerInput]
      refine ⟨?_, hQ⟩
      intro e he
      rcases mem_mapUpdate _ _ _ _ he with h1 | ⟨y, hy, h1⟩
      · exact hP e h1
      · rw [h1]
        exact hinput _ _ (hP y hy)
    | playerShoot c angle randomId now =>
      simp only [Server.step]
      unfold playerShoot
      split
      · exact ⟨hP, hQ⟩
      · split_ifs
        · exact ⟨hP, hQ⟩
        · refine ⟨hP, ?_⟩
          intro a ha
          simp only at ha
          rcases List.mem_append.mp ha with h1 | h1
          · exact hQ a h1
          · rw [List.mem_singleton] at h1
            rw [h1]
            exact hQnew _ _ _ _ _ _ _ _
    | disconnect c =>
      simp only [Server.step, disconnect]
      refine ⟨?_, hQ⟩
      intro e he
      exact hP e (List.mem_of_mem_filter he)
    | gameLoop now clock rnd =>
      simp only [Server.step, gameLoop_eq_sweep]
      constructor
      · apply sweep_induction sqrt _ clock (fun st => ∀ e ∈ st.players, P e.2)
        · intro e he
          unfold updatePlayers at he
          obtain ⟨e0, he0, rfl⟩ := List.mem_map.mp he
          exact hupdate _ _ _ _ _ (hok e0.1).1 (hok e0.1).2 (hP e0 he0)
        · intro c a ha st1 hst1
          exact processOne_players sqrt _ c a P
            (fun p att hp => hdamage p a att (hQ a ha) hp) st1 hst1
      · intro a ha
        rcases sweep_projectiles sqrt _ clock _ _ a ha with h1 | ⟨b, hb, h1⟩
        · cases h1
        · rw [h1]
          exact hQupdate b _ (hQ b hb)
    | sendGameState =>
      simp only [Server.step]
      unfold sendGameState
      split_ifs
      · exact ⟨hP, hQ⟩
      · exact ⟨hP, hQ⟩

/-! ## Position bounds and health range -/

theorem takeDamage_position (p : ServerPlayer) (damage : ℚ) (attackerId : String) :
    (p.takeDamage damage attackerId).1.x = p.x ∧ (p.takeDamage damage attackerId).1.y = p.y ∧
    (p.takeDamage damage attackerId).1.radius = p.radius := by
  cases hd : (p.takeDamage damage attackerId).2.died
  · rw [takeDamage_of_not_died p damage attackerId hd]
    exact ⟨rfl, rfl, rfl⟩
  · rw [takeDamage_of_died p damage attackerId hd]
    exact ⟨rfl, rfl, rfl⟩

/-- C1. Position bounds: a freshly constructed player is within the world bounds when the
random source returns values in `[0, 1)`; `respawn` puts the player within the bounds;
after `update` the player is within the bounds, in the living branch from any state and
in the dead branch (with or without respawn) from any state within the bounds; and so
every player of the store is within the bounds after every run of the server from its
initial state. The radius is the constant `PLAYER_RADIUS`, never changed. -/
theorem C1_position_bounds :
    (∀ (id : String) (type : PlayerType) (name : String) (rx ry : ℚ),
      IsRandom rx → IsRandom ry →
        InBounds (ServerPlayer.new id type name rx ry) ∧
        (ServerPlayer.new id type name rx ry).radius = PLAYER_RADIUS) ∧
    (∀ (p : ServerPlayer) (rx ry : ℚ), p.radius = PLAYER_RADIUS →
      IsRandom rx → IsRandom ry → InBounds (p.respawn rx ry)) ∧
    (∀ (sqrt : ℚ → ℚ) (p : ServerPlayer) (input : Input) (deltaTime rx ry : ℚ),
      p.radius = PLAYER_RADIUS → IsRandom rx → IsRandom ry →
      (p.alive = false → InBounds p) →
        InBounds (p.update sqrt input deltaTime rx ry) ∧
        (p.update sqrt input deltaTime rx ry).radius = PLAYER_RADIUS) ∧
    (∀ (cos sin sqrt : ℚ → ℚ) (now : ℚ) (events : List ServerEvent),
      (∀ ev ∈ events, ev.randomOk) →
      ∀ e ∈ ((Server.init now).exec cos sin sqrt events).gameState.players,
        InBounds e.2 ∧ e.2.radius = PLAYER_RADIUS) := by
  have hupd : ∀ (sqrt : ℚ → ℚ) (p : ServerPlayer) (input : Input) (deltaTime rx ry : ℚ),
      p.radius = PLAYER_RADIUS → IsRandom rx → IsRandom ry →
      (p.alive = false → InBounds p) →
        InBounds (p.update sqrt input deltaTime rx ry) ∧
        (p.update sqrt input deltaTime rx ry).radius = PLAYER_RADIUS := by
    intro sqrt p input deltaTime rx ry hr hx hy hb
    refine ⟨?_, (update_radius sqrt p input deltaTime rx ry).trans hr⟩
    cases ha : p.alive
    · exact update_dead_inBounds sqrt p input deltaTime rx ry hr ha hx hy (hb ha)
    · exact update_alive_inBounds sqrt p input deltaTime rx ry hr ha
  refine ⟨fun id type name rx ry hx hy => ⟨new_inBounds id type name rx ry hx hy, rfl⟩,
    fun p rx ry hr hx hy => respawn_inBounds p rx ry hr hx hy, hupd, ?_⟩
  intro cos sin sqrt now events hev
  refine (exec_induction cos sin sqrt (fun p => InBounds p ∧ p.radius = PLAYER_RADIUS)
    (fun _ => True) ?_ ?_ ?_ ?_ ?_ ?_ events hev (Server.init now) ?_ ?_).1
  · intro id type name rx ry room hx hy
    exact ⟨new_inBounds id type name rx ry hx hy, rfl⟩
  · intro p input hp
    exact hp
  · intro p input deltaTime rx ry hx hy hp
    exact hupd sqrt p input deltaTime rx ry hp.2 hx hy (fun _ => hp.1)
  · intro p a attackerId _ hp
    obtain ⟨h1, h2, h3⟩ := takeDamage_position p a.damage attackerId
    refine ⟨?_, h3.trans hp.2⟩
    unfold InBounds
    rw [h1, h2, h3]
    exact hp.1
  · intros; trivial
  · intros; trivial
  · intro e he
    cases he
  · intros; trivial

/-- A witness of C1: a new player that holds `z` and `d` for one tick of 16 ms. -/
theorem C1_position_bounds_witness :
    InBounds ((ServerPlayer.new "a" PlayerType.FEU "Mage" (1 / 2) (1 / 4)).update
      (fun _ => 5) ⟨⟨true, false, false, true⟩, 0, 0⟩ 16 0 0) :=
  (C1_position_bounds.2.2.1 (fun _ => 5)
    (ServerPlayer.new "a" PlayerType.FEU "Mage" (1 / 2) (1 / 4))
    ⟨⟨true, false, false, true⟩, 0, 0⟩ 16 0 0 rfl
    (by norm_num [IsRandom]) (by norm_num [IsRandom]) (fun h => by cases h)).1

/-- C3. Health range: a new player has `hp = maxHp = 100`; `0 ≤ hp ≤ maxHp` is kept by
`takeDamage` with a damage that is not negative (the damage of a constructed projectile
is positive), by `respawn`, by `update`, and for every player of the store by a whole
tick of `gameLoop`, which always returns; and so it holds for every player of the store
after every run of the server from its initial state. -/
theorem C3_health_range :
    (∀ (id : String) (type : PlayerType) (name : String) (rx ry : ℚ),
      (ServerPlayer.new id type name rx ry).hp = 100 ∧
      (ServerPlayer.new id type name rx ry).maxHp = 100) ∧
    (∀ (p : ServerPlayer) (damage : ℚ) (attackerId : String), 0 ≤ damage →
      HpInRange p → HpInRange (p.takeDamage damage attackerId).1) ∧
    (∀ (cos sin : ℚ → ℚ) (randomId : String) (now : ℚ) (shooterId : String)
      (x y angle : ℚ) (type : PlayerType),
      0 ≤ (ServerProjectile.new cos sin randomId now shooterId x y angle type).damage) ∧
    (∀ (p : ServerPlayer) (rx ry : ℚ), HpInRange p → HpInRange (p.respawn rx ry)) ∧
    (∀ (sqrt : ℚ → ℚ) (p : ServerPlayer) (input : Input) (deltaTime rx ry : ℚ),
      HpInRange p → HpInRange (p.update sqrt input deltaTime rx ry)) ∧
    (∀ (sqrt : ℚ → ℚ) (now : ℚ) (clock : ℕ → ℚ) (rnd : String → ℚ × ℚ) (gs : GameState),
      (∀ e ∈ gs.players, HpInRange e.2) → (∀ pr ∈ gs.projectiles, 0 ≤ pr.damage) →
      ∃ r, gameLoop sqrt now clock rnd gs = some r ∧ ∀ e ∈ r.1.players, HpInRange e.2) ∧
    (∀ (cos sin sqrt : ℚ → ℚ) (now : ℚ) (events : List ServerEvent),
      (∀ ev ∈ events, ev.randomOk) →
      ∀ e ∈ ((Server.init now).exec cos sin sqrt events).gameState.players,
        HpInRange e.2) := by
  refine ⟨fun _ _ _ _ _ => ⟨rfl, rfl⟩,
    fun p d a hd h => takeDamage_hpInRange p d a hd h,
    fun cos sin rid now sid x y angle type =>
      le_of_lt (new_projectile_damage_pos cos sin rid now sid x y angle type),
    fun p rx ry h => respawn_hpInRange p rx ry h,
    fun sqrt p input dt rx ry h => update_hpInRange sqrt p input dt rx ry h, ?_, ?_⟩
  · intro sqrt now clock rnd gs hpl hpr
    refine ⟨_, gameLoop_eq_sweep sqrt now clock rnd gs, ?_⟩
    simp only
    apply sweep_induction sqrt _ clock (fun st => ∀ e ∈ st.players, HpInRange e.2)
    · intro e he
      unfold updatePlayers at he
      obtain ⟨e0, he0, rfl⟩ := List.mem_map.mp he
      exact update_hpInRange sqrt _ _ _ _ _ (hpl e0 he0)
    · intro c a ha st1 hst1
      exact processOne_players sqrt _ c a HpInRange
        (fun p att hp => takeDamage_hpInRange p a.damage att (hpr a ha) hp) st1 hst1
  · intro cos sin sqrt now events hev
    refine (exec_induction cos sin sqrt HpInRange (fun a => 0 ≤ a.damage)
      ?_ ?_ ?_ ?_ ?_ ?_ events hev (Server.init now) ?_ ?_).1
    · intro id type name rx ry room _ _
      exact ⟨by norm_num [ServerPlayer.new], by norm_num [ServerPlayer.new]⟩
    · intro p input hp
      exact hp
    · intro p input deltaTime rx ry _ _ hp
      exact update_hpInRange sqrt p input deltaTime rx ry hp
    · intro p a attackerId ha hp
      exact takeDamage_hpInRange p a.damage attackerId ha hp
    · intro randomId now2 shooterId x y angle type room
      exact le_of_lt (new_projectile_damage_pos cos sin randomId now2 shooterId x y angle type)
    · intro a deltaTime ha
      rw [update_damage]
      exact ha
    · intro e he
      cases he
    · intro a ha
      cases ha

/-- A witness of C3: a hit of 12 on a new player. -/
theorem C3_health_range_witness :
    HpInRange ((ServerPlayer.new "a" PlayerType.EAU "Mage" 0 0).takeDamage 12 "b").1 :=
  C3_health_range.2.1 (ServerPlayer.new "a" PlayerType.EAU "Mage" 0 0) 12 "b"
    (by norm_num) (by norm_num [HpInRange, ServerPlayer.new])

/-! ## Room membership over every run of the server -/

theorem update_room (sqrt : ℚ → ℚ) (p : ServerPlayer) (input : Input)
    (deltaTime rx ry : ℚ) : (p.update sqrt input deltaTime rx ry).room = p.room := by
  cases ha : p.alive
  · rw [update_dead_eq sqrt p input deltaTime rx ry ha]
    split <;> rfl
  · rw [update_alive_eq sqrt p input deltaTime rx ry ha]

theorem takeDamage_room (p : ServerPlayer) (damage : ℚ) (attackerId : String) :
    (p.takeDamage damage attackerId).1.room = p.room := by
  cases hd : (p.takeDamage damage attackerId).2.died
  · rw [takeDamage_of_not_died p damage attackerId hd]
  · rw [takeDamage_of_died p damage attackerId hd]

/-- The sweep keeps the keys of the players and their `room` fields. -/
theorem sweep_keys_rooms (sqrt : ℚ → ℚ) (deltaTime : ℚ) (clock : ℕ → ℚ)
    (l : List ServerProjectile) (st : LoopState) :
    (sweep sqrt deltaTime clock l st).players.map (fun e => (e.1, e.2.room)) =
      st.players.map (fun e => (e.1, e.2.room)) := by
  apply sweep_induction sqrt deltaTime clock
    (fun st1 => st1.players.map (fun e => (e.1, e.2.room)) =
      st.players.map (fun e => (e.1, e.2.room)))
  · rfl
  · intro c a _ st1 hst1
    rcases processOne_cases sqrt deltaTime c a st1 with ⟨-, h⟩ |
      ⟨-, before, e, after, hpl, -, -, h⟩ | ⟨-, -, h⟩
    · rw [h]; exact hst1
    · rw [h, ← hst1, hpl]
      simp only [List.map_append, List.map_cons, resolveHit_fst, takeDamage_room]
    · rw [h]; exact hst1

theorem mapUpdate_keys_rooms (m : List (String × ServerPlayer)) (k : String)
    (f : ServerPlayer → ServerPlayer) (hf : ∀ p, (f p).room = p.room) :
    (mapUpdate m k f).map (fun e => (e.1, e.2.room)) = m.map (fun e => (e.1, e.2.room)) := by
  induction m with
  | nil => rfl
  | cons e m ih =>
    unfold mapUpdate
    split_ifs with h
    · simp [hf]
    · simp [ih]

/-- A state with the same rooms, the same `currentRoom` of every connection and the same
keys and `room` fields in the store as a consistent state is consistent. -/
theorem consistent_of_same (s t : Server) (hr : t.rooms = s.rooms)
    (hc : t.currentRoom = s.currentRoom)
    (hp : t.gameState.players.map (fun e => (e.1, e.2.room)) =
      s.gameState.players.map (fun e => (e.1, e.2.room)))
    (h : Consistent s) : Consistent t := by
  have hcur : ∀ id, t.currentRoomOf id = s.currentRoomOf id := by
    intro id
    unfold Server.currentRoomOf
    rw [hc]
  have hkeys : t.gameState.players.map Prod.fst = s.gameState.players.map Prod.fst := by
    have := congrArg (List.map Prod.fst) hp
    simpa [List.map_map, Function.comp] using this
  have hback : ∀ e ∈ t.gameState.players, ∃ e0 ∈ s.gameState.players,
      e0.1 = e.1 ∧ e0.2.room = e.2.room := by
    intro e he
    have h1 : (e.1, e.2.room) ∈ t.gameState.players.map (fun e => (e.1, e.2.room)) :=
      List.mem_map.mpr ⟨e, he, rfl⟩
    rw [hp] at h1
    obtain ⟨e0, he0, h2⟩ := List.mem_map.mp h1
    exact ⟨e0, he0, (Prod.mk.inj h2).1, (Prod.mk.inj h2).2⟩
  constructor
  · rw [hr]; exact h.roomKeys
  · rw [hkeys]; exact h.storeKeys
  · rw [hr]; exact h.members
  · rw [hr]; exact h.names
  · intro e he
    obtain ⟨e0, he0, h1, h2⟩ := hback e he
    obtain ⟨h3, h4⟩ := h.storeRoom e0 he0
    rw [hcur, hr, ← h1, ← h2]
    exact ⟨h3, h4⟩
  · rw [hr]
    intro e he id hid
    obtain ⟨h1, h2⟩ := h.roomStore e he id hid
    rw [hcur, hkeys]
    exact ⟨h1, h2⟩

theorem consistent_step (cos sin sqrt : ℚ → ℚ) (s : Server) (ev : ServerEvent)
    (h : Consistent s) : Consistent (s.step cos sin sqrt ev) := by
  cases ev with
  | joinRoom c data rx ry randomName now =>
    exact consistent_joinRoom s c data rx ry randomName now h
  | playerInput c input =>
    refine consistent_of_same s (s.step cos sin sqrt (ServerEvent.playerInput c input))
      rfl rfl ?_ h
    simp only [Server.step, playerInput]
    exact mapUpdate_keys_rooms _ _ _ (fun _ => rfl)
  | playerShoot c angle randomId now =>
    refine consistent_of_same s
      (s.step cos sin sqrt (ServerEvent.playerShoot c angle randomId now)) ?_ ?_ ?_ h
    · simp only [Server.step]
      unfold playerShoot
      split
      · rfl
      · split_ifs <;> rfl
    · simp only [Server.step]
      unfold playerShoot
      split
      · rfl
      · split_ifs <;> rfl
    · simp only [Server.step]
      unfold playerShoot
      split
      · rfl
      · split_ifs <;> rfl
  | disconnect c => exact consistent_disconnect s c h
  | gameLoop now clock rnd =>
    refine consistent_of_same s
      (s.step cos sin sqrt (ServerEvent.gameLoop now clock rnd)) ?_ ?_ ?_ h
    · simp only [Server.step, gameLoop_eq_sweep]
    · simp only [Server.step, gameLoop_eq_sweep]
    · simp only [Server.step, gameLoop_eq_sweep, sweep_keys_rooms]
      unfold updatePlayers
      rw [List.map_map]
      apply List.map_congr_left
      intro e _
      simp only [Function.comp, update_room]
  | sendGameState =>
    refine consistent_of_same s (s.step cos sin sqrt ServerEvent.sendGameState) ?_ ?_ ?_ h
    · simp only [Server.step]
      unfold sendGameState
      split_ifs <;> rfl
    · simp only [Server.step]
      unfold sendGameState
      split_ifs <;> rfl
    · simp only [Server.step]
      unfold sendGameState
      split_ifs <;> rfl

/-- Every state reached from the initial one, by any events, is consistent. -/
theorem consistent_exec (cos sin sqrt : ℚ → ℚ) (now : ℚ) (events : List ServerEvent) :
    Consistent ((Server.init now).exec cos sin sqrt events) := by
  unfold Server.exec
  have key : ∀ (s : Server), Consistent s →
      Consistent (events.foldl (Server.step cos sin sqrt) s) := by
    induction events with
    | nil => exact fun s hs => hs
    | cons ev events ih =>
      intro s hs
      rw [List.foldl_cons]
      exact ih _ (consistent_step cos sin sqrt s ev hs)
  exact key _ (consistent_init now)

/-- C4. Room membership consistency: in every state reached from the initial state (the
empty room `principal`, the empty store) by a finite sequence of `joinRoom` and
`disconnect` events of any connections, the member count of every room is the number of
players of the store whose `room` field names it, and every player of the store is a
member of the room named by its `room` field and of no other room. The same holds when
inputs, shots, ticks of `gameLoop` and broadcasts come between those events. -/
theorem C4_room_membership (now : ℚ) :
    (Server.init now).rooms = [("principal", GameRoom.new "principal" now)] ∧
    (Server.init now).gameState.players = [] ∧
    (∀ (events : List RoomEvent),
      (∀ e ∈ ((Server.init now).run events).rooms,
        e.2.getPlayerCount = ((Server.init now).run events).countInRoom e.1) ∧
      (∀ x ∈ ((Server.init now).run events).gameState.players,
        (∃ r, (x.2.room, r) ∈ ((Server.init now).run events).rooms ∧ x.1 ∈ r.players) ∧
        ∀ e ∈ ((Server.init now).run events).rooms, x.1 ∈ e.2.players → e.1 = x.2.room)) ∧
    (∀ (cos sin sqrt : ℚ → ℚ) (events : List ServerEvent),
      (∀ e ∈ ((Server.init now).exec cos sin sqrt events).rooms,
        e.2.getPlayerCount = ((Server.init now).exec cos sin sqrt events).countInRoom e.1) ∧
      (∀ x ∈ ((Server.init now).exec cos sin sqrt events).gameState.players,
        (∃ r, (x.2.room, r) ∈ ((Server.init now).exec cos sin sqrt events).rooms ∧
          x.1 ∈ r.players) ∧
        ∀ e ∈ ((Server.init now).exec cos sin sqrt events).rooms,
          x.1 ∈ e.2.players → e.1 = x.2.room)) := by
  have main : ∀ s : Server, Consistent s →
      (∀ e ∈ s.rooms, e.2.getPlayerCount = s.countInRoom e.1) ∧
      (∀ x ∈ s.gameState.players,
        (∃ r, (x.2.room, r) ∈ s.rooms ∧ x.1 ∈ r.players) ∧
        ∀ e ∈ s.rooms, x.1 ∈ e.2.players → e.1 = x.2.room) := by
    intro s h
    refine ⟨fun e he => count_eq_of_consistent s h e he, ?_⟩
    intro x hx
    obtain ⟨hroom, hex⟩ := h.storeRoom x hx
    refine ⟨hex, ?_⟩
    intro e he hmem
    rw [hroom]
    exact ((h.roomStore e he x.1 hmem).1).symm
  exact ⟨rfl, rfl, fun events => main _ (consistent_run now events),
    fun cos sin sqrt events => main _ (consistent_exec cos sin sqrt now events)⟩

/-! ## Fire -/

theorem playerShoot_of_none (cos sin : ℚ → ℚ) (s : Server) (socketId : String) (angle : ℚ)
    (randomId : String) (now : ℚ) (h : mapGet s.gameState.players socketId = none) :
    playerShoot cos sin s socketId angle randomId now = (s, []) := by
  unfold playerShoot
  rw [h]

theorem playerShoot_of_dead (cos sin : ℚ → ℚ) (s : Server) (socketId : String) (angle : ℚ)
    (randomId : String) (now : ℚ) (player : ServerPlayer)
    (h : mapGet s.gameState.players socketId = some player) (ha : player.alive = false) :
    playerShoot cos sin s socketId angle randomId now = (s, []) := by
  unfold playerShoot
  rw [h]
  simp only [ha, if_true]

theorem playerShoot_of_alive (cos sin : ℚ → ℚ) (s : Server) (socketId : String) (angle : ℚ)
    (randomId : String) (now : ℚ) (player : ServerPlayer)
    (h : mapGet s.gameState.players socketId = some player) (ha : player.alive = true) :
    playerShoot cos sin s socketId angle randomId now =
      ({ s with gameState := { s.gameState with
            projectiles := s.gameState.projectiles ++
              [{ ServerProjectile.new cos sin randomId now socketId player.x player.y angle
                  player.type with room := s.currentRoomOf socketId }]
            shouldSendUpdate := true } },
       [Event.shootEffect (s.currentRoomOf socketId) socketId player.x player.y angle
          player.type]) := by
  have hne : ¬ (player.alive = false) := by rw [ha]; decide
  unfold playerShoot
  rw [h]
  dsimp only
  rw [if_neg hne]

theorem mapGet_eq_none_iff {β : Type} (m : List (String × β)) (k : String) :
    mapGet m k = none ↔ k ∉ m.map Prod.fst := by
  constructor
  · intro h hk
    obtain ⟨v, hv⟩ := mapGet_isSome_of_key m k hk
    rw [h] at hv
    cases hv
  · intro h
    cases hg : mapGet m k with
    | none => rfl
    | some v =>
      exact absurd (List.mem_map.mpr ⟨(k, v), mem_of_mapGet_eq_some m k v hg, rfl⟩) h

/-- C11. Fire: a `playerShoot` of a connection with no player in the store, or whose
player is not alive, leaves the whole state (players, projectiles, dirty flag) as it is
and emits nothing; with a living player it appends exactly one projectile to
`gameState.projectiles`, at the position of the player, with `shooterId` the connection
id, the type of the player and the room `currentRoom` of the connection, sets the dirty
flag and changes nothing else; and in every state reached by a run of the server that
room is the `room` field of the player. -/
theorem C11_fire :
    (∀ (cos sin : ℚ → ℚ) (s : Server) (socketId : String) (angle : ℚ) (randomId : String)
      (now : ℚ),
      (mapGet s.gameState.players socketId = none ↔
        socketId ∉ s.gameState.players.map Prod.fst) ∧
      (mapGet s.gameState.players socketId = none →
        playerShoot cos sin s socketId angle randomId now = (s, []))) ∧
    (∀ (cos sin : ℚ → ℚ) (s : Server) (socketId : String) (angle : ℚ) (randomId : String)
      (now : ℚ) (player : ServerPlayer),
      mapGet s.gameState.players socketId = some player → player.alive = false →
      playerShoot cos sin s socketId angle randomId now = (s, [])) ∧
    (∀ (cos sin : ℚ → ℚ) (s : Server) (socketId : String) (angle : ℚ) (randomId : String)
      (now : ℚ) (player : ServerPlayer),
      mapGet s.gameState.players socketId = some player → player.alive = true →
      ∃ projectile : ServerProjectile,
        (playerShoot cos sin s socketId angle randomId now).1 =
          { s with gameState := { s.gameState with
              projectiles := s.gameState.projectiles ++ [projectile]
              shouldSendUpdate := true } } ∧
        projectile.x = player.x ∧ projectile.y = player.y ∧
        projectile.shooterId = socketId ∧ projectile.type = player.type ∧
        projectile.room = s.currentRoomOf socketId ∧
        (playerShoot cos sin s socketId angle randomId now).2 =
          [Event.shootEffect (s.currentRoomOf socketId) socketId player.x player.y angle
            player.type]) ∧
    (∀ (cos sin sqrt : ℚ → ℚ) (now : ℚ) (events : List ServerEvent) (socketId : String)
      (player : ServerPlayer),
      mapGet ((Server.init now).exec cos sin sqrt events).gameState.players socketId =
        some player →
      ((Server.init now).exec cos sin sqrt events).currentRoomOf socketId = player.room) := by
  refine ⟨?_, ?_, ?_, ?_⟩
  · intro cos sin s socketId angle randomId now
    exact ⟨mapGet_eq_none_iff _ _, playerShoot_of_none cos sin s socketId angle randomId now⟩
  · intro cos sin s socketId angle randomId now player h ha
    exact playerShoot_of_dead cos sin s socketId angle randomId now player h ha
  · intro cos sin s socketId angle randomId now player h ha
    rw [playerShoot_of_alive cos sin s socketId angle randomId now player h ha]
    exact ⟨_, rfl, rfl, rfl, rfl, rfl, rfl, rfl⟩
  · intro cos sin sqrt now events socketId player h
    have hc := consistent_exec cos sin sqrt now events
    have hmem := mem_of_mapGet_eq_some _ _ _ h
    exact ((hc.storeRoom _ hmem).1).symm

/-- A witness of C11: the living player `"a"` of the sample server fires. -/
theorem C11_fire_witness :
    ∃ projectile : ServerProjectile,
      (playerShoot (fun _ => 1) (fun _ => 0) sampleServer "a" 0 "p1" 5).1 =
        { sampleServer with gameState := { sampleServer.gameState with
            projectiles := sampleServer.gameState.projectiles ++ [projectile]
            shouldSendUpdate := true } } ∧
      projectile.x = sampleShooter.x ∧ projectile.y = sampleShooter.y ∧
      projectile.shooterId = "a" ∧ projectile.type = sampleShooter.type ∧
      projectile.room = sampleServer.currentRoomOf "a" ∧
      (playerShoot (fun _ => 1) (fun _ => 0) sampleServer "a" 0 "p1" 5).2 =
        [Event.shootEffect (sampleServer.currentRoomOf "a") "a" sampleShooter.x
          sampleShooter.y 0 sampleShooter.type] :=
  C11_fire.2.2.1 (fun _ => 1) (fun _ => 0) sampleServer "a" 0 "p1" 5 sampleShooter
    (by simp [mapGet, sampleServer]) rfl

/-! ## Disconnect -/

theorem removePlayer_of_not_mem (r : GameRoom) (c : String) (h : c ∉ r.players) :
    r.removePlayer c = r := by
  unfold GameRoom.removePlayer
  have : r.players.filter (fun k => k != c) = r.players := by
    rw [List.filter_eq_self]
    intro k hk
    simp only [bne_iff_ne, ne_eq]
    intro hkc
    exact h (hkc ▸ hk)
  rw [this]

theorem mapDelete_of_absent {β : Type} (m : List (String × β)) (k : String)
    (h : k ∉ m.map Prod.fst) : mapDelete m k = m := by
  unfold mapDelete
  rw [List.filter_eq_self]
  intro e he
  simp only [bne_iff_ne, ne_eq]
  intro hek
  exact h (List.mem_map.mpr ⟨e, he, hek⟩)

theorem not_mem_keys_mapDelete {β : Type} (m : List (String × β)) (k : String) :
    k ∉ (mapDelete m k).map Prod.fst := by
  unfold mapDelete
  intro h
  obtain ⟨e, he, hek⟩ := List.mem_map.mp h
  have := (List.mem_filter.mp he).2
  simp only [bne_iff_ne, ne_eq] at this
  exact this hek

/-- In a consistent state, `disconnect` of a connection that has no player in the store
changes neither the rooms nor the store. -/
theorem disconnect_of_absent (s : Server) (c : String) (h : Consistent s)
    (hc : c ∉ s.gameState.players.map Prod.fst) :
    (disconnect s c).1.rooms = s.rooms ∧
    (disconnect s c).1.gameState.players = s.gameState.players := by
  constructor
  · rw [disconnect_rooms, leave_rooms_eq _ _ _ h.roomKeys]
    conv_rhs => rw [← List.map_id s.rooms]
    apply List.map_congr_left
    intro e he
    split_ifs with hk
    · have hnot : c ∉ e.2.players := fun hmem => hc (h.roomStore e he c hmem).2
      rw [removePlayer_of_not_mem e.2 c hnot]
      rfl
    · rfl
  · exact mapDelete_of_absent _ _ hc

theorem mapSet_keys_subset {β : Type} (m : List (String × β)) (k : String) (v : β)
    (x : String) (hx : x ∈ (mapSet m k v).map Prod.fst) : x = k ∨ x ∈ m.map Prod.fst := by
  obtain ⟨e, he, rfl⟩ := List.mem_map.mp hx
  rcases mem_or_eq_of_mem_mapSet m k v e he with h1 | h1
  · left; rw [h1]
  · right; exact List.mem_map.mpr ⟨e, h1, rfl⟩

theorem keys_of_keys_rooms (m n : List (String × ServerPlayer))
    (h : m.map (fun e => (e.1, e.2.room)) = n.map (fun e => (e.1, e.2.room))) :
    m.map Prod.fst = n.map Prod.fst := by
  have := congrArg (List.map Prod.fst) h
  simpa [List.map_map, Function.comp] using this

/-- The keys of the store after one event: those before it, and the connection of the
event when it is a `joinRoom`. -/
theorem step_keys (cos sin sqrt : ℚ → ℚ) (s : Server) (ev : ServerEvent) (c : String)
    (hev : ev.isJoinOf c = false)
    (hc : c ∈ (s.step cos sin sqrt ev).gameState.players.map Prod.fst) :
    c ∈ s.gameState.players.map Prod.fst := by
  cases ev with
  | joinRoom c2 data rx ry randomName now =>
    simp only [ServerEvent.isJoinOf, beq_eq_false_iff_ne, ne_eq] at hev
    simp only [Server.step] at hc
    unfold joinRoom at hc
    simp only at hc
    split at hc
    · exact hc
    · simp only at hc
      rcases mapSet_keys_subset _ _ _ _ hc with h1 | h1
      · exact absurd h1.symm hev
      · exact h1
  | playerInput c2 input =>
    simp only [Server.step, playerInput, mapUpdate_keys] at hc
    exact hc
  | playerShoot c2 angle randomId now =>
    simp only [Server.step] at hc
    unfold playerShoot at hc
    split at hc
    · exact hc
    · split_ifs at hc
      · exact hc
      · exact hc
  | disconnect c2 =>
    simp only [Server.step, disconnect, mapDelete] at hc
    obtain ⟨e, he, hek⟩ := List.mem_map.mp hc
    exact List.mem_map.mpr ⟨e, List.mem_of_mem_filter he, hek⟩
  | gameLoop now clock rnd =>
    simp only [Server.step, gameLoop_eq_sweep] at hc
    rw [keys_of_keys_rooms _ _ (sweep_keys_rooms sqrt _ clock _ _), updatePlayers_keys] at hc
    exact hc
  | sendGameState =>
    simp only [Server.step] at hc
    unfold sendGameState at hc
    split_ifs at hc
    · exact hc
    · exact hc

/-- A connection that never joined has no player in the store. -/
theorem exec_never_joined (cos sin sqrt : ℚ → ℚ) (c : String) (events : List ServerEvent)
    (hev : ∀ ev ∈ events, ev.isJoinOf c = false) :
    ∀ s : Server, c ∉ s.gameState.players.map Prod.fst →
      c ∉ (s.exec cos sin sqrt events).gameState.players.map Prod.fst := by
  induction events with
  | nil => exact fun s hs => hs
  | cons ev events ih =>
    intro s hs
    unfold Server.exec
    rw [List.foldl_cons]
    apply ih (fun ev2 h2 => hev ev2 (List.mem_cons_of_mem _ h2))
    exact fun hc => hs (step_keys cos sin sqrt s ev c (hev ev (List.mem_cons_self _ _)) hc)

/-- C12. Disconnect is idempotent: in every state reached by a run of the server and
for every connection, the handler of `disconnect` applied twice gives the same store of
players and the same rooms (names and member lists) as applied once; applied for a
connection that has no player in the store, as one that never joined or whose player was
already removed by `disconnect`, it leaves the store and every room as they are. -/
theorem C12_disconnect_idempotent (cos sin sqrt : ℚ → ℚ) (now : ℚ)
    (events : List ServerEvent) (c : String) :
    ((disconnect (disconnect ((Server.init now).exec cos sin sqrt events) c).1 c).1.rooms =
        (disconnect ((Server.init now).exec cos sin sqrt events) c).1.rooms ∧
      (disconnect (disconnect ((Server.init now).exec cos sin sqrt events) c).1 c
          ).1.gameState.players =
        (disconnect ((Server.init now).exec cos sin sqrt events) c).1.gameState.players) ∧
    (c ∉ ((Server.init now).exec cos sin sqrt events).gameState.players.map Prod.fst →
      (disconnect ((Server.init now).exec cos sin sqrt events) c).1.rooms =
        ((Server.init now).exec cos sin sqrt events).rooms ∧
      (disconnect ((Server.init now).exec cos sin sqrt events) c).1.gameState.players =
        ((Server.init now).exec cos sin sqrt events).gameState.players) ∧
    ((∀ ev ∈ events, ev.isJoinOf c = false) →
      c ∉ ((Server.init now).exec cos sin sqrt events).gameState.players.map Prod.fst) ∧
    c ∉ (disconnect ((Server.init now).exec cos sin sqrt events) c
      ).1.gameState.players.map Prod.fst := by
  have h := consistent_exec cos sin sqrt now events
  have h1 := consistent_disconnect _ c h
  have hgone : c ∉ (disconnect ((Server.init now).exec cos sin sqrt events) c
      ).1.gameState.players.map Prod.fst := not_mem_keys_mapDelete _ _
  refine ⟨disconnect_of_absent _ c h1 hgone, fun hc => disconnect_of_absent _ c h hc, ?_,
    hgone⟩
  intro hev
  apply exec_never_joined cos sin sqrt c events hev
  simp [Server.init]

/-- A witness of C12: after the join of `"a"`, the disconnect of the connection `"zz"`,
which never joined, changes neither the rooms nor the store. -/
theorem C12_disconnect_idempotent_witness :
    (disconnect ((Server.init 0).exec (fun _ => 1) (fun _ => 0) (fun _ => 0)
        [ServerEvent.joinRoom "a" ⟨"", PlayerType.FEU, "Ann"⟩ (1 / 2) (1 / 2) "Mage_x" 1])
        "zz").1.rooms =
      ((Server.init 0).exec (fun _ => 1) (fun _ => 0) (fun _ => 0)
        [ServerEvent.joinRoom "a" ⟨"", PlayerType.FEU, "Ann"⟩ (1 / 2) (1 / 2) "Mage_x" 1]).rooms ∧
    (disconnect ((Server.init 0).exec (fun _ => 1) (fun _ => 0) (fun _ => 0)
        [ServerEvent.joinRoom "a" ⟨"", PlayerType.FEU, "Ann"⟩ (1 / 2) (1 / 2) "Mage_x" 1])
        "zz").1.gameState.players =
      ((Server.init 0).exec (fun _ => 1) (fun _ => 0) (fun _ => 0)
        [ServerEvent.joinRoom "a" ⟨"", PlayerType.FEU, "Ann"⟩ (1 / 2) (1 / 2) "Mage_x" 1]
        ).gameState.players :=
  (C12_disconnect_idempotent (fun _ => 1) (fun _ => 0) (fun _ => 0) 0
    [ServerEvent.joinRoom "a" ⟨"", PlayerType.FEU, "Ann"⟩ (1 / 2) (1 / 2) "Mage_x" 1] "zz").2.1
    ((C12_disconnect_idempotent (fun _ => 1) (fun _ => 0) (fun _ => 0) 0
      [ServerEvent.joinRoom "a" ⟨"", PlayerType.FEU, "Ann"⟩ (1 / 2) (1 / 2) "Mage_x" 1]
      "zz").2.2.1 (by
        intro ev hev
        rw [List.mem_singleton] at hev
        rw [hev]
        decide))

/-! ## Snapshots -/

theorem sendGameState_of_clean (s : Server) (h : s.gameState.shouldSendUpdate = false) :
    sendGameState s = (s, []) := by
  unfold sendGameState
  rw [if_pos h]

theorem sendGameState_of_dirty (s : Server) (h : s.gameState.shouldSendUpdate = true) :
    sendGameState s =
      ({ s with gameState := { s.gameState with shouldSendUpdate := false } },
       (s.rooms.filter (fun e => decide (e.2.getPlayerCount > 0))).map (fun e =>
         Event.gameState e.1 (e.2.getPlayersData s.gameState.players)
           ((s.gameState.projectiles.filter (fun p => p.room == e.1)).map
             ServerProjectile.toClientData))) := by
  have hne : ¬ (s.gameState.shouldSendUpdate = false) := by rw [h]; decide
  unfold sendGameState
  rw [if_neg hne]
  congr 1
  induction s.rooms with
  | nil => rfl
  | cons e rooms ih =>
    by_cases hc : e.2.getPlayerCount > 0
    · simp only [List.filterMap_cons, if_pos hc, List.filter_cons, decide_eq_true hc,
        if_true, List.map_cons, ih]
    · simp only [List.filterMap_cons, if_neg hc, List.filter_cons, decide_eq_false hc,
        Bool.false_eq_true, if_false, ih]

/-- The players of the message for a room of a consistent state: the projection of the
player stored under each member key, in the order of the members, each with the name of
the room as its `room`. -/
theorem getPlayersData_of_consistent (s : Server) (h : Consistent s)
    (e : String × GameRoom) (he : e ∈ s.rooms) :
    List.Forall₂ (fun k d => ∃ p, mapGet s.gameState.players k = some p ∧
        d = p.toClientData ∧ p.room = e.1 ∧ d.room = e.1)
      e.2.players (e.2.getPlayersData s.gameState.players) := by
  have hall : ∀ k ∈ e.2.players, ∃ p, mapGet s.gameState.players k = some p ∧
      p.room = e.1 := by
    intro k hk
    obtain ⟨hcur, hkey⟩ := h.roomStore e he k hk
    obtain ⟨p, hp⟩ := mapGet_isSome_of_key _ _ hkey
    refine ⟨p, hp, ?_⟩
    have := (h.storeRoom (k, p) (mem_of_mapGet_eq_some _ _ _ hp)).1
    exact this.trans hcur
  unfold GameRoom.getPlayersData
  generalize e.2.players = l at hall
  induction l with
  | nil => exact List.Forall₂.nil
  | cons k l ih =>
    obtain ⟨p, hp, hroom⟩ := hall k (List.mem_cons_self _ _)
    rw [List.filterMap_cons, hp]
    simp only [Option.map_some']
    exact List.Forall₂.cons ⟨p, hp, rfl, hroom, hroom⟩
      (ih (fun k2 hk2 => hall k2 (List.mem_cons_of_mem _ hk2)))

/-- C13. Snapshot room scoping: with the dirty flag not set `sendGameState` emits nothing
and changes nothing; with the flag set it clears the flag and emits, in the order of the
rooms, one `gameState` message to each room with at least one member and none for an
empty room. In every state reached by a run of the server a room name occurs once, and the
message for a room holds, member by member, the projection of the player stored under
the key of the member, whose `room` is that room, and the projections of exactly the
projectiles of the store whose `room` field is that room. -/
theorem C13_snapshot_scoping :
    (∀ s : Server, s.gameState.shouldSendUpdate = false → sendGameState s = (s, [])) ∧
    (∀ s : Server, s.gameState.shouldSendUpdate = true →
      sendGameState s =
        ({ s with gameState := { s.gameState with shouldSendUpdate := false } },
         (s.rooms.filter (fun e => decide (e.2.getPlayerCount > 0))).map (fun e =>
           Event.gameState e.1 (e.2.getPlayersData s.gameState.players)
             ((s.gameState.projectiles.filter (fun p => p.room == e.1)).map
               ServerProjectile.toClientData)))) ∧
    (∀ (cos sin sqrt : ℚ → ℚ) (now : ℚ) (events : List ServerEvent),
      (((Server.init now).exec cos sin sqrt events).rooms.map Prod.fst).Nodup ∧
      ∀ e ∈ ((Server.init now).exec cos sin sqrt events).rooms,
        List.Forall₂ (fun k d => ∃ p,
            mapGet ((Server.init now).exec cos sin sqrt events).gameState.players k = some p ∧
            d = p.toClientData ∧ p.room = e.1 ∧ d.room = e.1)
          e.2.players
          (e.2.getPlayersData ((Server.init now).exec cos sin sqrt events).gameState.players) ∧
        (e.2.getPlayersData ((Server.init now).exec cos sin sqrt events).gameState.players
          ).length = e.2.getPlayerCount) ∧
    (∀ (projectiles : List ServerProjectile) (r : String),
      (∀ d ∈ (projectiles.filter (fun p => p.room == r)).map ServerProjectile.toClientData,
        d.room = r) ∧
      (∀ p ∈ projectiles, p.room = r →
        p.toClientData ∈
          (projectiles.filter (fun p => p.room == r)).map ServerProjectile.toClientData) ∧
      (∀ d ∈ (projectiles.filter (fun p => p.room == r)).map ServerProjectile.toClientData,
        ∃ p ∈ projectiles, p.room = r ∧ d = p.toClientData)) := by
  refine ⟨sendGameState_of_clean, sendGameState_of_dirty, ?_, ?_⟩
  · intro cos sin sqrt now events
    have h := consistent_exec cos sin sqrt now events
    refine ⟨h.roomKeys, ?_⟩
    intro e he
    have hf := getPlayersData_of_consistent _ h e he
    exact ⟨hf, hf.length_eq.symm⟩
  · intro projectiles r
    refine ⟨?_, ?_, ?_⟩
    · intro d hd
      obtain ⟨p, hp, rfl⟩ := List.mem_map.mp hd
      have := (List.mem_filter.mp hp).2
      rw [beq_iff_eq] at this
      exact this
    · intro p hp hr
      exact List.mem_map.mpr ⟨p, List.mem_filter.mpr ⟨hp, by rw [beq_iff_eq]; exact hr⟩, rfl⟩
    · intro d hd
      obtain ⟨p, hp, rfl⟩ := List.mem_map.mp hd
      obtain ⟨h1, h2⟩ := List.mem_filter.mp hp
      rw [beq_iff_eq] at h2
      exact ⟨p, h1, h2, rfl⟩

/-- A witness of C13: the sample server with the dirty flag set. -/
theorem C13_snapshot_scoping_witness :
    sendGameState sampleDirtyServer =
      ({ sampleDirtyServer with
          gameState := { sampleDirtyServer.gameState with shouldSendUpdate := false } },
       (sampleDirtyServer.rooms.filter (fun e => decide (e.2.getPlayerCount > 0))).map
         (fun e =>
           Event.gameState e.1 (e.2.getPlayersData sampleDirtyServer.gameState.players)
             ((sampleDirtyServer.gameState.projectiles.filter (fun p => p.room == e.1)).map
               ServerProjectile.toClientData))) :=
  C13_snapshot_scoping.2.1 sampleDirtyServer rfl

/-! ## Movement integration against its reference -/

theorem accel_eq_reference (p : ServerPlayer) (input : Input) :
    p.accel input = referenceAccel p input := by
  obtain ⟨⟨z, s, q, d⟩, mx, my⟩ := input
  unfold ServerPlayer.accel referenceAccel keyAxis
  cases z <;> cases s <;> cases q <;> cases d <;>
    simp only [if_true, if_false, Bool.false_eq_true] <;>
    refine Prod.ext ?_ ?_ <;> simp only <;> ring

theorem damped_eq_reference (p : ServerPlayer) (input : Input) (deltaTime : ℚ) :
    p.damped input deltaTime = referenceDamped p input deltaTime := by
  unfold ServerPlayer.damped referenceDamped
  rw [accel_eq_reference]
  refine Prod.ext ?_ ?_ <;> simp only <;> ring

theorem newVel_eq_reference (sqrt : ℚ → ℚ) (p : ServerPlayer) (input : Input)
    (deltaTime : ℚ) :
    p.newVel sqrt input deltaTime = referenceVelocity sqrt p input deltaTime := by
  unfold ServerPlayer.newVel referenceVelocity magnitude ServerPlayer.dampedSq
  rw [damped_eq_reference]
  by_cases h : sqrt ((referenceDamped p input deltaTime).1 * (referenceDamped p input deltaTime).1 +
      (referenceDamped p input deltaTime).2 * (referenceDamped p input deltaTime).2) >
      MAX_VELOCITY
  · rw [if_pos h, if_neg (not_le.mpr h)]
  · rw [if_neg h, if_pos (not_lt.mp h)]

theorem max_min_eq_clamp (lo hi x : ℚ) (h : lo ≤ hi) : max lo (min hi x) = clamp lo hi x := by
  unfold clamp
  split_ifs with h1 h2
  · exact max_eq_left (le_trans (min_le_right _ _) (le_of_lt h1))
  · rw [min_eq_left (le_of_lt h2)]
    exact max_eq_right h
  · rw [min_eq_right (not_lt.mp h2)]
    exact max_eq_right (not_lt.mp h1)

theorem clamp_mem (lo hi x : ℚ) (h : lo ≤ hi) : lo ≤ clamp lo hi x ∧ clamp lo hi x ≤ hi := by
  unfold clamp
  split_ifs with h1 h2
  · exact ⟨le_refl _, h⟩
  · exact ⟨h, le_refl _⟩
  · exact ⟨not_lt.mp h1, not_lt.mp h2⟩

/-- C14. Movement integration: for a living player whose radius leaves room in the world
(`radius ≤ WORLD_SIZE - radius`, as `PLAYER_RADIUS = 20` does), `update` is the reference:
acceleration `PLAYER_SPEED * speedModifier * (d - q, s - z)` from the four key booleans
(opposite keys cancel, two perpendicular keys give a diagonal), velocity
`w = FRICTION * (v + a * deltaTime)` when `|w| ≤ MAX_VELOCITY` and `w * (MAX_VELOCITY / |w|)`
otherwise, position the old one plus the new velocity (no factor `deltaTime`), clamped per
axis to `[radius, WORLD_SIZE - radius]`; `|w|` is the value `Math.sqrt` gives for
`w.x² + w.y²`. When that value is the square root and exceeds `MAX_VELOCITY`, the new
velocity is `w` times a positive factor and has squared magnitude `MAX_VELOCITY²`. -/
theorem C14_movement_reference :
    (∀ (sqrt : ℚ → ℚ) (p : ServerPlayer) (input : Input) (deltaTime rx ry : ℚ),
      p.alive = true → p.radius ≤ WORLD_SIZE - p.radius →
      p.update sqrt input deltaTime rx ry = referenceUpdate sqrt p input deltaTime) ∧
    PLAYER_RADIUS ≤ WORLD_SIZE - PLAYER_RADIUS ∧
    (∀ b : Bool, keyAxis b b = 0) ∧
    keyAxis true false = 1 ∧ keyAxis false true = -1 ∧
    (∀ (p : ServerPlayer) (mx my : ℚ),
      referenceAccel p ⟨⟨false, true, false, true⟩, mx, my⟩ =
        (PLAYER_SPEED * p.typeProps.speedModifier, PLAYER_SPEED * p.typeProps.speedModifier)) ∧
    (∀ (sqrt : ℚ → ℚ) (p : ServerPlayer) (input : Input) (deltaTime : ℚ),
      IsSqrtAt sqrt ((referenceDamped p input deltaTime).1 * (referenceDamped p input deltaTime).1 +
        (referenceDamped p input deltaTime).2 * (referenceDamped p input deltaTime).2) →
      MAX_VELOCITY < magnitude sqrt (referenceDamped p input deltaTime) →
      0 < MAX_VELOCITY / magnitude sqrt (referenceDamped p input deltaTime) ∧
      referenceVelocity sqrt p input deltaTime =
        ((referenceDamped p input deltaTime).1 *
            (MAX_VELOCITY / magnitude sqrt (referenceDamped p input deltaTime)),
         (referenceDamped p input deltaTime).2 *
            (MAX_VELOCITY / magnitude sqrt (referenceDamped p input deltaTime))) ∧
      (referenceVelocity sqrt p input deltaTime).1 * (referenceVelocity sqrt p input deltaTime).1 +
        (referenceVelocity sqrt p input deltaTime).2 *
          (referenceVelocity sqrt p input deltaTime).2 = MAX_VELOCITY * MAX_VELOCITY) := by
  refine ⟨?_, by norm_num [PLAYER_RADIUS, WORLD_SIZE], ?_, by norm_num [keyAxis],
    by norm_num [keyAxis], ?_, ?_⟩
  · intro sqrt p input deltaTime rx ry ha hr
    rw [update_alive_eq sqrt p input deltaTime rx ry ha]
    unfold referenceUpdate
    rw [newVel_eq_reference, max_min_eq_clamp _ _ _ hr, max_min_eq_clamp _ _ _ hr]
  · intro b
    cases b <;> norm_num [keyAxis]
  · intro p mx my
    unfold referenceAccel
    norm_num [keyAxis]
  · intro sqrt p input deltaTime hs hgt
    obtain ⟨h0, hsq⟩ := hs
    have hpos : 0 < magnitude sqrt (referenceDamped p input deltaTime) :=
      lt_trans (by norm_num [MAX_VELOCITY]) hgt
    have hne : magnitude sqrt (referenceDamped p input deltaTime) ≠ 0 := ne_of_gt hpos
    have hv : referenceVelocity sqrt p input deltaTime =
        ((referenceDamped p input deltaTime).1 *
            (MAX_VELOCITY / magnitude sqrt (referenceDamped p input deltaTime)),
         (referenceDamped p input deltaTime).2 *
            (MAX_VELOCITY / magnitude sqrt (referenceDamped p input deltaTime))) := by
      unfold referenceVelocity
      rw [if_neg (not_le.mpr hgt)]
    refine ⟨div_pos (by norm_num [MAX_VELOCITY]) hpos, hv, ?_⟩
    rw [hv]
    simp only
    have hm : magnitude sqrt (referenceDamped p input deltaTime) *
        magnitude sqrt (referenceDamped p input deltaTime) =
        (referenceDamped p input deltaTime).1 * (referenceDamped p input deltaTime).1 +
        (referenceDamped p input deltaTime).2 * (referenceDamped p input deltaTime).2 := hsq
    field_simp
    rw [hm]
    ring

/-- A witness of C14: a new player that holds `d` for 100 ms; `w = (27, 0)`, `|w| = 27`. -/
theorem C14_movement_reference_witness :
    (ServerPlayer.new "a" PlayerType.FEU "Mage" (1 / 2) (1 / 4)).update (fun _ => 27)
        ⟨⟨false, false, false, true⟩, 0, 0⟩ 100 0 0 =
      referenceUpdate (fun _ => 27) (ServerPlayer.new "a" PlayerType.FEU "Mage" (1 / 2) (1 / 4))
        ⟨⟨false, false, false, true⟩, 0, 0⟩ 100 :=
  C14_movement_reference.1 (fun _ => 27)
    (ServerPlayer.new "a" PlayerType.FEU "Mage" (1 / 2) (1 / 4))
    ⟨⟨false, false, false, true⟩, 0, 0⟩ 100 0 0 rfl
    (by norm_num [ServerPlayer.new, PLAYER_RADIUS, WORLD_SIZE])

/-! ## Alive implies positive health -/

/-- As `exec_induction`, for properties that hold whatever the random values are. -/
theorem exec_induction_any (cos sin sqrt : ℚ → ℚ) (P : ServerPlayer → Prop)
    (hnew : ∀ (id : String) (type : PlayerType) (name : String) (rx ry : ℚ) (room : String),
      P { ServerPlayer.new id type name rx ry with room := room })
    (hinput : ∀ (p : ServerPlayer) (input : Input), P p → P { p with lastInput := input })
    (hupdate : ∀ (p : ServerPlayer) (input : Input) (deltaTime rx ry : ℚ),
      P p → P (p.update sqrt input deltaTime rx ry))
    (hdamage : ∀ (p : ServerPlayer) (damage : ℚ) (attackerId : String),
      P p → P (p.takeDamage damage attackerId).1)
    (events : List ServerEvent) :
    ∀ s : Server, (∀ e ∈ s.gameState.players, P e.2) →
      ∀ e ∈ (s.exec cos sin sqrt events).gameState.players, P e.2 := by
  induction events with
  | nil => exact fun s hP => hP
  | cons ev events ih =>
    intro s hP
    unfold Server.exec
    rw [List.foldl_cons]
    apply ih
    cases ev with
    | joinRoom c data rx ry randomName now =>
      simp only [Server.step]
      unfold joinRoom
      simp only
      split
      · exact hP
      · intro e he
        simp only at he
        rcases mem_or_eq_of_mem_mapSet _ _ _ _ he with h1 | h1
        · rw [h1]
          exact hnew _ _ _ _ _ _
        · exact hP e h1
    | playerInput c input =>
      simp only [Server.step, playerInput]
      intro e he
      rcases mem_mapUpdate _ _ _ _ he with h1 | ⟨y, hy, h1⟩
      · exact hP e h1
      · rw [h1]
        exact hinput _ _ (hP y hy)
    | playerShoot c angle randomId now =>
      simp only [Server.step]
      unfold playerShoot
      split
      · exact hP
      · split_ifs
        · exact hP
        · exact hP
    | disconnect c =>
      simp only [Server.step, disconnect]
      intro e he
      exact hP e (List.mem_of_mem_filter he)
    | gameLoop now clock rnd =>
      simp only [Server.step, gameLoop_eq_sweep]
      apply sweep_induction sqrt _ clock (fun st => ∀ e ∈ st.players, P e.2)
      · intro e he
        unfold updatePlayers at he
        obtain ⟨e0, he0, rfl⟩ := List.mem_map.mp he
        exact hupdate _ _ _ _ _ (hP e0 he0)
      · intro c a _ st1 hst1
        exact processOne_players sqrt _ c a P (fun p att hp => hdamage p a.damage att hp)
          st1 hst1
    | sendGameState =>
      simp only [Server.step]
      unfold sendGameState
      split_ifs
      · exact hP
      · exact hP

/-- In every state of a player object `maxHp` is 100 and an alive player has `hp > 0`. -/
theorem reachable_alive_hp (p : ServerPlayer) (h : ServerPlayer.Reachable p) :
    p.maxHp = 100 ∧ (p.alive = true → 0 < p.hp) := by
  induction h with
  | new id type name rx ry =>
    exact ⟨rfl, fun _ => by norm_num [ServerPlayer.new]⟩
  | update sqrt p input deltaTime rx ry _ ih =>
    cases ha : p.alive
    · rw [update_dead_eq sqrt p input deltaTime rx ry ha]
      split
      · refine ⟨ih.1, fun _ => ?_⟩
        show 0 < p.maxHp
        rw [ih.1]
        norm_num
      · exact ⟨ih.1, fun h2 => by rw [ha] at h2; cases h2⟩
    · rw [update_alive_eq sqrt p input deltaTime rx ry ha]
      exact ⟨ih.1, fun _ => ih.2 ha⟩
  | takeDamage p damage attackerId _ ih =>
    cases hd : (p.takeDamage damage attackerId).2.died
    · refine ⟨by rw [takeDamage_maxHp]; exact ih.1, ?_⟩
      intro ha
      have heq := takeDamage_of_not_died p damage attackerId hd
      have ha0 : p.alive = true := by
        rw [heq] at ha
        exact ha
      rcases lt_or_eq_of_le (le_max_left (0 : ℚ) (p.hp - damage)) with h1 | h1
      · rw [takeDamage_hp]
        exact h1
      · exfalso
        have := (takeDamage_died_iff p damage attackerId).mpr
          ⟨ha0, by rw [takeDamage_hp]; exact h1.symm⟩
        rw [hd] at this
        cases this
    · rw [takeDamage_of_died p damage attackerId hd]
      exact ⟨ih.1, fun h2 => by cases h2⟩
  | respawn p rx ry _ ih =>
    refine ⟨ih.1, fun _ => ?_⟩
    show 0 < p.maxHp
    rw [ih.1]
    norm_num
  | setRoom p room _ ih => exact ih
  | setInput p input _ ih => exact ih

/-- C15. Alive implies positive health: in every state a player object reaches from its
construction by any sequence of `update`, `takeDamage` (with any damage), `respawn` and
the writes of `room` and `lastInput`, an alive player has `hp > 0`, so a player with
`hp = 0` is not alive; a tick of `gameLoop` takes players in such states to players in
such states, and so does every run of the server from its initial state. -/
theorem C15_alive_positive_hp :
    (∀ p : ServerPlayer, ServerPlayer.Reachable p → p.alive = true → 0 < p.hp) ∧
    (∀ p : ServerPlayer, ServerPlayer.Reachable p → p.hp = 0 → p.alive = false) ∧
    (∀ (sqrt : ℚ → ℚ) (now : ℚ) (clock : ℕ → ℚ) (rnd : String → ℚ × ℚ) (gs : GameState),
      (∀ e ∈ gs.players, ServerPlayer.Reachable e.2) →
      ∃ r, gameLoop sqrt now clock rnd gs = some r ∧
        ∀ e ∈ r.1.players, ServerPlayer.Reachable e.2 ∧ (e.2.alive = true → 0 < e.2.hp)) ∧
    (∀ (cos sin sqrt : ℚ → ℚ) (now : ℚ) (events : List ServerEvent),
      ∀ e ∈ ((Server.init now).exec cos sin sqrt events).gameState.players,
        ServerPlayer.Reachable e.2 ∧ (e.2.alive = true → 0 < e.2.hp)) := by
  refine ⟨fun p h => (reachable_alive_hp p h).2, ?_, ?_, ?_⟩
  · intro p h h0
    cases ha : p.alive
    · rfl
    · have := (reachable_alive_hp p h).2 ha
      rw [h0] at this
      exact absurd this (lt_irrefl _)
  · intro sqrt now clock rnd gs hpl
    refine ⟨_, gameLoop_eq_sweep sqrt now clock rnd gs, ?_⟩
    simp only
    suffices hreach : ∀ e ∈ (sweep sqrt (min 100 (now - gs.lastUpdateTime)) clock
        gs.projectiles ⟨updatePlayers sqrt (min 100 (now - gs.lastUpdateTime)) rnd gs.players,
          [], []⟩).players, ServerPlayer.Reachable e.2 from
      fun e he => ⟨hreach e he, (reachable_alive_hp e.2 (hreach e he)).2⟩
    apply sweep_induction sqrt _ clock (fun st => ∀ e ∈ st.players, ServerPlayer.Reachable e.2)
    · intro e he
      unfold updatePlayers at he
      obtain ⟨e0, he0, rfl⟩ := List.mem_map.mp he
      exact ServerPlayer.Reachable.update sqrt _ _ _ _ _ (hpl e0 he0)
    · intro c a _ st1 hst1
      exact processOne_players sqrt _ c a ServerPlayer.Reachable
        (fun p att hp => ServerPlayer.Reachable.takeDamage p a.damage att hp) st1 hst1
  · intro cos sin sqrt now events
    have hreach := exec_induction_any cos sin sqrt ServerPlayer.Reachable
      (fun id type name rx ry room =>
        ServerPlayer.Reachable.setRoom _ room (ServerPlayer.Reachable.new id type name rx ry))
      (fun p input hp => ServerPlayer.Reachable.setInput p input hp)
      (fun p input deltaTime rx ry hp =>
        ServerPlayer.Reachable.update sqrt p input deltaTime rx ry hp)
      (fun p damage attackerId hp => ServerPlayer.Reachable.takeDamage p damage attackerId hp)
      events (Server.init now) (by intro e he; cases he)
    exact fun e he => ⟨hreach e he, (reachable_alive_hp e.2 (hreach e he)).2⟩

/-- A witness of C15: a new player hit for its 100 health points has `hp = 0` and is
not alive. -/
theorem C15_alive_positive_hp_witness :
    ((ServerPlayer.new "a" PlayerType.EAU "Mage" 0 0).takeDamage 100 "b").1.alive = false :=
  C15_alive_positive_hp.2.1 _
    (ServerPlayer.Reachable.takeDamage _ 100 "b" (ServerPlayer.Reachable.new "a" PlayerType.EAU
      "Mage" 0 0))
    (by rw [takeDamage_hp]; norm_num [ServerPlayer.new])


end Dementio
